import Mathlib

/-!
# Release acquisition and update pipeline of the game launcher

A shallow embedding of the parts of `electron/main.js`,
`src/services/githubApiService.js`, `src/services/autoUpdateService.js`,
`src/services/githubService.js` and `src/services/launcherUpdateService.js`
that decide which release asset is fetched, how versions are parsed and
compared, and how an update is swapped into the install directory.

JavaScript strings are Lean `String`s read through their character lists;
the string built-ins used by the source (`includes`, `endsWith`,
`toLowerCase`, `trim`, `split`, `Number`) are given structurally recursive
definitions so that every function evaluates on concrete inputs.
-/

namespace Launcher

/-! ## JavaScript string built-ins -/

/-- Model of `s.includes(sub)` on character lists: `sub` occurs contiguously in `s`. -/
def includesChars (sub : List Char) : List Char → Bool
  | [] => sub.isEmpty
  | c :: cs => sub.isPrefixOf (c :: cs) || includesChars sub cs

/-- Model of `s.includes(sub)`. -/
def includes (s sub : String) : Bool := includesChars sub.data s.data

/-- Model of `s.endsWith(suffix)`. -/
def endsWith (s suffix : String) : Bool := suffix.data.isSuffixOf s.data

/-- Model of `s.startsWith(pre)`. -/
def startsWith (s pre : String) : Bool := pre.data.isPrefixOf s.data

/-- Model of `s.toLowerCase()`; the mapping is the one of the ASCII letters, which is
all the launcher relies on (it only tests for the suffixes `.exe` and `.zip`). -/
def toLowerCase (s : String) : String := ⟨s.data.map Char.toLower⟩

/-- White space and line terminators of ECMAScript (`StrWhiteSpaceChar`),
the characters removed by `trim()` and skipped by `Number()`. -/
def isStrWhiteSpaceChar (c : Char) : Bool :=
  let n := c.toNat
  n == 0x09 || n == 0x0A || n == 0x0B || n == 0x0C || n == 0x0D || n == 0x20 ||
  n == 0xA0 || n == 0x1680 || (0x2000 ≤ n && n ≤ 0x200A) || n == 0x2028 ||
  n == 0x2029 || n == 0x202F || n == 0x205F || n == 0x3000 || n == 0xFEFF

/-- Character-list form of `trim()`. -/
def trimChars (cs : List Char) : List Char :=
  ((cs.dropWhile isStrWhiteSpaceChar).reverse.dropWhile isStrWhiteSpaceChar).reverse

/-- Model of `s.trim()`. -/
def trim (s : String) : String := ⟨trimChars s.data⟩

/-- Model of `s.split(sep)` for a one-character separator, on character lists. The
result is never empty: the empty string splits into one empty component. -/
def splitChars (sep : Char) : List Char → List (List Char)
  | [] => [[]]
  | c :: cs =>
    if c = sep then [] :: splitChars sep cs
    else
      match splitChars sep cs with
      | [] => [[c]]
      | p :: ps => (c :: p) :: ps

/-- Model of `s.split(sep)` for a one-character separator. -/
def split (s : String) (sep : Char) : List String :=
  (splitChars sep s.data).map String.mk

/-- Truthiness of a string value that may be `null`/`undefined`: present and
non-empty. -/
def truthy : Option String → Bool
  | none => false
  | some s => !s.data.isEmpty

/-- The value of `a || b` for two optional strings. -/
def orElseStr (a b : Option String) : Option String :=
  if truthy a then a else b

/-- Text a template literal inserts for a value that may be `undefined`. -/
def templateText : Option String → String
  | none => "undefined"
  | some s => s

/-! ## JavaScript numbers -/

/-- A JavaScript number: `NaN`, the two infinities, or a finite value. A finite
value is written as the rational number it is; the functions that produce
numbers (`Number`, division, multiplication) round to doubles. -/
inductive JSNum where
  | nan : JSNum
  | negInf : JSNum
  | fin (q : ℚ) : JSNum
  | posInf : JSNum
  deriving DecidableEq

namespace JSNum

/-- The comparison `a < b` of JavaScript: false as soon as one side is `NaN`. -/
def lt : JSNum → JSNum → Bool
  | nan, _ => false
  | _, nan => false
  | negInf, negInf => false
  | negInf, _ => true
  | fin _, negInf => false
  | fin a, fin b => decide (a < b)
  | fin _, posInf => true
  | posInf, _ => false

/-- The comparison `a > b` of JavaScript. -/
def gt (a b : JSNum) : Bool := lt b a

/-- Unary minus. -/
def neg : JSNum → JSNum
  | nan => nan
  | negInf => posInf
  | fin q => fin (-q)
  | posInf => negInf

/-- Truthiness of a number: everything except `NaN` and zero. -/
def truthy : JSNum → Bool
  | nan => false
  | fin q => decide (q ≠ 0)
  | _ => true

/-- The expression `x || 0` where `x` is an array element that may be missing. -/
def orZero : Option JSNum → JSNum
  | none => fin 0
  | some x => if x.truthy then x else fin 0

end JSNum

/-! ## Double-precision arithmetic -/

/-- The base-2 logarithm of `n`, rounded down, computed in at most `fuel` halvings. -/
def log2Fuel : Nat → Nat → Nat
  | 0, _ => 0
  | fuel + 1, n => if 2 ≤ n then log2Fuel fuel (n / 2) + 1 else 0

/-- The position of the leading bit of `n`: the `k` with `2 ^ k ≤ n < 2 ^ (k + 1)`. -/
def floorLog2 (n : Nat) : Nat := log2Fuel n n

/-- The quotient `a / b` rounded to the nearest whole number, a tie going to
the even neighbour. -/
def roundHalfEven (a b : Nat) : Nat :=
  if 2 * (a % b) < b then a / b
  else if b < 2 * (a % b) then a / b + 1
  else if (a / b) % 2 = 0 then a / b else a / b + 1

/-- The binade of the positive quotient `num / den`: the integer `e` with
`2 ^ e ≤ num / den < 2 ^ (e + 1)`. -/
def binadeOf (num den : Nat) : Int :=
  let c : Int := (floorLog2 num : Int) - (floorLog2 den : Int)
  if 0 ≤ c then (if den * 2 ^ c.toNat ≤ num then c else c - 1)
  else (if den ≤ num * 2 ^ (-c).toNat then c else c - 1)

/-- A finite double that is not negative: the number `mant * 2 ^ exp`. -/
structure Dyadic where
  mant : Nat
  exp : Int
  deriving DecidableEq

/-- Numerator of `num / den / 2 ^ s` written as a quotient of natural numbers. -/
def scaledNum (num : Nat) (s : Int) : Nat :=
  if 0 ≤ s then num else num * 2 ^ (-s).toNat

/-- Denominator of `num / den / 2 ^ s` written as a quotient of natural numbers. -/
def scaledDen (den : Nat) (s : Int) : Nat :=
  if 0 ≤ s then den * 2 ^ s.toNat else den

/-- The double nearest to `num / den` (round to nearest, ties to even, 53
significant bits, exponents from -1022 to 1023, subnormal numbers below);
`none` is `Infinity`. -/
def toDouble (num den : Nat) : Option Dyadic :=
  if num = 0 then some ⟨0, 0⟩
  else
    let e := max (binadeOf num den) (-1022)
    let m := roundHalfEven (scaledNum num (e - 52)) (scaledDen den (e - 52))
    if 1024 ≤ e ∨ (e = 1023 ∧ m = 2 ^ 53) then none else some ⟨m, e - 52⟩

/-- The rational number a double stands for. -/
def Dyadic.val (d : Dyadic) : ℚ := (d.mant : ℚ) * (2 : ℚ) ^ d.exp

/-- The product of a double and a natural number, rounded to a double. -/
def Dyadic.mulNat (x : Dyadic) (k : Nat) : Option Dyadic :=
  toDouble (scaledNum (x.mant * k) (-x.exp)) (scaledDen 1 (-x.exp))

/-- Model of `Math.floor` on a double that is not negative. -/
def Dyadic.floor (x : Dyadic) : Nat :=
  scaledNum x.mant (-x.exp) / scaledDen 1 (-x.exp)

/-- Model of `Math.round` on a double that is not negative: the nearest whole
number, a tie going up. -/
def Dyadic.round (x : Dyadic) : Nat :=
  (2 * scaledNum x.mant (-x.exp) + scaledDen 1 (-x.exp)) / (2 * scaledDen 1 (-x.exp))

/-- The value `(a / t) * 100` computed in doubles, for natural numbers `a`
and `t` that doubles hold exactly. -/
def percentOf (a t : Nat) : Option Dyadic :=
  (toDouble a t).bind (fun x => x.mulNat 100)

/-- The order of doubles, `none` (`Infinity`) being the greatest. -/
def doubleLe : Option Dyadic → Option Dyadic → Prop
  | _, none => True
  | none, some _ => False
  | some x, some y => x.val ≤ y.val

/-- A double as a JavaScript number. -/
def Dyadic.toNum (x : Dyadic) : JSNum :=
  if 0 ≤ x.exp then JSNum.fin ((x.mant * 2 ^ x.exp.toNat : Nat) : ℚ)
  else if x.mant % 2 ^ (-x.exp).toNat = 0 then
    JSNum.fin ((x.mant / 2 ^ (-x.exp).toNat : Nat) : ℚ)
  else JSNum.fin ((x.mant : ℚ) / ((2 ^ (-x.exp).toNat : Nat) : ℚ))

/-- The JavaScript number nearest to `num / den`. -/
def doubleOf (num den : Nat) : JSNum :=
  match toDouble num den with
  | none => JSNum.posInf
  | some x => x.toNum


/-- Value of one digit character (decimal or hexadecimal). -/
def digitValue (c : Char) : Option Nat :=
  let n := c.toNat
  if 48 ≤ n ∧ n ≤ 57 then some (n - 48)
  else if 97 ≤ n ∧ n ≤ 102 then some (n - 87)
  else if 65 ≤ n ∧ n ≤ 70 then some (n - 55)
  else none

/-- Value of a run of digits in the given base, continuing from `acc`;
`none` when a character is not a digit of that base. -/
def digitsValue (base : Nat) : List Char → Nat → Option Nat
  | [], acc => some acc
  | c :: cs, acc =>
    match digitValue c with
    | some d => if d < base then digitsValue base cs (acc * base + d) else none
    | none => none

/-- Value of a non-empty run of digits in the given base. -/
def parseDigits (base : Nat) (cs : List Char) : Option Nat :=
  if cs.isEmpty then none else digitsValue base cs 0

/-- The `SignedInteger` of an exponent part. -/
def parseSignedInteger : List Char → Option Int
  | '+' :: ds => (parseDigits 10 ds).map Int.ofNat
  | '-' :: ds => (parseDigits 10 ds).map (fun n => - Int.ofNat n)
  | ds => (parseDigits 10 ds).map Int.ofNat

/-- The exponent part of a decimal literal: absent, or `e`/`E` and a signed integer. -/
def parseExponent : List Char → Option Int
  | [] => some 0
  | c :: ds => if c = 'e' ∨ c = 'E' then parseSignedInteger ds else none

/-- The number value of the decimal `m * 10 ^ e`: the double nearest to it. -/
def decimalToDouble (m : Nat) (e : Int) : JSNum :=
  if 0 ≤ e then doubleOf (m * 10 ^ e.toNat) 1 else doubleOf m (10 ^ (-e).toNat)

/-- Model of `StrUnsignedDecimalLiteral`: `Infinity`, or digits with an optional
fraction and an optional exponent. -/
def strUnsignedDecimal (t : List Char) : JSNum :=
  if t = "Infinity".data then JSNum.posInf
  else
    let mantExp := t.span (fun c => !(c == 'e' || c == 'E'))
    let intFrac := mantExp.1.span (fun c => !(c == '.'))
    let ip := intFrac.1
    let hasDot := !intFrac.2.isEmpty
    let fp := intFrac.2.drop 1
    if (ip.isEmpty && fp.isEmpty) || (!hasDot && ip.isEmpty) then JSNum.nan
    else
      match digitsValue 10 ip 0, digitsValue 10 fp 0, parseExponent mantExp.2 with
      | some i, some f, some e =>
        decimalToDouble (i * 10 ^ fp.length + f) (e - (fp.length : Int))
      | _, _, _ => JSNum.nan

/-- Model of `StrNumericLiteral`: a signed decimal literal or an unsigned hexadecimal,
octal or binary integer literal. -/
def strNumericLiteral : List Char → JSNum
  | '0' :: 'x' :: ds => ((parseDigits 16 ds).map (fun n => doubleOf n 1)).getD JSNum.nan
  | '0' :: 'X' :: ds => ((parseDigits 16 ds).map (fun n => doubleOf n 1)).getD JSNum.nan
  | '0' :: 'o' :: ds => ((parseDigits 8 ds).map (fun n => doubleOf n 1)).getD JSNum.nan
  | '0' :: 'O' :: ds => ((parseDigits 8 ds).map (fun n => doubleOf n 1)).getD JSNum.nan
  | '0' :: 'b' :: ds => ((parseDigits 2 ds).map (fun n => doubleOf n 1)).getD JSNum.nan
  | '0' :: 'B' :: ds => ((parseDigits 2 ds).map (fun n => doubleOf n 1)).getD JSNum.nan
  | '+' :: ds => strUnsignedDecimal ds
  | '-' :: ds => (strUnsignedDecimal ds).neg
  | ds => strUnsignedDecimal ds

/-- Model of `Number(s)` for a string `s` (the abstract operation `StringToNumber`):
surrounding white space is skipped, the empty string is `0`, anything that is
not a numeric literal is `NaN`. -/
def jsNumber (s : String) : JSNum :=
  let t := trimChars s.data
  if t.isEmpty then JSNum.fin 0 else strNumericLiteral t

/-! ## `githubApiService.js`: versions -/

/-- The object returned by `parseVersion`. -/
structure Version where
  major : JSNum
  minor : JSNum
  patch : JSNum
  string : String
  deriving DecidableEq

/-- Model of `versionString.replace(/^v/, '')`: one `v` at the very start is removed. -/
def stripLeadingV (versionString : String) : String :=
  match versionString.data with
  | 'v' :: rest => ⟨rest⟩
  | _ => versionString

/-- Model of `GitHubApiService.parseVersion`. -/
def parseVersion (versionString : String) : Version :=
  let cleanVersion := stripLeadingV versionString
  let parts := (split cleanVersion '.').map jsNumber
  { major := JSNum.orZero parts[0]?
    minor := JSNum.orZero parts[1]?
    patch := JSNum.orZero parts[2]?
    string := cleanVersion }

/-- Model of `GitHubApiService.isNewerVersion`. -/
def isNewerVersion (versionA versionB : Version) : Bool :=
  if versionA.major.gt versionB.major then true
  else if versionA.major.lt versionB.major then false
  else if versionA.minor.gt versionB.minor then true
  else if versionA.minor.lt versionB.minor then false
  else versionA.patch.gt versionB.patch

/-! ## `electron/main.js`: the `game:download` handler -/

/-- One entry of `release.assets`. -/
structure Asset where
  name : String
  browser_download_url : String
  size : Nat
  deriving DecidableEq

/-- The fields of a release object of the GitHub API that the launcher reads.
A field that may be missing from the JSON is an `Option`. -/
structure Release where
  tag_name : Option String
  name : Option String
  body : Option String
  published_at : Option String
  assets : Option (List Asset)
  zipball_url : Option String
  tarball_url : Option String

/-- One entry of `GAME_CONFIGS`. -/
structure GameConfig where
  installPath : String
  repo : Option String
  repoOwner : Option String

/-- Model of `getGameRepo(gameId)`, given `GAME_CONFIGS[gameId]`. -/
def getGameRepo (config : Option GameConfig) : Option String :=
  match config with
  | none => some "Illusion"
  | some c => c.repo

/-- Model of `getGameRepoOwner(gameId)`, given `GAME_CONFIGS[gameId]`. -/
def getGameRepoOwner (config : Option GameConfig) : String :=
  match config with
  | none => "99Problemsx"
  | some c => if truthy c.repoOwner then templateText c.repoOwner else "99Problemsx"

/-- The install directory
`GAME_CONFIGS[gameId]?.installPath || path.join(home, 'AppData', 'Local', 'Pokemon Illusion')`;
`defaultDir` is the value of the `path.join`. -/
def installDirOf (config : Option GameConfig) (defaultDir : String) : String :=
  match config with
  | none => defaultDir
  | some c => if truthy (some c.installPath) then c.installPath else defaultDir

/-- The path `path.join(dir, name)`, kept as the two arguments of the join. -/
structure FilePath where
  dir : String
  name : String
  deriving DecidableEq

/-- The installed version as read in lines 626–635: the trimmed content of
`VERSION.txt`, or `null` when the file cannot be read. -/
def readInstalledVersion (versionFile : Option String) : Option String :=
  versionFile.map trim

/-- Name searched for in step one of the selection. -/
def patchAssetName (installedVersion : Option String) : String :=
  "Patch-from-" ++ templateText installedVersion ++ ".zip"

/-- Test of the `.exe` tier (lines 657–660). -/
def isFullExe (a : Asset) : Bool :=
  endsWith (toLowerCase a.name) ".exe" && !includes a.name "Patch-from"

/-- Test of the `.zip` tier (lines 663–666). -/
def isFullZip (a : Asset) : Bool :=
  endsWith (toLowerCase a.name) ".zip" && !includes a.name "Patch-from"

/-- Step one (lines 641–652): the patch asset for the installed version. -/
def findPatchAsset (assets : List Asset) (installedVersion : Option String) : Option Asset :=
  if truthy installedVersion then
    assets.find? (fun a => includes a.name (patchAssetName installedVersion))
  else none

/-- The full-install tiers (lines 655–668): first `.exe`, then `.zip`. -/
def findFullAsset (assets : List Asset) : Option Asset :=
  match assets.find? isFullExe with
  | some a => some a
  | none => assets.find? isFullZip

/-- The two variables `asset` and `isPatchUpdate` after line 668. -/
structure Selection where
  asset : Option Asset
  isPatchUpdate : Bool
  deriving DecidableEq

/-- The asset selection of the handler (lines 637–668). -/
def selectAsset (assets : List Asset) (installedVersion : Option String) : Selection :=
  match findPatchAsset assets installedVersion with
  | some a => { asset := some a, isPatchUpdate := true }
  | none => { asset := findFullAsset assets, isPatchUpdate := false }

/-- The object a handler resolves with. -/
structure DownloadResult where
  success : Bool
  message : String
  path : Option FilePath
  extracted : Option Bool
  deriving DecidableEq

/-- How the promise returned by the handler settles. -/
inductive HandlerResult where
  | resolved (r : DownloadResult)
  | rejected (message : String)
  deriving DecidableEq

/-- What the fallback block (lines 679–717) does once the request is issued:
it runs to the end (and then `Game.exe` exists or not), or something in it
throws. -/
inductive FallbackOutcome where
  | completed (gameExists : Bool)
  | threw (message : String)
  deriving DecidableEq

/-- Requests the handler issues, in order. -/
inductive Effect where
  | fallbackDownload (url : String) (dest : FilePath)
  | mkdir (dir : String)
  | assetDownload (url : String) (dest : FilePath)
  deriving DecidableEq

/-- The response of the releases API as the handler reads it. -/
structure ApiResponse where
  ok : Bool
  status : Nat
  statusText : String
  rateLimitReset : Option String
  json : Release

/-- Everything outside the handler that its run depends on. -/
structure DownloadEnv where
  /-- Content of `VERSION.txt`; `none` when reading it fails. -/
  versionFile : Option String
  /-- The text of `new Date(parseInt(reset, 10) * 1000).toLocaleString()`. -/
  resetText : String → String
  /-- Outcome of the fallback block for a given URL and destination. -/
  fallback : String → FilePath → FallbackOutcome
  /-- Error message of `fs.mkdir(installDir)`, if it fails. -/
  mkdirError : Option String
  /-- How the download promise of lines 756–778 settles. -/
  download : String → FilePath → Nat → Bool → HandlerResult

/-- The message thrown at lines 608–617 for a response that is not ok. -/
def apiFailureMessage (env : DownloadEnv) (response : ApiResponse) : String :=
  if response.status = 403 then
    let resetMsg :=
      if truthy response.rateLimitReset then
        " Rate limit resets at " ++ env.resetText (templateText response.rateLimitReset) ++ "."
      else ""
    "GitHub API returned 403: rate limit exceeded." ++ resetMsg ++
      " Consider setting GITHUB_TOKEN environment variable with a personal access token to increase rate limits."
  else
    "GitHub API returned " ++ toString response.status ++ ": " ++ response.statusText

/-- The source-archive URL `release.zipball_url || release.tarball_url`. -/
def fallbackUrl (release : Release) : Option String :=
  orElseStr release.zipball_url release.tarball_url

/-- The file name of line 675. -/
def fallbackName (repo : Option String) (release : Release) : String :=
  templateText repo ++ "-" ++
    (if truthy release.tag_name then templateText release.tag_name else "latest") ++ "-source.zip"

/-- The message of the error thrown at line 727. -/
def noAssetMessage (owner : String) (repo : Option String) (release : Release) : String :=
  "Keine Game.exe oder .zip Datei im neuesten Release gefunden.\n\nUm das Spiel herunterzuladen:\n1. Gehe zu: https://github.com/" ++
    owner ++ "/" ++ templateText repo ++ "/releases/tag/" ++ templateText release.tag_name ++
    "\n2. Klicke auf \"Edit\" (Bearbeiten)\n3. Lade deine Spiel-Zip-Datei als Asset hoch\n4. Aktualisiere das Release\n\nAlternativ kannst du das Spiel manuell installieren."

/-- The `catch` of lines 779–782. -/
def caught (message : String) : HandlerResult :=
  HandlerResult.resolved { success := false, message := message, path := none, extracted := none }

/-- The branch `if (!asset)` of lines 670–728. -/
def noAssetBranch (env : DownloadEnv) (owner : String) (repo : Option String)
    (installDir : String) (release : Release) : HandlerResult × List Effect :=
  let failure := caught (noAssetMessage owner repo release)
  match fallbackUrl release with
  | none => (failure, [])
  | some url =>
    if truthy (some url) then
      let fallbackPath : FilePath := { dir := installDir, name := fallbackName repo release }
      match env.fallback url fallbackPath with
      | FallbackOutcome.completed _ =>
        (HandlerResult.resolved
          { success := true
            message := "Fallback zip downloaded and extracted"
            path := some { dir := installDir, name := "Game.exe" }
            extracted := some true },
          [Effect.fallbackDownload url fallbackPath])
      | FallbackOutcome.threw _ => (failure, [Effect.fallbackDownload url fallbackPath])
    else (failure, [])

/-- The handler `ipcMain.handle('game:download')` (lines 590–783), given
`GAME_CONFIGS[gameId]` and the response of the releases API. -/
def gameDownload (env : DownloadEnv) (config : Option GameConfig) (defaultDir : String)
    (response : ApiResponse) : HandlerResult × List Effect :=
  let repo := getGameRepo config
  let owner := getGameRepoOwner config
  if !response.ok then (caught (apiFailureMessage env response), [])
  else
    let release := response.json
    match release.assets with
    | none => (caught "Cannot read properties of undefined (reading 'map')", [])
    | some assets =>
      let installDir := installDirOf config defaultDir
      let installedVersion := readInstalledVersion env.versionFile
      let selection := selectAsset assets installedVersion
      match selection.asset with
      | none => noAssetBranch env owner repo installDir release
      | some asset =>
        let isZipFile := endsWith (toLowerCase asset.name) ".zip"
        match env.mkdirError with
        | some message => (caught message, [Effect.mkdir installDir])
        | none =>
          let downloadPath : FilePath := { dir := installDir, name := asset.name }
          (env.download asset.browser_download_url downloadPath asset.size isZipFile,
            [Effect.mkdir installDir, Effect.assetDownload asset.browser_download_url downloadPath])

/-! ## A file system -/

/-- An absolute path, as the list of its components. -/
abbrev Path := List String

/-- A file with its content, or a directory with its named entries. -/
inductive Node where
  | file (content : String) : Node
  | dir (entries : List (String × Node)) : Node

/-- The entry called `name` in a directory listing (the first one). -/
def getEntry {α : Type} : List (String × α) → String → Option α
  | [], _ => none
  | (k, v) :: rest, name => if k = name then some v else getEntry rest name

/-- Put `v` under `name`, replacing the entry of that name if there is one. -/
def setEntry {α : Type} : List (String × α) → String → α → List (String × α)
  | [], name, v => [(name, v)]
  | (k, w) :: rest, name, v =>
    if k = name then (name, v) :: rest else (k, w) :: setEntry rest name v

/-- Drop every entry called `name`. -/
def eraseEntry {α : Type} : List (String × α) → String → List (String × α)
  | [], _ => []
  | (k, w) :: rest, name =>
    if k = name then eraseEntry rest name else (k, w) :: eraseEntry rest name

namespace Node

/-- The node at a path below `root`, if the path exists. -/
def get? : Node → Path → Option Node
  | n, [] => some n
  | file _, _ :: _ => none
  | dir es, c :: rest =>
    match getEntry es c with
    | some k => get? k rest
    | none => none

/-- Put node `n` at a path whose parent directory exists; `none` when the
parent is missing or is a file, or when the path is the root. -/
def set : Node → Path → Node → Option Node
  | _, [], _ => none
  | file _, _ :: _, _ => none
  | dir es, [c], n => some (dir (setEntry es c n))
  | dir es, c :: d :: rest, n =>
    match getEntry es c with
    | some k =>
      match set k (d :: rest) n with
      | some k' => some (dir (setEntry es c k'))
      | none => none
    | none => none

/-- Remove whatever is at a path (nothing happens when the path does not exist). -/
def remove : Node → Path → Node
  | n, [] => n
  | file c, _ :: _ => file c
  | dir es, [c] => dir (eraseEntry es c)
  | dir es, c :: d :: rest =>
    match getEntry es c with
    | some k => dir (setEntry es c (remove k (d :: rest)))
    | none => dir es

/-- Whether the node is a directory. -/
def isDirectory : Node → Bool
  | dir _ => true
  | file _ => false

end Node

/-- Model of `fsSync.existsSync(p)`. -/
def existsSync (fs : Node) (p : Path) : Bool := (fs.get? p).isSome

/-- Model of `fs.mkdir(p)` with the option `recursive`: creates the missing directories along
`p`; fails when a file is in the way. -/
def mkdirRecursive : Node → Path → Except String Node
  | Node.dir es, [] => Except.ok (Node.dir es)
  | Node.file _, [] => Except.error "EEXIST"
  | Node.file _, _ :: _ => Except.error "ENOTDIR"
  | Node.dir es, c :: rest =>
    match getEntry es c with
    | some k =>
      match mkdirRecursive k rest with
      | Except.ok k' => Except.ok (Node.dir (setEntry es c k'))
      | Except.error e => Except.error e
    | none =>
      match mkdirRecursive (Node.dir []) rest with
      | Except.ok k' => Except.ok (Node.dir (setEntry es c k'))
      | Except.error e => Except.error e

/-- Model of `fs.readdir(p)`: the names in a directory. -/
def readdir (fs : Node) (p : Path) : Except String (List String) :=
  match fs.get? p with
  | some (Node.dir es) => Except.ok (es.map Prod.fst)
  | some (Node.file _) => Except.error "ENOTDIR"
  | none => Except.error "ENOENT"

/-- Whether a rename of a node onto what is at the new path is allowed: a
file replaces a file, a directory replaces an empty directory. -/
def renameAllowed : Node → Option Node → Bool
  | _, none => true
  | Node.file _, some (Node.file _) => true
  | Node.dir _, some (Node.dir []) => true
  | _, _ => false

/-- Model of `fs.rename(oldPath, newPath)`. -/
def rename (fs : Node) (oldPath newPath : Path) : Except String Node :=
  match fs.get? oldPath with
  | none => Except.error "ENOENT"
  | some n =>
    if oldPath = newPath then Except.ok fs
    else if oldPath.isPrefixOf newPath then Except.error "EINVAL"
    else if renameAllowed n (fs.get? newPath) then
      match (fs.remove oldPath).set newPath n with
      | some fs' => Except.ok fs'
      | none => Except.error "ENOENT"
    else Except.error "ENOTEMPTY"

/-- Model of `fs.rm(p)` with the options `recursive` and `force`. -/
def rmRecursive (fs : Node) (p : Path) : Node := fs.remove p

/-- Errors the operating system reports for writing particular files (a
locked or protected file, an invalid name, a full disk), by destination path. -/
abbrev Faults := Path → Option String

/-- Model of `fs.copyFile(src, dest)`. -/
def copyFile (faults : Faults) (fs : Node) (src dest : Path) : Except String Node :=
  match fs.get? src with
  | none => Except.error "ENOENT"
  | some (Node.dir _) => Except.error "EISDIR"
  | some (Node.file content) =>
    match faults dest with
    | some e => Except.error e
    | none =>
      match fs.get? dest with
      | some (Node.dir _) => Except.error "EISDIR"
      | _ =>
        match fs.set dest (Node.file content) with
        | some fs' => Except.ok fs'
        | none => Except.error "ENOENT"

/-- The file system after an operation, and the error it threw, if any. -/
structure Outcome where
  fs : Node
  error : Option String

/-! ## `autoUpdateService.js`: installing an update -/

/-- The loop `for (const entry of entries)` of `copyRecursive`, `copy` being
the recursive call. -/
def copyEntries (copy : Node → Path → Path → Outcome) (src dest : Path) :
    List String → Node → Outcome
  | [], fs => { fs := fs, error := none }
  | entry :: entries, fs =>
    match copy fs (src ++ [entry]) (dest ++ [entry]) with
    | { fs := fs', error := none } => copyEntries copy src dest entries fs'
    | failed => failed

/-- Model of `AutoUpdateService.copyRecursive(src, dest)`. `fuel` bounds the depth of
the recursion; running out of it is reported as an error. -/
def copyRecursive (faults : Faults) : Nat → Node → Path → Path → Outcome
  | 0, fs, _, _ => { fs := fs, error := some "recursion too deep" }
  | fuel + 1, fs, src, dest =>
    match fs.get? src with
    | none => { fs := fs, error := some "ENOENT" }
    | some stats =>
      if stats.isDirectory then
        match mkdirRecursive fs dest with
        | Except.error e => { fs := fs, error := some e }
        | Except.ok fs1 =>
          match readdir fs1 src with
          | Except.error e => { fs := fs1, error := some e }
          | Except.ok entries => copyEntries (copyRecursive faults fuel) src dest entries fs1
      else
        match copyFile faults fs src dest with
        | Except.error e => { fs := fs, error := some e }
        | Except.ok fs1 => { fs := fs1, error := none }

/-- The path `targetPath + '_backup_' + Date.now()`: the suffix goes onto the
last component. -/
def backupPathOf (targetPath : Path) (now : Nat) : Path :=
  match targetPath.getLast? with
  | none => ["_backup_" ++ toString now]
  | some last => targetPath.dropLast ++ [last ++ "_backup_" ++ toString now]

/-- Model of `AutoUpdateService.installUpdate(sourcePath, targetPath)`, `now` being the
value of `Date.now()`. An outcome without error is the return of `true`; the
`catch` logs and throws the error again. -/
def installUpdate (faults : Faults) (fuel : Nat) (now : Nat) (fs : Node)
    (sourcePath targetPath : Path) : Outcome :=
  let backupPath := backupPathOf targetPath now
  let renamed : Except String Node :=
    if existsSync fs targetPath then rename fs targetPath backupPath else Except.ok fs
  match renamed with
  | Except.error e => { fs := fs, error := some e }
  | Except.ok fs1 =>
    match copyRecursive faults fuel fs1 sourcePath targetPath with
    | { fs := fs2, error := some e } => { fs := fs2, error := some e }
    | { fs := fs2, error := none } =>
      let fs3 := if existsSync fs2 backupPath then rmRecursive fs2 backupPath else fs2
      { fs := fs3, error := none }

/-! ## `autoUpdateService.js`: checking for updates -/

/-- The object returned by `GitHubApiService.findWindowsAsset`. -/
structure WindowsAsset where
  name : String
  downloadUrl : String
  size : Nat
  deriving DecidableEq

/-- Test used by `findWindowsAsset`. -/
def isWindowsAsset (asset : Asset) : Bool :=
  includes asset.name "Windows" || includes asset.name "win" ||
    endsWith asset.name ".zip" || includes asset.name "Setup"

/-- Model of `GitHubApiService.findWindowsAsset`. -/
def findWindowsAsset (release : Release) : Option WindowsAsset :=
  match release.assets with
  | none => none
  | some assets =>
    if assets.isEmpty then none
    else
      match assets.find? isWindowsAsset with
      | some a => some { name := a.name, downloadUrl := a.browser_download_url, size := a.size }
      | none => none

/-- The fields of `AutoUpdateService` that the update check reads or writes. -/
structure ServiceState where
  currentVersion : String
  isChecking : Bool
  isDownloading : Bool
  downloadProgress : JSNum
  hasMainWindow : Bool
  deriving DecidableEq

/-- The object `updateInfo` built by `checkForUpdates`. -/
structure UpdateInfo where
  available : Bool
  version : String
  name : Option String
  body : Option String
  publishedAt : Option String
  downloadUrl : Option String
  size : Nat
  deriving DecidableEq

/-- What `await this.githubApi.getLatestRelease()` gives: the request fails,
or the body parses to a falsy value (`none`) or to a release object. -/
inductive Fetched where
  | threw (message : String)
  | value (release : Option Release)

/-- Result of one call of `checkForUpdates`: the value returned (`none` is
`null`), the service afterwards, and the `update-available` messages sent to
the window. -/
structure CheckResult where
  result : Option UpdateInfo
  state : ServiceState
  sent : List UpdateInfo

/-- Model of `AutoUpdateService.checkForUpdates(silent)`, the second definition in the
class body (lines 124–190), which is the one in effect. -/
def checkForUpdates (st : ServiceState) (silent : Bool) (fetched : Fetched) : CheckResult :=
  if st.isChecking then { result := none, state := st, sent := [] }
  else
    let released : ServiceState := { st with isChecking := false }
    match fetched with
    | Fetched.threw _ => { result := none, state := released, sent := [] }
    | Fetched.value none => { result := none, state := released, sent := [] }
    | Fetched.value (some latestRelease) =>
      match latestRelease.tag_name with
      | none => { result := none, state := released, sent := [] }
      | some tag =>
        let latestVersion := parseVersion tag
        let currentVersion := parseVersion st.currentVersion
        if isNewerVersion latestVersion currentVersion then
          let windowsAsset := findWindowsAsset latestRelease
          match latestRelease.assets with
          | none => { result := none, state := released, sent := [] }
          | some _ =>
            let updateInfo : UpdateInfo :=
              { available := true
                version := tag
                name := latestRelease.name
                body := latestRelease.body
                publishedAt := latestRelease.published_at
                downloadUrl :=
                  match windowsAsset with
                  | some w => if truthy (some w.downloadUrl) then some w.downloadUrl else none
                  | none => none
                size :=
                  match windowsAsset with
                  | some w => w.size
                  | none => 0 }
            { result := some updateInfo
              state := released
              sent := if !silent && st.hasMainWindow then [updateInfo] else [] }
        else { result := none, state := released, sent := [] }



/-- A version whose three fields are numbers (none is `NaN`). -/
def Version.numeric (v : Version) : Prop :=
  v.major ≠ JSNum.nan ∧ v.minor ≠ JSNum.nan ∧ v.patch ≠ JSNum.nan

/-- The triple `(major, minor, patch)` of `a` is strictly greater than that of
`b` in lexicographic order. -/
def Version.lexGt (a b : Version) : Prop :=
  a.major.gt b.major = true ∨
    (a.major = b.major ∧
      (a.minor.gt b.minor = true ∨ (a.minor = b.minor ∧ a.patch.gt b.patch = true)))

/-- The value the specification gives to a component of a version string:
its numeric value, and `0` when it is missing or not numeric. -/
def specComponentValue : Option String → JSNum
  | none => JSNum.fin 0
  | some c => if jsNumber c = JSNum.nan then JSNum.fin 0 else jsNumber c

/-- A decimal digit `0`–`9`. -/
def isDecimalDigit (c : Char) : Bool := 48 ≤ c.toNat && c.toNat ≤ 57

/-- The natural number written by a list of decimal digits. -/
def decimalValue (ds : List Char) : Nat :=
  ds.foldl (fun acc c => acc * 10 + (c.toNat - 48)) 0

/-! ## `electron/main.js`: streaming a download -/

/-- How the transfer of a response body ends: the write stream finishes, the
response stream emits `error`, or the write stream emits `error`. -/
inductive StreamEnd where
  | finish : StreamEnd
  | responseError (message : String) : StreamEnd
  | fileError (message : String) : StreamEnd
  deriving DecidableEq

/-- A response body: the chunks delivered (and written) before the transfer
ends, and how it ends. -/
structure Body where
  chunks : List String
  ending : StreamEnd
  deriving DecidableEq

/-- An HTTP response as the launcher reads it; `location` is the header used
when the status is 301 or 302, `contentLength` the parsed `content-length`
(`none` when `parseInt` gives `NaN`). -/
structure Response where
  statusCode : Nat
  location : String
  contentLength : Option Nat
  body : Body
  deriving DecidableEq

/-- What a request gives: an `error` event of the request, or a response. -/
inductive Reply where
  | failed (message : String) : Reply
  | answered (response : Response) : Reply
  deriving DecidableEq

/-- The servers: what a GET of a URL gives. -/
abbrev Network := String → Reply

/-- The regular files of the machine, by the path they were opened with;
the two arguments of `path.join` are not normalised, so paths that differ as
texts count as different files. -/
abbrev Files := FilePath → Option String

/-- Creating or overwriting a file. -/
def Files.write (files : Files) (p : FilePath) (content : String) : Files :=
  Function.update files p (some content)

/-- Model of `fs.unlink(p)`; a failure of the deletion is ignored by every caller. -/
def Files.unlink (files : Files) (p : FilePath) : Files :=
  Function.update files p none

/-- The library `adm-zip`: whether `getAdmZip()` finds it, and the file entries
(name and data) it reads from the bytes of an archive, or the error it throws. -/
structure ZipTools where
  available : Bool
  entries : String → Except String (List (String × String))

/-- Model of `zip.extractAllTo(dir, true)`: every entry is written below `dir`,
overwriting. -/
def extractAllTo (files : Files) (dir : String) : List (String × String) → Files
  | [] => files
  | (name, data) :: rest => extractAllTo (files.write { dir := dir, name := name } data) dir rest

/-- A message to the renderer: `download:progress` or `download:extracting`. -/
inductive Message where
  | progress (value : JSNum) : Message
  | extracting (flag : Bool) : Message
  deriving DecidableEq

/-- The value `Math.floor((downloadedBytes / fileSize) * 100)`, the quotient and
the product being those of doubles (29 of 100 bytes give 28). The byte counts
are natural numbers that doubles hold exactly (below `2 ^ 53`). A `fileSize`
of zero gives `Infinity`, or `NaN` while nothing has arrived. -/
def floorPercent (downloadedBytes fileSize : Nat) : JSNum :=
  if fileSize = 0 then (if downloadedBytes = 0 then JSNum.nan else JSNum.posInf)
  else
    match percentOf downloadedBytes fileSize with
    | none => JSNum.posInf
    | some p => JSNum.fin ((p.floor : Nat) : ℚ)

/-- The variables `downloadedBytes` and `lastProgress` of `handleDownload`. -/
structure DataState where
  downloadedBytes : Nat
  lastProgress : JSNum

/-- The `data` handler of `handleDownload` (lines 792–810) for one chunk: the
new variables and the progress value sent, if any. -/
def onData (mainWindow : Bool) (fileSize : Nat) (st : DataState) (chunkLength : Nat) :
    DataState × List JSNum :=
  let downloadedBytes := st.downloadedBytes + chunkLength
  let progress := floorPercent downloadedBytes fileSize
  if progress.gt st.lastProgress then
    ({ downloadedBytes := downloadedBytes, lastProgress := progress },
      if mainWindow then [progress] else [])
  else ({ downloadedBytes := downloadedBytes, lastProgress := st.lastProgress }, [])

/-- The progress values sent while the chunks of the given lengths arrive. -/
def dataProgress (mainWindow : Bool) (fileSize : Nat) : DataState → List Nat → List JSNum
  | _, [] => []
  | st, n :: rest =>
    (onData mainWindow fileSize st n).2 ++
      dataProgress mainWindow fileSize (onData mainWindow fileSize st n).1 rest

/-- The variables of `handleDownload` when the stream starts. -/
def initialData : DataState := { downloadedBytes := 0, lastProgress := JSNum.fin 0 }

/-- What one run of a download did: how the promise settles, the files
afterwards, and the messages sent to the renderer, in order. -/
structure DownloadRun where
  result : HandlerResult
  files : Files
  sent : List Message

/-- The function `handleDownload` (lines 785–897). The handler of `error` on the
response calls `file.close()`, which ends the write stream, so that the
handler of `finish` runs after it: the promise is rejected by then and the
file deleted (the archive reader finds nothing to open), but for a ZIP the
two messages in front of the extraction are still sent. -/
def handleDownload (zip : ZipTools) (mainWindow : Bool) (files : Files) (response : Response)
    (downloadPath : FilePath) (fileSize : Nat) (installDir : String) (isZipFile : Bool) :
    DownloadRun :=
  let content := String.join response.body.chunks
  let written := files.write downloadPath content
  let progress :=
    (dataProgress mainWindow fileSize initialData
      (response.body.chunks.map String.length)).map Message.progress
  match response.body.ending with
  | StreamEnd.fileError e =>
    { result := HandlerResult.rejected e, files := written.unlink downloadPath, sent := progress }
  | StreamEnd.responseError e =>
    { result := HandlerResult.rejected e, files := written.unlink downloadPath,
      sent := progress ++
        (if isZipFile && mainWindow then
          [Message.progress (JSNum.fin 100), Message.extracting true] else []) }
  | StreamEnd.finish =>
    if isZipFile then
      let sent1 := progress ++
        (if mainWindow then [Message.progress (JSNum.fin 100), Message.extracting true] else [])
      if !zip.available then
        { result := HandlerResult.rejected
            "ZIP-Extraktion fehlgeschlagen: adm-zip module not available",
          files := written, sent := sent1 }
      else
        match zip.entries content with
        | Except.error e =>
          { result := HandlerResult.rejected ("ZIP-Extraktion fehlgeschlagen: " ++ e),
            files := written, sent := sent1 }
        | Except.ok zipEntries =>
          let extracted := extractAllTo written installDir zipEntries
          { result := HandlerResult.resolved
              { success := true
                message := "Download und Extraktion erfolgreich abgeschlossen!"
                path := some { dir := installDir, name := "Game.exe" }
                extracted := some true },
            files := extracted.unlink downloadPath,
            sent := sent1 ++ (if mainWindow then [Message.extracting false] else []) }
    else
      { result := HandlerResult.resolved
          { success := true
            message := "Download erfolgreich abgeschlossen!"
            path := some downloadPath
            extracted := some false },
        files := written, sent := progress }

/-- Whether a status code is one of the two redirects the launcher follows. -/
def isRedirect (statusCode : Nat) : Bool := statusCode == 302 || statusCode == 301

/-- The promise of lines 756–778: the request for the asset, one redirect
followed, and `handleDownload` on the response. -/
def assetDownload (net : Network) (zip : ZipTools) (mainWindow : Bool) (files : Files)
    (downloadUrl : String) (downloadPath : FilePath) (fileSize : Nat) (installDir : String)
    (isZipFile : Bool) : DownloadRun :=
  match net downloadUrl with
  | Reply.failed e => { result := HandlerResult.rejected e, files := files, sent := [] }
  | Reply.answered response =>
    if isRedirect response.statusCode then
      match net response.location with
      | Reply.failed e => { result := HandlerResult.rejected e, files := files, sent := [] }
      | Reply.answered redirectResponse =>
        handleDownload zip mainWindow files redirectResponse downloadPath fileSize installDir
          isZipFile
    else if response.statusCode = 200 then
      handleDownload zip mainWindow files response downloadPath fileSize installDir isZipFile
    else
      { result := HandlerResult.rejected
          ("Download failed with status " ++ toString response.statusCode),
        files := files, sent := [] }

/-- What the fallback block did: its outcome (`none` when its promise never
settles) and the files afterwards. -/
structure FallbackRun where
  outcome : Option FallbackOutcome
  files : Files

/-- The rest of the fallback block once the archive is on disk (lines 705–719):
extraction, deletion of the archive, the look for `Game.exe`. -/
def fallbackExtract (zip : ZipTools) (files : Files) (fallbackPath : FilePath)
    (installDir : String) (content : String) : FallbackRun :=
  if !zip.available then
    { outcome := some (FallbackOutcome.threw "adm-zip module not available"), files := files }
  else
    match zip.entries content with
    | Except.error e => { outcome := some (FallbackOutcome.threw e), files := files }
    | Except.ok zipEntries =>
      let cleaned := (extractAllTo files installDir zipEntries).unlink fallbackPath
      { outcome := some (FallbackOutcome.completed
          (cleaned { dir := installDir, name := "Game.exe" }).isSome),
        files := cleaned }

/-- Streaming a response into the fallback file (lines 690–693 and 698–701):
only `finish` and `error` of the write stream have a listener. -/
def fallbackSave (zip : ZipTools) (files : Files) (fallbackPath : FilePath)
    (installDir : String) (body : Body) : FallbackRun :=
  let content := String.join body.chunks
  let written := files.write fallbackPath content
  match body.ending with
  | StreamEnd.finish => fallbackExtract zip written fallbackPath installDir content
  | StreamEnd.fileError e => { outcome := some (FallbackOutcome.threw e), files := written }
  | StreamEnd.responseError _ => { outcome := none, files := written }

/-- The fallback block (lines 679–719) for a source URL and its destination. -/
def fallbackDownload (net : Network) (zip : ZipTools) (files : Files) (url : String)
    (fallbackPath : FilePath) (installDir : String) : FallbackRun :=
  match net url with
  | Reply.failed e => { outcome := some (FallbackOutcome.threw e), files := files }
  | Reply.answered response =>
    if isRedirect response.statusCode then
      match net response.location with
      | Reply.failed e => { outcome := some (FallbackOutcome.threw e), files := files }
      | Reply.answered redirectResp =>
        fallbackSave zip files fallbackPath installDir redirectResp.body
    else if response.statusCode ≠ 200 then
      { outcome := some (FallbackOutcome.threw
          ("Fallback download failed with status " ++ toString response.statusCode)),
        files := files }
    else fallbackSave zip files fallbackPath installDir response.body

/-! ## `autoUpdateService.js`: downloading and installing an update -/

/-- The value `Math.round((downloadedSize / totalSize) * 100)`, `totalSize` being
`parseInt` of the `content-length` header (`none` for `NaN`). The quotient and
the product are those of doubles (23 of 40 bytes give 57), the byte counts
natural numbers that doubles hold exactly. -/
def roundPercent (downloadedSize : Nat) (totalSize : Option Nat) : JSNum :=
  match totalSize with
  | none => JSNum.nan
  | some t =>
    if t = 0 then (if downloadedSize = 0 then JSNum.nan else JSNum.posInf)
    else
      match percentOf downloadedSize t with
      | none => JSNum.posInf
      | some p => JSNum.fin ((p.round : Nat) : ℚ)

/-- The values passed to `onProgress` by the `data` handler of `downloadFile`
(lines 318–325) while the chunks of the given lengths arrive, `downloadedSize`
being the bytes received before. -/
def reportedProgress (totalSize : Option Nat) : Nat → List Nat → List JSNum
  | _, [] => []
  | downloadedSize, n :: rest =>
    roundPercent (downloadedSize + n) totalSize ::
      reportedProgress totalSize (downloadedSize + n) rest

/-- What one call of `downloadFile` did: how its promise settles (`none` when
it never does), the file system afterwards, and the values passed to
`onProgress`, in order. -/
structure FileRun where
  outcome : Option (Except String Unit)
  fs : Node
  reported : List JSNum

/-- Model of `AutoUpdateService.downloadFile(url, dest, onProgress)` (lines 276–345).
`fuel` bounds the number of requests; a chain of redirects that uses it up is
one that is still being followed. The write stream is opened first; when that
fails (no parent directory) nothing listens to its `error`, and nothing
listens to `error` of the response stream either: in both cases the promise
stays unsettled. -/
def downloadFile (net : Network) (hasOnProgress : Bool) :
    Nat → Node → String → Path → FileRun
  | 0, fs, _, _ => { outcome := none, fs := fs, reported := [] }
  | fuel + 1, fs, url, dest =>
    match fs.set dest (Node.file "") with
    | none => { outcome := none, fs := fs, reported := [] }
    | some opened =>
      match net url with
      | Reply.failed e =>
        { outcome := some (Except.error e), fs := opened.remove dest, reported := [] }
      | Reply.answered response =>
        if isRedirect response.statusCode then
          downloadFile net hasOnProgress fuel (opened.remove dest) response.location dest
        else if response.statusCode ≠ 200 then
          { outcome := some (Except.error
              ("Download failed with status " ++ toString response.statusCode)),
            fs := opened.remove dest, reported := [] }
        else
          let reported :=
            if hasOnProgress then
              reportedProgress response.contentLength 0 (response.body.chunks.map String.length)
            else []
          let written :=
            (opened.set dest (Node.file (String.join response.body.chunks))).getD opened
          match response.body.ending with
          | StreamEnd.finish => { outcome := some (Except.ok ()), fs := written, reported := reported }
          | StreamEnd.fileError e =>
            { outcome := some (Except.error e), fs := written.remove dest, reported := reported }
          | StreamEnd.responseError _ => { outcome := none, fs := written, reported := reported }

/-- The components of the name of an archive entry. -/
def entryPath (name : String) : Path :=
  (split name '/').filter (fun c => !(c == ""))

/-- Model of `zip.extractAllTo(dir, true)` on the directory tree: every entry
is written below `dir`, its parent directories being created. -/
def extractTree (fs : Node) (dir : Path) : List (String × String) → Except String Node
  | [] => Except.ok fs
  | (name, data) :: rest =>
    match mkdirRecursive fs (dir ++ entryPath name).dropLast with
    | Except.error e => Except.error e
    | Except.ok fs1 =>
      match fs1.get? (dir ++ entryPath name) with
      | some (Node.dir _) => Except.error "EISDIR"
      | _ =>
        match fs1.set (dir ++ entryPath name) (Node.file data) with
        | some fs2 => extractTree fs2 dir rest
        | none => Except.error "ENOENT"

/-- A message of the update service to the window. -/
inductive UpdateMessage where
  | downloadProgress (value : JSNum) : UpdateMessage
  | extracting : UpdateMessage
  | installing : UpdateMessage
  | complete (version : String) : UpdateMessage
  | error (message : String) : UpdateMessage
  deriving DecidableEq

/-- What one call of `downloadUpdate` did: how its promise settles (`none`
when it never does), the service and the file system afterwards, the messages
sent to the window. -/
structure UpdateRun where
  outcome : Option (Except String Unit)
  state : ServiceState
  fs : Node
  sent : List UpdateMessage

/-- The `catch` of `downloadUpdate` (lines 260–270). -/
def updateFailed (st : ServiceState) (fs : Node) (sent : List UpdateMessage)
    (message : String) : UpdateRun :=
  { outcome := some (Except.error message),
    state := { st with isDownloading := false, downloadProgress := JSNum.fin 0 },
    fs := fs,
    sent := sent ++ (if st.hasMainWindow then [UpdateMessage.error message] else []) }

/-- Model of `AutoUpdateService.downloadUpdate(updateInfo, installPath)` (lines 195–271).
`tempRoot` is `app.getPath('temp')`, `now` the value of `Date.now()` during
the installation. -/
def downloadUpdate (net : Network) (zip : ZipTools) (faults : Faults) (fuel now : Nat)
    (tempRoot : Path) (st : ServiceState) (fs : Node) (updateInfo : UpdateInfo)
    (installPath : Path) : UpdateRun :=
  if st.isDownloading then
    { outcome := some (Except.error "Download already in progress"), state := st, fs := fs,
      sent := [] }
  else if !truthy updateInfo.downloadUrl then
    { outcome := some (Except.error
        "No download available for this release. The release may not have any assets attached."),
      state := st, fs := fs, sent := [] }
  else
    let tempDir := tempRoot ++ ["mirrorbytes-update"]
    match mkdirRecursive fs tempDir with
    | Except.error e => updateFailed st fs [] e
    | Except.ok fs1 =>
      let zipPath := tempDir ++ ["update.zip"]
      let extractPath := tempDir ++ ["extracted"]
      let download := downloadFile net true fuel fs1 (templateText updateInfo.downloadUrl) zipPath
      let sent1 :=
        if st.hasMainWindow then download.reported.map UpdateMessage.downloadProgress else []
      match download.outcome with
      | none =>
        { outcome := none,
          state := { st with isDownloading := true,
                             downloadProgress := download.reported.getLast?.getD (JSNum.fin 0) },
          fs := download.fs, sent := sent1 }
      | some (Except.error e) => updateFailed st download.fs sent1 e
      | some (Except.ok _) =>
        let sent2 := sent1 ++ (if st.hasMainWindow then [UpdateMessage.extracting] else [])
        match mkdirRecursive download.fs extractPath with
        | Except.error e => updateFailed st download.fs sent2 e
        | Except.ok fs2 =>
          let archive :=
            match fs2.get? zipPath with
            | some (Node.file content) => zip.entries content
            | _ => Except.error "ENOENT"
          match archive with
          | Except.error e => updateFailed st fs2 sent2 e
          | Except.ok zipEntries =>
            match extractTree fs2 extractPath zipEntries with
            | Except.error e => updateFailed st fs2 sent2 e
            | Except.ok fs3 =>
              let sent3 := sent2 ++ (if st.hasMainWindow then [UpdateMessage.installing] else [])
              let installed := installUpdate faults fuel now fs3 extractPath installPath
              match installed.error with
              | some e => updateFailed st installed.fs sent3 e
              | none =>
                { outcome := some (Except.ok ()),
                  state := { st with isDownloading := false, downloadProgress := JSNum.fin 0 },
                  fs := rmRecursive installed.fs tempDir,
                  sent := sent3 ++
                    (if st.hasMainWindow then [UpdateMessage.complete updateInfo.version]
                     else []) }

/-! ## `autoUpdateService.js`: rollback -/

/-- Model of `path.dirname(p)`. -/
def dirname (p : Path) : Path := p.dropLast

/-- Model of `path.basename(p)`. -/
def basename (p : Path) : String := p.getLast?.getD ""

/-- The UTF-16 code units of a character: its code point, or a surrogate pair
for a character above `U+FFFF`. -/
def utf16Units (c : Char) : List Nat :=
  if c.toNat < 0x10000 then [c.toNat]
  else [0xD800 + (c.toNat - 0x10000) / 0x400, 0xDC00 + (c.toNat - 0x10000) % 0x400]

/-- The UTF-16 code units of a string, which is what JavaScript compares. -/
def codeUnits : List Char → List Nat
  | [] => []
  | c :: cs => utf16Units c ++ codeUnits cs

/-- The order of the default `Array.prototype.sort` on strings: by code units,
a proper prefix first. -/
def codeUnitsLt : List Nat → List Nat → Bool
  | [], [] => false
  | [], _ :: _ => true
  | _ :: _, [] => false
  | a :: as, b :: bs =>
    if a < b then true
    else if b < a then false
    else codeUnitsLt as bs

/-- Insertion of a name into a list sorted by `codeUnitsLt`. -/
def insertSorted (name : String) : List String → List String
  | [] => [name]
  | x :: rest =>
    if codeUnitsLt (codeUnits x.data) (codeUnits name.data) then x :: insertSorted name rest
    else name :: x :: rest

/-- Model of `names.sort()`. -/
def sortNames : List String → List String
  | [] => []
  | x :: rest => insertSorted x (sortNames rest)

/-- Model of `AutoUpdateService.rollback(installPath)` (lines 399–431). An outcome
without error is the return of `true`; the `catch` logs and throws again. -/
def rollback (fs : Node) (installPath : Path) : Outcome :=
  let parentDir := dirname installPath
  let backupName := basename installPath ++ "_backup_"
  match readdir fs parentDir with
  | Except.error e => { fs := fs, error := some e }
  | Except.ok files =>
    let backups := (sortNames (files.filter (fun f => startsWith f backupName))).reverse
    match backups with
    | [] => { fs := fs, error := some "No backup found" }
    | latest :: _ =>
      let latestBackup := parentDir ++ [latest]
      let cleared := if existsSync fs installPath then rmRecursive fs installPath else fs
      match rename cleared latestBackup installPath with
      | Except.error e => { fs := cleared, error := some e }
      | Except.ok restored => { fs := restored, error := none }

/-- The object returned by the handler `updates:rollback`. -/
structure RollbackResult where
  success : Bool
  error : Option String
  deriving DecidableEq

/-- The handler `ipcMain.handle('updates:rollback')` (lines 1078–1088). -/
def updatesRollback (fs : Node) (installPath : Path) : RollbackResult × Node :=
  match (rollback fs installPath).error with
  | none => ({ success := true, error := none }, (rollback fs installPath).fs)
  | some message => ({ success := false, error := some message }, (rollback fs installPath).fs)

/-- The values sent on the channel `download:progress`, in order. -/
def progressValues : List Message → List JSNum
  | [] => []
  | Message.progress v :: rest => v :: progressValues rest
  | Message.extracting _ :: rest => progressValues rest

/-! ## `electron/main.js`: the reset time of a rate limit -/

/-- Multiplication of JavaScript numbers. -/
def JSNum.mul : JSNum → JSNum → JSNum
  | JSNum.nan, _ => JSNum.nan
  | _, JSNum.nan => JSNum.nan
  | JSNum.fin a, JSNum.fin b => JSNum.fin (a * b)
  | JSNum.fin a, JSNum.posInf =>
    if a = 0 then JSNum.nan else if 0 < a then JSNum.posInf else JSNum.negInf
  | JSNum.fin a, JSNum.negInf =>
    if a = 0 then JSNum.nan else if 0 < a then JSNum.negInf else JSNum.posInf
  | JSNum.posInf, JSNum.fin b =>
    if b = 0 then JSNum.nan else if 0 < b then JSNum.posInf else JSNum.negInf
  | JSNum.negInf, JSNum.fin b =>
    if b = 0 then JSNum.nan else if 0 < b then JSNum.negInf else JSNum.posInf
  | JSNum.posInf, JSNum.posInf => JSNum.posInf
  | JSNum.posInf, JSNum.negInf => JSNum.negInf
  | JSNum.negInf, JSNum.posInf => JSNum.negInf
  | JSNum.negInf, JSNum.negInf => JSNum.posInf

/-- Model of `parseInt(s, 10)`: leading white space is skipped, a sign is read,
then the longest run of decimal digits; `NaN` when that run is empty. -/
def parseInt10 (s : String) : JSNum :=
  let t := s.data.dropWhile isStrWhiteSpaceChar
  let signed : Bool × List Char :=
    match t with
    | '-' :: r => (true, r)
    | '+' :: r => (false, r)
    | r => (false, r)
  let z := signed.2.takeWhile isDecimalDigit
  if z.isEmpty then JSNum.nan
  else JSNum.fin (if signed.1 then -((decimalValue z : Nat) : ℚ) else ((decimalValue z : Nat) : ℚ))

/-- The text `new Date(parseInt(reset, 10) * 1000).toLocaleString()` of line 611.
The argument `toLocaleString` gives the text the machine prints for the date
with a given time value (milliseconds since the epoch) in its locale and time
zone. -/
def resetTextOf (toLocaleString : JSNum → String) (reset : String) : String :=
  toLocaleString ((parseInt10 reset).mul (JSNum.fin 1000))

/-! ## `githubService.js` and `launcherUpdateService.js`: comparing versions -/

/-- The loop of `compareVersions` (lines 128–134), at index `i` with `n` rounds to go. -/
def compareLoop (parts1 parts2 : List JSNum) : Nat → Nat → Int
  | _, 0 => 0
  | i, n + 1 =>
    let num1 := JSNum.orZero parts1[i]?
    let num2 := JSNum.orZero parts2[i]?
    if num1.gt num2 then 1
    else if num1.lt num2 then -1
    else compareLoop parts1 parts2 (i + 1) n

/-- Model of `compareVersions(v1, v2)` of `githubService.js` (lines 124–137). -/
def compareVersions (v1 v2 : String) : Int :=
  let parts1 := (split v1 '.').map jsNumber
  let parts2 := (split v2 '.').map jsNumber
  compareLoop parts1 parts2 0 (max parts1.length parts2.length)

/-- An array element read at an index as a number: a missing element is
`undefined`, which compares as `NaN`. -/
def elementAt (parts : List JSNum) (i : Nat) : JSNum := (parts[i]?).getD JSNum.nan

/-- The loop of `LauncherUpdateService.isNewerVersion` (lines 42–45), at index `i` with
`n` rounds to go. -/
def LauncherUpdateService.isNewerLoop (latestParts currentParts : List JSNum) : Nat → Nat → Bool
  | _, 0 => false
  | i, n + 1 =>
    if (elementAt latestParts i).gt (elementAt currentParts i) then true
    else if (elementAt latestParts i).lt (elementAt currentParts i) then false
    else LauncherUpdateService.isNewerLoop latestParts currentParts (i + 1) n

/-- Model of `LauncherUpdateService.isNewerVersion(latest, current)` (lines 38–47). -/
def LauncherUpdateService.isNewerVersion (latest current : String) : Bool :=
  let latestParts := (split latest '.').map jsNumber
  let currentParts := (split current '.').map jsNumber
  LauncherUpdateService.isNewerLoop latestParts currentParts 0 3

/-- The components of a version string as the specification of `compareVersions`
reads them: the numeric value of each dot-separated component, `0` for one
that is not numeric. -/
def numericComponents (v : String) : List JSNum :=
  (split v '.').map (fun c => specComponentValue (some c))

/-- A list of components padded with zeros to the length `n`. -/
def padZeros (n : Nat) (parts : List JSNum) : List JSNum :=
  parts ++ List.replicate (n - parts.length) (JSNum.fin 0)

/-- The components of `v`, padded with zeros to the number of components of the
longer one of `v` and `w`. -/
def paddedComponents (v w : String) : List JSNum :=
  padZeros (max (numericComponents v).length (numericComponents w).length) (numericComponents v)

/-- The strict order of JavaScript numbers as a relation. -/
def JSNum.Less (x y : JSNum) : Prop := x.lt y = true

/-- A version string made of one to three dot-separated decimal natural numbers. -/
def isDecimalVersion (v : String) : Bool :=
  let parts := splitChars '.' v.data
  decide (parts.length ≤ 3) && parts.all (fun p => !p.isEmpty && p.all isDecimalDigit)

/-! ## `electron/main.js`: the `updates:download` handler -/

/-- The names bound where the body of the handler `updates:download` runs: its
two parameters and the declarations at the top level of `main.js`. -/
def updatesDownloadScope : List String :=
  ["event", "updateInfo",
   "app", "BrowserWindow", "ipcMain", "shell", "autoUpdater", "path", "spawn", "fs", "https",
   "fsSync", "AdmZip", "getAdmZip", "GAME_CONFIGS", "gamesConfig", "loadGamesConfig",
   "discordService", "autoUpdateService", "mysteryGiftService", "getDiscordService",
   "getAutoUpdateService", "getMysteryGiftService", "mainWindow", "forceQuit", "createWindow",
   "getGamePath", "getGameRepo", "getGameRepoOwner", "handleDownload"]

/-- Evaluation of a reference to an identifier: a name that is not bound throws
a `ReferenceError`. -/
def resolveIdentifier (scope : List String) (name : String) : Except String Unit :=
  if name ∈ scope then Except.ok () else Except.error (name ++ " is not defined")

/-- The object returned by the handler `updates:download`. -/
structure UpdateDownloadResult where
  success : Bool
  error : Option String
  deriving DecidableEq

/-- What one invocation of the handler `updates:download` did: the object it
resolves with (`none` when it never settles) and the run of `downloadUpdate`,
if the handler got to calling it. -/
structure UpdatesDownloadRun where
  result : Option UpdateDownloadResult
  call : Option UpdateRun

/-- The handler `ipcMain.handle('updates:download')` (lines 1061–1076). `service` is
the module variable `autoUpdateService` (`none` for `null`); `installPath` is
the value line 1068 would give to the constant of that name. -/
def updatesDownload (net : Network) (zip : ZipTools) (faults : Faults) (fuel now : Nat)
    (tempRoot : Path) (service : Option ServiceState) (fs : Node) (installPath : Path)
    (updateInfo : UpdateInfo) : UpdatesDownloadRun :=
  match service with
  | none =>
    { result := some { success := false, error := some "Update service not initialized" },
      call := none }
  | some st =>
    match resolveIdentifier updatesDownloadScope "gameId" with
    | Except.error message =>
      { result := some { success := false, error := some message }, call := none }
    | Except.ok _ =>
      let run := downloadUpdate net zip faults fuel now tempRoot st fs updateInfo installPath
      match run.outcome with
      | none => { result := none, call := some run }
      | some (Except.error message) =>
        { result := some { success := false, error := some message }, call := some run }
      | some (Except.ok _) =>
        { result := some { success := true, error := none }, call := some run }

/-! ## Comparing directory trees -/

/-- Whether two paths hold the same thing: both nothing, both a file of the
same content, or both a directory. -/
def sameAt : Option Node → Option Node → Bool
  | none, none => true
  | some (Node.file c), some (Node.file d) => decide (c = d)
  | some (Node.dir _), some (Node.dir _) => true
  | _, _ => false

/-! ## Sample data -/

/-- A release without assets that has source archives. -/
def sourceOnlyRelease : Release :=
  { tag_name := some "v1.1.0", name := none, body := none, published_at := none,
    assets := some [], zipball_url := some "https://api.github.com/zipball/v1.1.0",
    tarball_url := some "https://api.github.com/tarball/v1.1.0" }

/-- An environment in which every download fails. -/
def offlineEnv : DownloadEnv :=
  { versionFile := none, resetText := fun s => s,
    fallback := fun _ _ => FallbackOutcome.threw "ENOTFOUND",
    mkdirError := none,
    download := fun _ _ _ _ => HandlerResult.rejected "ENOTFOUND" }

/-- A release without assets and without source archives. -/
def emptyRelease : Release :=
  { tag_name := some "v1.1.0", name := none, body := none, published_at := none,
    assets := some [], zipball_url := none, tarball_url := none }

/-- An installed game (version 1.0.0) and an extracted update. -/
def sampleDisk : Node :=
  Node.dir
    [("games", Node.dir
        [("Illusion", Node.dir
            [("Game.exe", Node.file "old"), ("VERSION.txt", Node.file "1.0.0")])]),
     ("tmp", Node.dir
        [("extracted", Node.dir
            [("Game.exe", Node.file "new"),
             ("Data", Node.dir [("a.dat", Node.file "A")])])])]

/-- Writing one file of the new version fails (the disk is full). -/
def failingWrite : Faults :=
  fun p => if p = ["games", "Illusion", "Data", "a.dat"] then some "ENOSPC" else none

/-- A file server: an archive, a missing file, two redirects in a row, two
transfers that break off, and one that starts slowly. -/
def sampleNet : Network := fun url =>
  if url = "https://example.org/Game.zip" then
    Reply.answered { statusCode := 200, location := "", contentLength := some 10,
                     body := { chunks := ["01234", "56789"], ending := StreamEnd.finish } }
  else if url = "https://example.org/missing" then
    Reply.answered { statusCode := 404, location := "", contentLength := none,
                     body := { chunks := ["Not Found"], ending := StreamEnd.finish } }
  else if url = "https://example.org/hop1" then
    Reply.answered { statusCode := 302, location := "https://example.org/hop2",
                     contentLength := none, body := { chunks := [], ending := StreamEnd.finish } }
  else if url = "https://example.org/hop2" then
    Reply.answered { statusCode := 302, location := "https://example.org/Game.zip",
                     contentLength := some 5,
                     body := { chunks := ["moved"], ending := StreamEnd.finish } }
  else if url = "https://example.org/disk-full" then
    Reply.answered { statusCode := 200, location := "", contentLength := some 10,
                     body := { chunks := ["0123"], ending := StreamEnd.fileError "ENOSPC" } }
  else if url = "https://example.org/aborted" then
    Reply.answered { statusCode := 200, location := "", contentLength := some 10,
                     body := { chunks := ["0123"], ending := StreamEnd.responseError "aborted" } }
  else if url = "https://example.org/slow" then
    Reply.answered { statusCode := 200, location := "", contentLength := some 1000,
                     body := { chunks := ["a", "b", "c"], ending := StreamEnd.finish } }
  else Reply.failed "ENOTFOUND"

/-- An archive reader that knows one archive: its bytes are `0123456789` and it
holds the file `Illusion-1.1.0/Game.exe`. -/
def sampleZip : ZipTools :=
  { available := true,
    entries := fun content =>
      if content = "0123456789" then Except.ok [("Illusion-1.1.0/Game.exe", "new")]
      else Except.error "Invalid or unsupported zip format. No END header found" }

/-- A machine without any file. -/
def noFiles : Files := fun _ => none

/-- The destination of the sample downloads. -/
def sampleDest : FilePath := { dir := "C:/Pokemon Illusion", name := "Game.zip" }

/-- The destination of the sample fallback download. -/
def sampleFallbackDest : FilePath :=
  { dir := "C:/Pokemon Illusion", name := "Illusion-v1.1.0-source.zip" }

/-- A release whose only asset is the archive of the sample server. -/
def zipRelease : Release :=
  { tag_name := some "v1.1.0", name := none, body := none, published_at := none,
    assets := some [⟨"Game.zip", "https://example.org/Game.zip", 10⟩],
    zipball_url := some "https://example.org/Game.zip", tarball_url := none }

/-- A release whose only asset cannot be downloaded. -/
def brokenRelease : Release :=
  { tag_name := some "v1.1.0", name := none, body := none, published_at := none,
    assets := some [⟨"Game.zip", "https://example.org/missing", 10⟩],
    zipball_url := none, tarball_url := none }

/-- The sample server seen from the handler, on a machine without files: the
asset download is the promise of lines 756–778, the fallback block runs to the
end without finding `Game.exe`. -/
def sampleEnv : DownloadEnv :=
  { versionFile := noFiles { dir := "C:/Pokemon Illusion", name := "VERSION.txt" },
    resetText := fun s => s,
    fallback := fun _ _ => FallbackOutcome.completed false,
    mkdirError := none,
    download := fun url dest fileSize isZipFile =>
      (assetDownload sampleNet sampleZip true noFiles url dest fileSize dest.dir isZipFile).result }

/-- An archive reader for archives that ship their own version marker. -/
def markedZip : ZipTools :=
  { available := true,
    entries := fun _ => Except.ok [("Game.exe", "new"), ("VERSION.txt", "1.1.0")] }

/-- The update offered for the sample release. -/
def sampleUpdate : UpdateInfo :=
  { available := true, version := "v1.1.0", name := none, body := none, publishedAt := none,
    downloadUrl := some "https://example.org/Game.zip", size := 10 }

/-- The update service at rest. -/
def idleService : ServiceState :=
  { currentVersion := "0.2.1", isChecking := false, isDownloading := false,
    downloadProgress := JSNum.fin 0, hasMainWindow := true }

/-- An installation next to two backups whose timestamps differ in length:
`999999999999` is the millisecond before `1000000000000`. -/
def backupsDisk : Node :=
  Node.dir
    [("games", Node.dir
        [("Illusion", Node.dir [("Game.exe", Node.file "current")]),
         ("Illusion_backup_999999999999", Node.dir [("Game.exe", Node.file "older")]),
         ("Illusion_backup_1000000000000", Node.dir [("Game.exe", Node.file "newer")])])]

/-- An installation next to one backup of the launcher and a directory the
user named `Illusion_backup_old`. -/
def namedBackupDisk : Node :=
  Node.dir
    [("games", Node.dir
        [("Illusion", Node.dir [("Game.exe", Node.file "current")]),
         ("Illusion_backup_1700000000000", Node.dir [("Game.exe", Node.file "backup")]),
         ("Illusion_backup_old", Node.dir [("notes.txt", Node.file "keep")])])]

/-- A release whose tag has a first component that no double holds exactly;
`Number` reads it as `9007199254740992`. -/
def roundedTagRelease : Release :=
  { tag_name := some "9007199254740993.0.0", name := none, body := none, published_at := none,
    assets := some [], zipball_url := none, tarball_url := none }

/-- A release whose tag has a first component too small for a double;
`Number` reads it as `0`. -/
def tinyTagRelease : Release :=
  { tag_name := some "1e-400.0.0", name := none, body := none, published_at := none,
    assets := some [], zipball_url := none, tarball_url := none }

/-- The update service while a check and a download are under way. -/
def busyService : ServiceState :=
  { currentVersion := "0.2.1", isChecking := true, isDownloading := true,
    downloadProgress := JSNum.fin 40, hasMainWindow := true }

/-- A release with a patch for version 1.0.0 in front of the full archive. -/
def patchRelease : Release :=
  { tag_name := some "v1.1.0", name := none, body := none, published_at := none,
    assets := some [⟨"Patch-from-1.0.0.zip", "https://example.org/patch", 3⟩,
                    ⟨"Game.zip", "https://example.org/Game.zip", 10⟩],
    zipball_url := none, tarball_url := none }

/-- Two installers in one release. -/
def installerA : Asset := ⟨"Game.exe", "https://example.org/Game.exe", 10⟩

/-- The second installer. -/
def installerB : Asset := ⟨"Setup.exe", "https://example.org/Setup.exe", 12⟩

/-! ## Double-precision arithmetic -/

theorem log2Fuel_spec (fuel n : Nat) (hn : 0 < n) (hf : n ≤ fuel) :
    2 ^ log2Fuel fuel n ≤ n ∧ n < 2 ^ (log2Fuel fuel n + 1) := by
  induction fuel generalizing n with
  | zero => omega
  | succ fuel ih =>
    simp only [log2Fuel]
    by_cases h2 : 2 ≤ n
    · simp only [h2, if_true]
      have := ih (n / 2) (by omega) (by omega)
      rw [pow_succ, pow_succ]
      omega
    · simp only [h2, if_false]
      omega

theorem floorLog2_spec (n : Nat) (hn : 0 < n) :
    2 ^ floorLog2 n ≤ n ∧ n < 2 ^ (floorLog2 n + 1) :=
  log2Fuel_spec n n hn (le_refl n)

theorem roundHalfEven_near (a b : Nat) (hb : 0 < b) :
    2 * (roundHalfEven a b * b) ≤ 2 * a + b ∧ 2 * a ≤ 2 * (roundHalfEven a b * b) + b := by
  have ha := Nat.div_add_mod a b
  have hr := Nat.mod_lt a hb
  have hmul : (a / b + 1) * b = b * (a / b) + b := by ring
  have hmul0 : a / b * b = b * (a / b) := by ring
  unfold roundHalfEven
  split
  · rw [hmul0]; omega
  · split
    · rw [hmul]; omega
    · split
      · rw [hmul0]; omega
      · rw [hmul]; omega

theorem roundHalfEven_tie (a b : Nat) (hb : 0 < b) :
    (2 * (roundHalfEven a b * b) = 2 * a + b → roundHalfEven a b % 2 = 0) ∧
    (2 * a = 2 * (roundHalfEven a b * b) + b → roundHalfEven a b % 2 = 0) := by
  have ha := Nat.div_add_mod a b
  have hr := Nat.mod_lt a hb
  have hmul : (a / b + 1) * b = b * (a / b) + b := by ring
  have hmul0 : a / b * b = b * (a / b) := by ring
  unfold roundHalfEven
  split
  · rw [hmul0]; constructor <;> intro h <;> omega
  · split
    · rw [hmul]; constructor <;> intro h <;> omega
    · split
      · rw [hmul0]; constructor <;> intro h <;> omega
      · rw [hmul]; constructor <;> intro h <;> omega

theorem roundHalfEven_mono (a1 b1 a2 b2 : Nat) (hb1 : 0 < b1) (hb2 : 0 < b2)
    (h : a1 * b2 ≤ a2 * b1) : roundHalfEven a1 b1 ≤ roundHalfEven a2 b2 := by
  by_contra hc
  have hlt : roundHalfEven a2 b2 < roundHalfEven a1 b1 := Nat.lt_of_not_le hc
  have n1 := (roundHalfEven_near a1 b1 hb1).1
  have n2 := (roundHalfEven_near a2 b2 hb2).2
  have t1 := (roundHalfEven_tie a1 b1 hb1).1
  have t2 := (roundHalfEven_tie a2 b2 hb2).2
  generalize roundHalfEven a1 b1 = M1 at hlt n1 t1
  generalize roundHalfEven a2 b2 = M2 at hlt n2 t2
  have hP : 0 < b1 * b2 := Nat.mul_pos hb1 hb2
  have e1 : 2 * (M1 * (b1 * b2)) ≤ 2 * (a1 * b2) + b1 * b2 := by
    have := Nat.mul_le_mul_right b2 n1
    calc 2 * (M1 * (b1 * b2)) = 2 * (M1 * b1) * b2 := by ring
      _ ≤ (2 * a1 + b1) * b2 := this
      _ = 2 * (a1 * b2) + b1 * b2 := by ring
  have e2 : 2 * (a2 * b1) ≤ 2 * (M2 * (b1 * b2)) + b1 * b2 := by
    have := Nat.mul_le_mul_right b1 n2
    calc 2 * (a2 * b1) = 2 * a2 * b1 := by ring
      _ ≤ (2 * (M2 * b2) + b2) * b1 := this
      _ = 2 * (M2 * (b1 * b2)) + b1 * b2 := by ring
  have e3 : (M2 + 1) * (b1 * b2) ≤ M1 * (b1 * b2) := Nat.mul_le_mul_right _ hlt
  have e3' : (M2 + 1) * (b1 * b2) = M2 * (b1 * b2) + b1 * b2 := by ring
  have hX : M1 * (b1 * b2) = M2 * (b1 * b2) + b1 * b2 := by omega
  have hM : M1 = M2 + 1 := by
    have : M1 * (b1 * b2) = (M2 + 1) * (b1 * b2) := by rw [hX, e3']
    exact Nat.eq_of_mul_eq_mul_right hP this
  have q1 : 2 * (M1 * b1) = 2 * a1 + b1 := by
    have : 2 * (M1 * b1) * b2 = (2 * a1 + b1) * b2 := by
      have l : 2 * (M1 * b1) * b2 = 2 * (M1 * (b1 * b2)) := by ring
      have r : (2 * a1 + b1) * b2 = 2 * (a1 * b2) + b1 * b2 := by ring
      omega
    exact Nat.eq_of_mul_eq_mul_right hb2 this
  have q2 : 2 * a2 = 2 * (M2 * b2) + b2 := by
    have : 2 * a2 * b1 = (2 * (M2 * b2) + b2) * b1 := by
      have l : 2 * a2 * b1 = 2 * (a2 * b1) := by ring
      have r : (2 * (M2 * b2) + b2) * b1 = 2 * (M2 * (b1 * b2)) + b1 * b2 := by ring
      omega
    exact Nat.eq_of_mul_eq_mul_right hb1 this
  have p1 := t1 q1
  have p2 := t2 q2
  omega

theorem roundHalfEven_exact (k b : Nat) (hb : 0 < b) : roundHalfEven (k * b) b = k := by
  unfold roundHalfEven
  simp [Nat.mul_mod_left, hb, Nat.mul_div_cancel _ hb]

theorem roundHalfEven_ratio (a1 b1 a2 b2 : Nat) (hb1 : 0 < b1) (hb2 : 0 < b2)
    (h : a1 * b2 = a2 * b1) : roundHalfEven a1 b1 = roundHalfEven a2 b2 :=
  le_antisymm (roundHalfEven_mono a1 b1 a2 b2 hb1 hb2 (le_of_eq h))
    (roundHalfEven_mono a2 b2 a1 b1 hb2 hb1 (le_of_eq h.symm))

theorem natCast_two_pow_toNat (c : Int) (hc : 0 ≤ c) :
    ((2 ^ c.toNat : Nat) : ℚ) = (2 : ℚ) ^ c := by
  lift c to ℕ using hc
  simp

theorem two_zpow_pos (c : Int) : (0 : ℚ) < (2 : ℚ) ^ c := zpow_pos (by norm_num) c

theorem binadeOf_spec (n d : Nat) (hn : 0 < n) (hd : 0 < d) :
    (2 : ℚ) ^ binadeOf n d ≤ (n : ℚ) / d ∧ (n : ℚ) / d < (2 : ℚ) ^ (binadeOf n d + 1) := by
  obtain ⟨hn1, hn2⟩ := floorLog2_spec n hn
  obtain ⟨hd1, hd2⟩ := floorLog2_spec d hd
  have hdq : (0 : ℚ) < d := by exact_mod_cast hd
  have hn1q : (2 : ℚ) ^ (floorLog2 n : Int) ≤ n := by
    rw [zpow_natCast]; exact_mod_cast hn1
  have hn2q : (n : ℚ) < (2 : ℚ) ^ ((floorLog2 n : Int) + 1) := by
    rw [show ((floorLog2 n : Int) + 1) = ((floorLog2 n + 1 : Nat) : Int) from by simp,
      zpow_natCast]
    exact_mod_cast hn2
  have hd1q : (2 : ℚ) ^ (floorLog2 d : Int) ≤ d := by
    rw [zpow_natCast]; exact_mod_cast hd1
  have hd2q : (d : ℚ) < (2 : ℚ) ^ ((floorLog2 d : Int) + 1) := by
    rw [show ((floorLog2 d : Int) + 1) = ((floorLog2 d + 1 : Nat) : Int) from by simp,
      zpow_natCast]
    exact_mod_cast hd2
  have h2 : (2 : ℚ) ≠ 0 := by norm_num
  -- the quotient lies strictly between 2 ^ (c - 1) and 2 ^ (c + 1)
  have klow : (2 : ℚ) ^ ((floorLog2 n : Int) - floorLog2 d - 1) * d < n := by
    have e : (2 : ℚ) ^ ((floorLog2 n : Int) - floorLog2 d - 1)
        = (2 : ℚ) ^ (floorLog2 n : Int) / (2 : ℚ) ^ ((floorLog2 d : Int) + 1) := by
      rw [← zpow_sub₀ h2]; congr 1; ring
    rw [e, div_mul_eq_mul_div, div_lt_iff₀ (two_zpow_pos _)]
    calc (2 : ℚ) ^ (floorLog2 n : Int) * d < (2 : ℚ) ^ (floorLog2 n : Int)
          * (2 : ℚ) ^ ((floorLog2 d : Int) + 1) :=
        mul_lt_mul_of_pos_left hd2q (two_zpow_pos _)
      _ ≤ n * (2 : ℚ) ^ ((floorLog2 d : Int) + 1) :=
        mul_le_mul_of_nonneg_right hn1q (le_of_lt (two_zpow_pos _))
  have khigh : (n : ℚ) < (2 : ℚ) ^ ((floorLog2 n : Int) - floorLog2 d + 1) * d := by
    have e : (2 : ℚ) ^ ((floorLog2 n : Int) - floorLog2 d + 1)
        = (2 : ℚ) ^ ((floorLog2 n : Int) + 1) / (2 : ℚ) ^ (floorLog2 d : Int) := by
      rw [← zpow_sub₀ h2]; congr 1; ring
    rw [e, div_mul_eq_mul_div, lt_div_iff₀ (two_zpow_pos _)]
    calc (n : ℚ) * (2 : ℚ) ^ (floorLog2 d : Int)
          < (2 : ℚ) ^ ((floorLog2 n : Int) + 1) * (2 : ℚ) ^ (floorLog2 d : Int) :=
        mul_lt_mul_of_pos_right hn2q (two_zpow_pos _)
      _ ≤ (2 : ℚ) ^ ((floorLog2 n : Int) + 1) * d :=
        mul_le_mul_of_nonneg_left hd1q (le_of_lt (two_zpow_pos _))
  rw [le_div_iff₀ hdq, div_lt_iff₀ hdq]
  unfold binadeOf
  simp only []
  generalize hc : (floorLog2 n : Int) - (floorLog2 d : Int) = c at klow khigh ⊢
  by_cases hc0 : 0 ≤ c
  · simp only [hc0, if_true]
    have hpow := natCast_two_pow_toNat c hc0
    by_cases ht : d * 2 ^ c.toNat ≤ n
    · simp only [ht, if_true]
      refine ⟨?_, khigh⟩
      have : ((d * 2 ^ c.toNat : Nat) : ℚ) ≤ n := by exact_mod_cast ht
      rw [Nat.cast_mul, hpow] at this
      linarith
    · simp only [ht, if_false]
      refine ⟨le_of_lt klow, ?_⟩
      have : (n : ℚ) < ((d * 2 ^ c.toNat : Nat) : ℚ) := by exact_mod_cast Nat.lt_of_not_le ht
      rw [Nat.cast_mul, hpow] at this
      rw [sub_add_cancel]
      linarith
  · simp only [hc0, if_false]
    have hneg : 0 ≤ -c := by omega
    have hpow := natCast_two_pow_toNat (-c) hneg
    have hinv : (2 : ℚ) ^ c * (2 : ℚ) ^ (-c) = 1 := by
      rw [← zpow_add₀ h2]; simp
    by_cases ht : d ≤ n * 2 ^ (-c).toNat
    · simp only [ht, if_true]
      refine ⟨?_, khigh⟩
      have : (d : ℚ) ≤ ((n * 2 ^ (-c).toNat : Nat) : ℚ) := by exact_mod_cast ht
      rw [Nat.cast_mul, hpow] at this
      calc (2 : ℚ) ^ c * d ≤ (2 : ℚ) ^ c * (n * (2 : ℚ) ^ (-c)) :=
            mul_le_mul_of_nonneg_left this (le_of_lt (two_zpow_pos _))
        _ = n * ((2 : ℚ) ^ c * (2 : ℚ) ^ (-c)) := by ring
        _ = n := by rw [hinv, mul_one]
    · simp only [ht, if_false]
      refine ⟨le_of_lt klow, ?_⟩
      have : ((n * 2 ^ (-c).toNat : Nat) : ℚ) < d := by exact_mod_cast Nat.lt_of_not_le ht
      rw [Nat.cast_mul, hpow] at this
      rw [sub_add_cancel]
      calc (n : ℚ) = (2 : ℚ) ^ c * (n * (2 : ℚ) ^ (-c)) := by
            rw [mul_comm (n : ℚ), ← mul_assoc, hinv, one_mul]
        _ < (2 : ℚ) ^ c * d := mul_lt_mul_of_pos_left this (two_zpow_pos _)

theorem binadeOf_mono (n1 d1 n2 d2 : Nat) (hn1 : 0 < n1) (hd1 : 0 < d1) (hn2 : 0 < n2)
    (hd2 : 0 < d2) (h : (n1 : ℚ) / d1 ≤ (n2 : ℚ) / d2) : binadeOf n1 d1 ≤ binadeOf n2 d2 := by
  have s1 := (binadeOf_spec n1 d1 hn1 hd1).1
  have s2 := (binadeOf_spec n2 d2 hn2 hd2).2
  have : (2 : ℚ) ^ binadeOf n1 d1 < (2 : ℚ) ^ (binadeOf n2 d2 + 1) :=
    lt_of_le_of_lt (le_trans s1 h) s2
  have := (zpow_lt_zpow_iff_right₀ (by norm_num : (1 : ℚ) < 2)).1 this
  omega

theorem scaledDen_pos (d : Nat) (s : Int) (hd : 0 < d) : 0 < scaledDen d s := by
  unfold scaledDen
  split
  · exact Nat.mul_pos hd (Nat.pos_pow_of_pos _ (by norm_num))
  · exact hd

theorem scaled_ratio (n d : Nat) (s : Int) :
    (scaledNum n s : ℚ) / (scaledDen d s : ℚ) = (n : ℚ) / d * (2 : ℚ) ^ (-s) := by
  unfold scaledNum scaledDen
  by_cases hs : 0 ≤ s
  · simp only [hs, if_true]
    rw [Nat.cast_mul, natCast_two_pow_toNat s hs, zpow_neg]
    field_simp
  · simp only [hs, if_false]
    rw [Nat.cast_mul, natCast_two_pow_toNat (-s) (by omega)]
    ring

theorem roundHalfEven_le_of (a b k : Nat) (hb : 0 < b) (h : (a : ℚ) / b ≤ k) :
    roundHalfEven a b ≤ k := by
  have hbq : (0 : ℚ) < b := by exact_mod_cast hb
  rw [div_le_iff₀ hbq] at h
  have h' : a ≤ k * b := by exact_mod_cast h
  have := roundHalfEven_mono a b (k * b) b hb hb (Nat.mul_le_mul_right b h')
  rwa [roundHalfEven_exact k b hb] at this

theorem roundHalfEven_ge_of (a b k : Nat) (hb : 0 < b) (h : (k : ℚ) ≤ (a : ℚ) / b) :
    k ≤ roundHalfEven a b := by
  have hbq : (0 : ℚ) < b := by exact_mod_cast hb
  rw [le_div_iff₀ hbq] at h
  have h' : k * b ≤ a := by exact_mod_cast h
  have := roundHalfEven_mono (k * b) b a b hb hb (Nat.mul_le_mul_right b h')
  rwa [roundHalfEven_exact k b hb] at this

theorem roundHalfEven_mono_ratio (a1 b1 a2 b2 : Nat) (hb1 : 0 < b1) (hb2 : 0 < b2)
    (h : (a1 : ℚ) / b1 ≤ (a2 : ℚ) / b2) : roundHalfEven a1 b1 ≤ roundHalfEven a2 b2 := by
  have hb1q : (0 : ℚ) < b1 := by exact_mod_cast hb1
  have hb2q : (0 : ℚ) < b2 := by exact_mod_cast hb2
  rw [div_le_div_iff₀ hb1q hb2q] at h
  exact roundHalfEven_mono a1 b1 a2 b2 hb1 hb2 (by exact_mod_cast h)

/-- The mantissa chosen for `n / d` in the binade `e`. -/
theorem mantissa_le (n d : Nat) (hn : 0 < n) (hd : 0 < d) :
    roundHalfEven (scaledNum n (max (binadeOf n d) (-1022) - 52))
      (scaledDen d (max (binadeOf n d) (-1022) - 52)) ≤ 2 ^ 53 := by
  apply roundHalfEven_le_of _ _ _ (scaledDen_pos d _ hd)
  rw [scaled_ratio]
  have h2 : (2 : ℚ) ≠ 0 := by norm_num
  have s2 := (binadeOf_spec n d hn hd).2
  have hle : (2 : ℚ) ^ (binadeOf n d + 1) ≤ (2 : ℚ) ^ (max (binadeOf n d) (-1022) + 1) :=
    zpow_le_zpow_right₀ (by norm_num) (by omega)
  have hlt := lt_of_lt_of_le s2 hle
  have := mul_le_mul_of_nonneg_right (le_of_lt hlt)
    (le_of_lt (two_zpow_pos (-(max (binadeOf n d) (-1022) - 52))))
  rw [← zpow_add₀ h2] at this
  have e : max (binadeOf n d) (-1022) + 1 + -(max (binadeOf n d) (-1022) - 52) = 53 := by ring
  rw [e] at this
  calc (n : ℚ) / d * (2 : ℚ) ^ (-(max (binadeOf n d) (-1022) - 52)) ≤ (2 : ℚ) ^ (53 : Int) := this
    _ = ((2 ^ 53 : Nat) : ℚ) := by norm_num

theorem mantissa_ge (n d : Nat) (hn : 0 < n) (hd : 0 < d) (hnormal : -1022 ≤ binadeOf n d) :
    2 ^ 52 ≤ roundHalfEven (scaledNum n (max (binadeOf n d) (-1022) - 52))
      (scaledDen d (max (binadeOf n d) (-1022) - 52)) := by
  apply roundHalfEven_ge_of _ _ _ (scaledDen_pos d _ hd)
  rw [scaled_ratio]
  have h2 : (2 : ℚ) ≠ 0 := by norm_num
  have s1 := (binadeOf_spec n d hn hd).1
  rw [max_eq_left hnormal]
  have := mul_le_mul_of_nonneg_right s1 (le_of_lt (two_zpow_pos (-(binadeOf n d - 52))))
  rw [← zpow_add₀ h2] at this
  have e : binadeOf n d + -(binadeOf n d - 52) = 52 := by ring
  rw [e] at this
  calc (((2 ^ 52 : Nat) : ℚ)) = (2 : ℚ) ^ (52 : Int) := by norm_num
    _ ≤ (n : ℚ) / d * (2 : ℚ) ^ (-(binadeOf n d - 52)) := this

theorem Dyadic.val_nonneg (x : Dyadic) : 0 ≤ x.val :=
  mul_nonneg (Nat.cast_nonneg _) (le_of_lt (two_zpow_pos _))

theorem toDouble_zero (d : Nat) : toDouble 0 d = some ⟨0, 0⟩ := by simp [toDouble]

theorem toDouble_pos (n d : Nat) (hn : 0 < n) :
    toDouble n d =
      if 1024 ≤ max (binadeOf n d) (-1022) ∨ (max (binadeOf n d) (-1022) = 1023 ∧
          roundHalfEven (scaledNum n (max (binadeOf n d) (-1022) - 52))
            (scaledDen d (max (binadeOf n d) (-1022) - 52)) = 2 ^ 53) then none
      else some ⟨roundHalfEven (scaledNum n (max (binadeOf n d) (-1022) - 52))
            (scaledDen d (max (binadeOf n d) (-1022) - 52)), max (binadeOf n d) (-1022) - 52⟩ := by
  have : n ≠ 0 := by omega
  simp [toDouble, this]

theorem toDouble_mono (n1 d1 n2 d2 : Nat) (hd1 : 0 < d1) (hd2 : 0 < d2)
    (h : (n1 : ℚ) / d1 ≤ (n2 : ℚ) / d2) : doubleLe (toDouble n1 d1) (toDouble n2 d2) := by
  have hd1q : (0 : ℚ) < d1 := by exact_mod_cast hd1
  have hd2q : (0 : ℚ) < d2 := by exact_mod_cast hd2
  have h2 : (2 : ℚ) ≠ 0 := by norm_num
  rcases Nat.eq_zero_or_pos n1 with hz | hn1
  · subst hz
    rw [toDouble_zero]
    cases toDouble n2 d2 with
    | none => trivial
    | some y => simpa [doubleLe, Dyadic.val] using y.val_nonneg
  · have hn2 : 0 < n2 := by
      by_contra hc
      have : n2 = 0 := by omega
      subst this
      have hpos : (0 : ℚ) < (n1 : ℚ) / d1 := div_pos (by exact_mod_cast hn1) hd1q
      simp at h
      linarith
    have hE := binadeOf_mono n1 d1 n2 d2 hn1 hd1 hn2 hd2 h
    have hU1 := mantissa_le n1 d1 hn1 hd1
    have hU2 := mantissa_le n2 d2 hn2 hd2
    rw [toDouble_pos n1 d1 hn1, toDouble_pos n2 d2 hn2]
    generalize hm1 : roundHalfEven (scaledNum n1 (max (binadeOf n1 d1) (-1022) - 52))
      (scaledDen d1 (max (binadeOf n1 d1) (-1022) - 52)) = m1 at hU1
    generalize hm2 : roundHalfEven (scaledNum n2 (max (binadeOf n2 d2) (-1022) - 52))
      (scaledDen d2 (max (binadeOf n2 d2) (-1022) - 52)) = m2 at hU2
    by_cases ho2 : 1024 ≤ max (binadeOf n2 d2) (-1022) ∨
        (max (binadeOf n2 d2) (-1022) = 1023 ∧ m2 = 2 ^ 53)
    · rw [if_pos ho2]
      split <;> trivial
    · rw [if_neg ho2]
      by_cases he : max (binadeOf n1 d1) (-1022) = max (binadeOf n2 d2) (-1022)
      · have hmono : m1 ≤ m2 := by
          rw [← hm1, ← hm2, he]
          apply roundHalfEven_mono_ratio _ _ _ _ (scaledDen_pos _ _ hd1) (scaledDen_pos _ _ hd2)
          rw [scaled_ratio, scaled_ratio]
          exact mul_le_mul_of_nonneg_right h (le_of_lt (two_zpow_pos _))
        have ho1 : ¬ (1024 ≤ max (binadeOf n1 d1) (-1022) ∨
            (max (binadeOf n1 d1) (-1022) = 1023 ∧ m1 = 2 ^ 53)) := by
          intro hc
          apply ho2
          rcases hc with hc | ⟨hc1, hc2⟩
          · left; rw [← he]; exact hc
          · right; exact ⟨by rw [← he]; exact hc1, by omega⟩
        rw [if_neg ho1]
        simp only [doubleLe, Dyadic.val, he]
        exact mul_le_mul_of_nonneg_right (by exact_mod_cast hmono) (le_of_lt (two_zpow_pos _))
      · have hlt : max (binadeOf n1 d1) (-1022) < max (binadeOf n2 d2) (-1022) := by omega
        have hnormal : -1022 ≤ binadeOf n2 d2 := by omega
        have hL2 := mantissa_ge n2 d2 hn2 hd2 hnormal
        rw [hm2] at hL2
        have ho1 : ¬ (1024 ≤ max (binadeOf n1 d1) (-1022) ∨
            (max (binadeOf n1 d1) (-1022) = 1023 ∧ m1 = 2 ^ 53)) := by
          intro hc
          apply ho2
          left
          omega
        rw [if_neg ho1]
        simp only [doubleLe, Dyadic.val]
        generalize max (binadeOf n1 d1) (-1022) = e1 at hlt
        generalize max (binadeOf n2 d2) (-1022) = e2 at hlt
        have a1 : (m1 : ℚ) * (2 : ℚ) ^ (e1 - 52) ≤ (2 : ℚ) ^ (e1 + 1) := by
          have : (m1 : ℚ) ≤ (2 : ℚ) ^ (53 : Int) := by
            have : (m1 : ℚ) ≤ ((2 ^ 53 : Nat) : ℚ) := by exact_mod_cast hU1
            calc (m1 : ℚ) ≤ ((2 ^ 53 : Nat) : ℚ) := this
              _ = (2 : ℚ) ^ (53 : Int) := by norm_num
          calc (m1 : ℚ) * (2 : ℚ) ^ (e1 - 52) ≤ (2 : ℚ) ^ (53 : Int) * (2 : ℚ) ^ (e1 - 52) :=
                mul_le_mul_of_nonneg_right this (le_of_lt (two_zpow_pos _))
            _ = (2 : ℚ) ^ (e1 + 1) := by rw [← zpow_add₀ h2]; congr 1; ring
        have a2 : (2 : ℚ) ^ e2 ≤ (m2 : ℚ) * (2 : ℚ) ^ (e2 - 52) := by
          have : (2 : ℚ) ^ (52 : Int) ≤ (m2 : ℚ) := by
            have : ((2 ^ 52 : Nat) : ℚ) ≤ (m2 : ℚ) := by exact_mod_cast hL2
            calc (2 : ℚ) ^ (52 : Int) = ((2 ^ 52 : Nat) : ℚ) := by norm_num
              _ ≤ (m2 : ℚ) := this
          calc (2 : ℚ) ^ e2 = (2 : ℚ) ^ (52 : Int) * (2 : ℚ) ^ (e2 - 52) := by
                rw [← zpow_add₀ h2]; congr 1; ring
            _ ≤ (m2 : ℚ) * (2 : ℚ) ^ (e2 - 52) :=
                mul_le_mul_of_nonneg_right this (le_of_lt (two_zpow_pos _))
        have a3 : (2 : ℚ) ^ (e1 + 1) ≤ (2 : ℚ) ^ e2 :=
          zpow_le_zpow_right₀ (by norm_num) (by omega)
        linarith

theorem Dyadic.val_eq_ratio (x : Dyadic) :
    x.val = (scaledNum x.mant (-x.exp) : ℚ) / (scaledDen 1 (-x.exp) : ℚ) := by
  rw [scaled_ratio]
  simp [Dyadic.val]

theorem Dyadic.floor_eq (x : Dyadic) : x.floor = ⌊x.val⌋₊ := by
  rw [Dyadic.val_eq_ratio, Nat.floor_div_eq_div]
  rfl

theorem Dyadic.round_eq (x : Dyadic) : x.round = ⌊x.val + 1 / 2⌋₊ := by
  have hpos : (0 : ℚ) < (scaledDen 1 (-x.exp) : ℚ) := by
    exact_mod_cast scaledDen_pos 1 (-x.exp) (by norm_num)
  have e : x.val + 1 / 2 = ((2 * scaledNum x.mant (-x.exp) + scaledDen 1 (-x.exp) : Nat) : ℚ)
      / ((2 * scaledDen 1 (-x.exp) : Nat) : ℚ) := by
    rw [Dyadic.val_eq_ratio]
    push_cast
    field_simp
    ring
  rw [e, Nat.floor_div_eq_div]
  rfl

theorem Dyadic.floor_mono {x y : Dyadic} (h : x.val ≤ y.val) : x.floor ≤ y.floor := by
  rw [Dyadic.floor_eq, Dyadic.floor_eq]
  exact Nat.floor_mono h

theorem Dyadic.round_mono {x y : Dyadic} (h : x.val ≤ y.val) : x.round ≤ y.round := by
  rw [Dyadic.round_eq, Dyadic.round_eq]
  exact Nat.floor_mono (by linarith)

theorem Dyadic.mulNat_mono {x y : Dyadic} (k : Nat) (h : x.val ≤ y.val) :
    doubleLe (x.mulNat k) (y.mulNat k) := by
  unfold Dyadic.mulNat
  apply toDouble_mono _ _ _ _ (scaledDen_pos 1 _ (by norm_num)) (scaledDen_pos 1 _ (by norm_num))
  rw [scaled_ratio, scaled_ratio]
  simp only [neg_neg, Nat.cast_mul, Nat.cast_one, div_one]
  have hx : (x.mant : ℚ) * k * (2 : ℚ) ^ x.exp = x.val * k := by simp [Dyadic.val]; ring
  have hy : (y.mant : ℚ) * k * (2 : ℚ) ^ y.exp = y.val * k := by simp [Dyadic.val]; ring
  rw [hx, hy]
  exact mul_le_mul_of_nonneg_right h (Nat.cast_nonneg k)

theorem percentOf_mono (a b t : Nat) (ht : 0 < t) (hab : a ≤ b) :
    doubleLe (percentOf a t) (percentOf b t) := by
  have htq : (0 : ℚ) < t := by exact_mod_cast ht
  have h := toDouble_mono a t b t ht ht
    (div_le_div_of_nonneg_right (by exact_mod_cast hab) (le_of_lt htq))
  unfold percentOf
  cases hb : toDouble b t with
  | none => simp [doubleLe]
  | some y =>
    rw [hb] at h
    cases ha : toDouble a t with
    | none => rw [ha] at h; exact absurd h (by simp [doubleLe])
    | some x =>
      rw [ha] at h
      simp only [Option.some_bind]
      exact Dyadic.mulNat_mono 100 h

theorem toDouble_nat (N : Nat) (hN : N < 2 ^ 53) :
    ∃ x, toDouble N 1 = some x ∧ x.val = N := by
  rcases Nat.eq_zero_or_pos N with hz | hpos
  · subst hz
    exact ⟨⟨0, 0⟩, toDouble_zero 1, by simp [Dyadic.val]⟩
  · have spec := binadeOf_spec N 1 hpos (by norm_num)
    simp only [Nat.cast_one, div_one] at spec
    have h2 : (2 : ℚ) ≠ 0 := by norm_num
    have hE0 : 0 ≤ binadeOf N 1 := by
      have h1 : (2 : ℚ) ^ (0 : Int) < (2 : ℚ) ^ (binadeOf N 1 + 1) := by
        have : (1 : ℚ) ≤ N := by exact_mod_cast hpos
        calc (2 : ℚ) ^ (0 : Int) = 1 := by norm_num
          _ ≤ N := this
          _ < _ := spec.2
      have := (zpow_lt_zpow_iff_right₀ (by norm_num : (1 : ℚ) < 2)).1 h1
      omega
    have hE52 : binadeOf N 1 ≤ 52 := by
      have h1 : (2 : ℚ) ^ binadeOf N 1 < (2 : ℚ) ^ (53 : Int) := by
        have : (N : ℚ) < ((2 ^ 53 : Nat) : ℚ) := by exact_mod_cast hN
        calc (2 : ℚ) ^ binadeOf N 1 ≤ N := spec.1
          _ < ((2 ^ 53 : Nat) : ℚ) := this
          _ = (2 : ℚ) ^ (53 : Int) := by norm_num
      have := (zpow_lt_zpow_iff_right₀ (by norm_num : (1 : ℚ) < 2)).1 h1
      omega
    have hmax : max (binadeOf N 1) (-1022) = binadeOf N 1 := max_eq_left (by omega)
    have hm : roundHalfEven (scaledNum N (binadeOf N 1 - 52)) (scaledDen 1 (binadeOf N 1 - 52))
        = N * 2 ^ (52 - binadeOf N 1).toNat := by
      have hden := scaledDen_pos 1 (binadeOf N 1 - 52) (by norm_num)
      have hratio := scaled_ratio N 1 (binadeOf N 1 - 52)
      have hk : ((N * 2 ^ (52 - binadeOf N 1).toNat : Nat) : ℚ)
          = (N : ℚ) / 1 * (2 : ℚ) ^ (-(binadeOf N 1 - 52)) := by
        rw [Nat.cast_mul, natCast_two_pow_toNat _ (by omega)]
        simp
      apply le_antisymm
      · apply roundHalfEven_le_of _ _ _ hden
        rw [hratio, hk]
        simp
      · apply roundHalfEven_ge_of _ _ _ hden
        rw [hratio, hk]
        simp
    refine ⟨⟨N * 2 ^ (52 - binadeOf N 1).toNat, binadeOf N 1 - 52⟩, ?_, ?_⟩
    · rw [toDouble_pos N 1 hpos, hmax, hm]
      rw [if_neg]
      intro hc
      rcases hc with hc | ⟨hc, _⟩ <;> omega
    · simp only [Dyadic.val]
      rw [Nat.cast_mul, natCast_two_pow_toNat _ (by omega), mul_assoc, ← zpow_add₀ h2]
      simp

theorem percentOf_le_hundred (a t : Nat) (ht : 0 < t) (hat : a ≤ t) :
    ∃ y, percentOf a t = some y ∧ y.val ≤ 100 := by
  have htq : (0 : ℚ) < t := by exact_mod_cast ht
  obtain ⟨one, hone, honev⟩ := toDouble_nat 1 (by norm_num)
  obtain ⟨hundred, hhun, hhunv⟩ := toDouble_nat 100 (by norm_num)
  have h1 := toDouble_mono a t 1 1 ht (by norm_num) (by
    rw [div_le_iff₀ htq]
    simp only [Nat.cast_one, div_one, one_mul]
    exact_mod_cast hat)
  rw [hone] at h1
  cases ha : toDouble a t with
  | none => rw [ha] at h1; exact absurd h1 (by simp [doubleLe])
  | some x =>
    rw [ha] at h1
    simp only [doubleLe] at h1
    rw [honev] at h1
    have h2 : doubleLe (x.mulNat 100) (toDouble 100 1) := by
      unfold Dyadic.mulNat
      apply toDouble_mono _ _ _ _ (scaledDen_pos 1 _ (by norm_num)) (by norm_num)
      rw [scaled_ratio]
      simp only [neg_neg, Nat.cast_mul, Nat.cast_one, div_one]
      have hx : (x.mant : ℚ) * (100 : Nat) * (2 : ℚ) ^ x.exp = x.val * 100 := by
        simp [Dyadic.val]; ring
      rw [hx]
      have : x.val * 100 ≤ 1 * 100 := mul_le_mul_of_nonneg_right h1 (by norm_num)
      simpa using this
    rw [hhun] at h2
    unfold percentOf
    rw [ha]
    simp only [Option.some_bind]
    cases hm : x.mulNat 100 with
    | none => rw [hm] at h2; exact absurd h2 (by simp [doubleLe])
    | some y =>
      rw [hm] at h2
      simp only [doubleLe] at h2
      rw [hhunv] at h2
      exact ⟨y, rfl, by simpa using h2⟩

theorem Dyadic.toNum_eq (x : Dyadic) : x.toNum = JSNum.fin x.val := by
  have h2 : (2 : ℚ) ≠ 0 := by norm_num
  unfold Dyadic.toNum Dyadic.val
  by_cases h : 0 ≤ x.exp
  · rw [if_pos h, Nat.cast_mul, natCast_two_pow_toNat _ h]
  · rw [if_neg h]
    have hpow := natCast_two_pow_toNat (-x.exp) (by omega)
    have hval : (x.mant : ℚ) * (2 : ℚ) ^ x.exp
        = (x.mant : ℚ) / ((2 ^ (-x.exp).toNat : Nat) : ℚ) := by
      rw [hpow, zpow_neg, div_eq_mul_inv, inv_inv]
    split
    · rename_i hdiv
      rw [hval, Nat.cast_div (Nat.dvd_of_mod_eq_zero hdiv)]
      rw [hpow]
      exact ne_of_gt (two_zpow_pos _)
    · rw [hval]

theorem doubleOf_nat (N : Nat) (hN : N < 2 ^ 53) : doubleOf N 1 = JSNum.fin N := by
  obtain ⟨x, hx, hv⟩ := toDouble_nat N hN
  simp [doubleOf, hx, Dyadic.toNum_eq, hv]

theorem doubleOf_cases (n d : Nat) :
    doubleOf n d = JSNum.posInf ∨ ∃ q : ℚ, 0 ≤ q ∧ doubleOf n d = JSNum.fin q := by
  unfold doubleOf
  cases toDouble n d with
  | none => exact Or.inl rfl
  | some x => exact Or.inr ⟨x.val, x.val_nonneg, x.toNum_eq⟩

/-! ## Version ordering -/

theorem JSNum.lt_irrefl (x : JSNum) : x.lt x = false := by
  cases x <;> simp [JSNum.lt]

theorem JSNum.lt_asymm {x y : JSNum} (h : x.lt y = true) : y.lt x = false := by
  cases x <;> cases y <;> simp_all [JSNum.lt]
  exact le_of_lt h

theorem JSNum.eq_of_not_lt {x y : JSNum} (hx : x ≠ JSNum.nan) (hy : y ≠ JSNum.nan)
    (h1 : x.lt y = false) (h2 : y.lt x = false) : x = y := by
  cases x <;> cases y <;> simp_all [JSNum.lt]
  exact le_antisymm h2 h1

theorem JSNum.orZero_ne_nan (o : Option JSNum) : JSNum.orZero o ≠ JSNum.nan := by
  cases o with
  | none => simp [JSNum.orZero]
  | some x =>
    cases x <;> simp [JSNum.orZero, JSNum.truthy]
    split <;> simp

theorem JSNum.orZero_eq_self_or (x : JSNum) :
    JSNum.orZero (some x) = if x = JSNum.nan then JSNum.fin 0 else x := by
  cases x <;> simp [JSNum.orZero, JSNum.truthy]
  intro h; exact h.symm

theorem parseVersion_numeric (s : String) : (parseVersion s).numeric := by
  refine ⟨?_, ?_, ?_⟩ <;> exact JSNum.orZero_ne_nan _

theorem isNewerVersion_iff_lexGt (A B : Version) (hA : A.numeric) (hB : B.numeric) :
    isNewerVersion A B = true ↔ A.lexGt B := by
  obtain ⟨hA1, hA2, _⟩ := hA
  obtain ⟨hB1, hB2, _⟩ := hB
  unfold isNewerVersion Version.lexGt
  simp only [JSNum.gt]
  cases h1 : B.major.lt A.major
  · cases h2 : A.major.lt B.major
    · have heq : A.major = B.major := JSNum.eq_of_not_lt hA1 hB1 h2 h1
      cases h3 : B.minor.lt A.minor
      · cases h4 : A.minor.lt B.minor
        · have heq2 : A.minor = B.minor := JSNum.eq_of_not_lt hA2 hB2 h4 h3
          simp [heq, heq2]
        · have hne : A.minor ≠ B.minor := by
            intro h; rw [h, JSNum.lt_irrefl] at h4; exact Bool.noConfusion h4
          simp [heq, hne]
      · simp [heq]
    · have hne : A.major ≠ B.major := by
        intro h; rw [h, JSNum.lt_irrefl] at h2; exact Bool.noConfusion h2
      simp [hne]
  · simp

theorem isNewerVersion_self (A : Version) : isNewerVersion A A = false := by
  simp [isNewerVersion, JSNum.gt, JSNum.lt_irrefl]

/-! ## String lemmas -/

theorem includesChars_iff (sub s : List Char) : includesChars sub s = true ↔ sub <:+: s := by
  induction s with
  | nil => simp [includesChars]
  | cons c cs ih =>
    simp only [includesChars, Bool.or_eq_true, ih, List.isPrefixOf_iff_prefix]
    rw [List.infix_cons_iff]

theorem includes_iff (s sub : String) : includes s sub = true ↔ sub.data <:+: s.data :=
  includesChars_iff _ _

theorem includes_append_mid (a b c : String) : includes (a ++ b ++ c) b = true := by
  rw [includes_iff]
  exact ⟨a.data, c.data, by simp [String.data_append]⟩

theorem includes_of_eq_append {s : String} (a b c : String) (h : s = a ++ b ++ c) :
    includes s b = true := by
  rw [h]; exact includes_append_mid a b c

theorem includes_trans {s t u : String} (h1 : includes s t = true) (h2 : includes t u = true) :
    includes s u = true := by
  rw [includes_iff] at *
  exact List.IsInfix.trans h2 h1

theorem includes_false_of_includes_false {s t u : String} (h1 : includes s u = false)
    (h2 : includes t u = true) : includes s t = false := by
  cases h : includes s t
  · rfl
  · rw [includes_trans h h2] at h1; exact Bool.noConfusion h1

theorem endsWith_iff (s suffix : String) : endsWith s suffix = true ↔ suffix.data <:+ s.data := by
  simp [endsWith]

theorem endsWith_exe_not_zip (s : String) (h : endsWith s ".exe" = true) :
    endsWith s ".zip" = false := by
  cases h2 : endsWith s ".zip"
  · rfl
  · rw [endsWith_iff] at h h2
    rcases List.suffix_or_suffix_of_suffix h h2 with h3 | h3
    · exact absurd (List.IsSuffix.eq_of_length h3 (by decide)) (by decide)
    · exact absurd (List.IsSuffix.eq_of_length h3 (by decide)) (by decide)

/-! ## Asset selection -/

theorem patchAssetName_some (v : String) :
    patchAssetName (some v) = "Patch-from-" ++ v ++ ".zip" := rfl

theorem includes_patchAssetName_marker (iv : Option String) :
    includes (patchAssetName iv) "Patch-from" = true := by
  have h := includes_append_mid "" "Patch-from" ("-" ++ templateText iv ++ ".zip")
  have e : "" ++ "Patch-from" ++ ("-" ++ templateText iv ++ ".zip") = patchAssetName iv := by
    apply String.ext
    simp [patchAssetName, String.data_append]
  rw [e] at h
  exact h

theorem truthy_some_iff (v : String) : truthy (some v) = true ↔ v.data ≠ [] := by
  simp [truthy]

theorem findPatchAsset_some_of_mem {assets : List Asset} {v : String} (hv : v.data ≠ [])
    (h : ∃ a ∈ assets, includes a.name (patchAssetName (some v)) = true) :
    ∃ pre a post, assets = pre ++ a :: post ∧
      (∀ b ∈ pre, includes b.name (patchAssetName (some v)) = false) ∧
      includes a.name (patchAssetName (some v)) = true ∧
      findPatchAsset assets (some v) = some a := by
  have ht : truthy (some v) = true := (truthy_some_iff v).2 hv
  cases hf : assets.find? (fun a => includes a.name (patchAssetName (some v))) with
  | none =>
    rw [List.find?_eq_none] at hf
    obtain ⟨a, ha, hin⟩ := h
    exact absurd hin (hf a ha)
  | some a =>
    obtain ⟨hpa, pre, post, hsplit, hpre⟩ := List.find?_eq_some.1 hf
    refine ⟨pre, a, post, hsplit, ?_, hpa, ?_⟩
    · intro b hb
      simpa using hpre b hb
    · simp [findPatchAsset, ht, hf]

theorem findFullAsset_not_patch {assets : List Asset} {a : Asset}
    (h : findFullAsset assets = some a) : includes a.name "Patch-from" = false := by
  unfold findFullAsset at h
  cases hexe : assets.find? isFullExe with
  | some e =>
    rw [hexe] at h
    have := List.find?_some hexe
    simp only [Option.some.injEq] at h
    subst h
    simp only [isFullExe, Bool.and_eq_true, Bool.not_eq_true'] at this
    exact this.2
  | none =>
    rw [hexe] at h
    have := List.find?_some h
    simp only [isFullZip, Bool.and_eq_true, Bool.not_eq_true'] at this
    exact this.2

theorem selectAsset_of_no_patch {assets : List Asset} {iv : Option String}
    (h : (selectAsset assets iv).isPatchUpdate = false) :
    selectAsset assets iv = { asset := findFullAsset assets, isPatchUpdate := false } := by
  unfold selectAsset at h ⊢
  cases hp : findPatchAsset assets iv with
  | none => rfl
  | some a => rw [hp] at h; exact Bool.noConfusion h

/-- C2, as stated, fails. With a `VERSION.txt` that holds only a line break the
installed version read is the empty string, and although the release has the
asset `Patch-from-.zip` next to a full `.exe`, the `.exe` is selected and
`isPatchUpdate` stays false. And with installed version `1.0.0`, an asset
listed earlier whose name merely contains `Patch-from-1.0.0.zip` is selected
instead of the asset of that name. -/
theorem patch_not_selected_for_empty_version :
    readInstalledVersion (some "\n") = some "" ∧
    patchAssetName (some "") = "Patch-from-.zip" ∧
    isFullExe ⟨"Game-Setup.exe", "https://example.org/Game-Setup.exe", 150000000⟩ = true ∧
    selectAsset
        [⟨"Patch-from-.zip", "https://example.org/Patch-from-.zip", 2000000⟩,
         ⟨"Game-Setup.exe", "https://example.org/Game-Setup.exe", 150000000⟩]
        (readInstalledVersion (some "\n"))
      = { asset := some ⟨"Game-Setup.exe", "https://example.org/Game-Setup.exe", 150000000⟩,
          isPatchUpdate := false } ∧
    selectAsset
        [⟨"Hotfix-Patch-from-1.0.0.zip", "https://example.org/Hotfix", 1000000⟩,
         ⟨"Patch-from-1.0.0.zip", "https://example.org/Patch", 2000000⟩,
         ⟨"Game-Setup.exe", "https://example.org/Game-Setup.exe", 150000000⟩]
        (some "1.0.0")
      = { asset := some ⟨"Hotfix-Patch-from-1.0.0.zip", "https://example.org/Hotfix", 1000000⟩,
          isPatchUpdate := true } := by
  decide

/-- C2, amended: when the installed version `v` is not empty and the release
has an asset named `Patch-from-<v>.zip` and a full `.exe` asset, then in every
order of the asset list the selected asset is one whose name contains
`Patch-from-<v>.zip`, it is not the `.exe`, `isPatchUpdate` is true, and it is
the asset named `Patch-from-<v>.zip` itself when no other asset name contains
that text. -/
theorem patch_asset_preferred (assets : List Asset) (v : String) (p e : Asset)
    (hv : v.data ≠ []) (hp : p ∈ assets) (hname : p.name = "Patch-from-" ++ v ++ ".zip")
    (_he : e ∈ assets) (hexe : isFullExe e = true) :
    ∀ ordered : List Asset, ordered.Perm assets →
      ∃ a, selectAsset ordered (some v) = { asset := some a, isPatchUpdate := true } ∧
        a ∈ assets ∧
        includes a.name ("Patch-from-" ++ v ++ ".zip") = true ∧
        isFullExe a = false ∧ a ≠ e ∧
        ((∀ b ∈ assets, includes b.name ("Patch-from-" ++ v ++ ".zip") = true → b = p) → a = p) := by
  intro ordered hperm
  have hpin : includes p.name (patchAssetName (some v)) = true := by
    rw [hname, patchAssetName_some]
    have h := includes_append_mid "" ("Patch-from-" ++ v ++ ".zip") ""
    simpa using h
  obtain ⟨pre, a, post, hsplit, _, hin, hfind⟩ :=
    findPatchAsset_some_of_mem hv ⟨p, hperm.mem_iff.2 hp, hpin⟩
  have hmem : a ∈ assets := hperm.mem_iff.1 (by rw [hsplit]; simp)
  have hmark : includes a.name "Patch-from" = true :=
    includes_trans hin (includes_patchAssetName_marker (some v))
  have hnot : isFullExe a = false := by simp [isFullExe, hmark]
  refine ⟨a, ?_, hmem, hin, hnot, ?_, ?_⟩
  · simp [selectAsset, hfind]
  · intro h; rw [h, hexe] at hnot; exact Bool.noConfusion hnot
  · intro huniq; exact huniq a hmem hin

/-- Witness of C2: installed `1.0.0`, assets `Patch-from-1.0.0.zip` and
`Game-Setup.exe`, listed with the `.exe` first. -/
theorem patch_asset_preferred_witness :
    ∃ a, selectAsset [⟨"Game-Setup.exe", "e", 150000000⟩, ⟨"Patch-from-1.0.0.zip", "p", 2000000⟩]
          (some "1.0.0") = { asset := some a, isPatchUpdate := true } ∧
        a ∈ [(⟨"Patch-from-1.0.0.zip", "p", 2000000⟩ : Asset), ⟨"Game-Setup.exe", "e", 150000000⟩] ∧
        includes a.name ("Patch-from-" ++ "1.0.0" ++ ".zip") = true ∧
        isFullExe a = false ∧ a ≠ ⟨"Game-Setup.exe", "e", 150000000⟩ ∧
        ((∀ b ∈ [(⟨"Patch-from-1.0.0.zip", "p", 2000000⟩ : Asset), ⟨"Game-Setup.exe", "e", 150000000⟩],
            includes b.name ("Patch-from-" ++ "1.0.0" ++ ".zip") = true →
              b = ⟨"Patch-from-1.0.0.zip", "p", 2000000⟩) →
          a = ⟨"Patch-from-1.0.0.zip", "p", 2000000⟩) :=
  patch_asset_preferred
    [⟨"Patch-from-1.0.0.zip", "p", 2000000⟩, ⟨"Game-Setup.exe", "e", 150000000⟩] "1.0.0"
    ⟨"Patch-from-1.0.0.zip", "p", 2000000⟩ ⟨"Game-Setup.exe", "e", 150000000⟩
    (by decide) (by decide) (by decide) (by decide) (by decide)
    [⟨"Game-Setup.exe", "e", 150000000⟩, ⟨"Patch-from-1.0.0.zip", "p", 2000000⟩]
    (List.Perm.swap _ _ _)

/-- C3, as stated, fails: the name `Patch-from-1.0.5.zip` contains `Patch-from-`
followed by the installed version `1.0`, yet it is not selected; the full
`.exe` is, and `isPatchUpdate` is false. -/
theorem patch_prefix_match_not_selected :
    includes "Patch-from-1.0.5.zip" ("Patch-from-" ++ "1.0") = true ∧
    selectAsset
        [⟨"Patch-from-1.0.5.zip", "https://example.org/Patch-from-1.0.5.zip", 2000000⟩,
         ⟨"Game-Setup.exe", "https://example.org/Game-Setup.exe", 150000000⟩]
        (some "1.0")
      = { asset := some ⟨"Game-Setup.exe", "https://example.org/Game-Setup.exe", 150000000⟩,
          isPatchUpdate := false } := by
  decide

/-- C3, amended: for every asset list and every non-empty installed version
`v`, if some asset name contains `Patch-from-<v>.zip`, then the first such
asset in list order is selected and `isPatchUpdate` is true. -/
theorem patch_lookup_selects_first_match (assets : List Asset) (v : String)
    (hv : v.data ≠ [])
    (h : ∃ a ∈ assets, includes a.name ("Patch-from-" ++ v ++ ".zip") = true) :
    ∃ pre a post, assets = pre ++ a :: post ∧
      (∀ b ∈ pre, includes b.name ("Patch-from-" ++ v ++ ".zip") = false) ∧
      includes a.name ("Patch-from-" ++ v ++ ".zip") = true ∧
      selectAsset assets (some v) = { asset := some a, isPatchUpdate := true } := by
  obtain ⟨pre, a, post, hsplit, hpre, hin, hfind⟩ := findPatchAsset_some_of_mem hv h
  exact ⟨pre, a, post, hsplit, hpre, hin, by simp [selectAsset, hfind]⟩

/-- Witness of C3: two matching patch assets, the first one is selected. -/
theorem patch_lookup_selects_first_match_witness :
    ∃ pre a post,
      [(⟨"Game-Setup.exe", "e", 3⟩ : Asset), ⟨"Patch-from-1.0.0.zip", "p", 1⟩,
        ⟨"Hotfix-Patch-from-1.0.0.zip", "q", 2⟩] = pre ++ a :: post ∧
      (∀ b ∈ pre, includes b.name ("Patch-from-" ++ "1.0.0" ++ ".zip") = false) ∧
      includes a.name ("Patch-from-" ++ "1.0.0" ++ ".zip") = true ∧
      selectAsset [⟨"Game-Setup.exe", "e", 3⟩, ⟨"Patch-from-1.0.0.zip", "p", 1⟩,
        ⟨"Hotfix-Patch-from-1.0.0.zip", "q", 2⟩] (some "1.0.0")
        = { asset := some a, isPatchUpdate := true } :=
  patch_lookup_selects_first_match
    [⟨"Game-Setup.exe", "e", 3⟩, ⟨"Patch-from-1.0.0.zip", "p", 1⟩,
      ⟨"Hotfix-Patch-from-1.0.0.zip", "q", 2⟩] "1.0.0" (by decide)
    ⟨⟨"Patch-from-1.0.0.zip", "p", 1⟩, by decide, by decide⟩

/-- C4: when no patch asset is selected, the selected asset is the first asset
in list order whose lower-cased name ends in `.exe` and whose name does not
contain `Patch-from`, whenever there is one (whatever `.zip` assets come
before it); and an asset whose lower-cased name ends in `.zip` is selected only
when the list has no such `.exe` asset. -/
theorem exe_preferred_over_zip (assets : List Asset) (installedVersion : Option String)
    (hnopatch : (selectAsset assets installedVersion).isPatchUpdate = false) :
    ((∃ e ∈ assets, endsWith (toLowerCase e.name) ".exe" = true ∧
          includes e.name "Patch-from" = false) →
      ∃ pre a post, assets = pre ++ a :: post ∧
        (∀ b ∈ pre, ¬ (endsWith (toLowerCase b.name) ".exe" = true ∧
          includes b.name "Patch-from" = false)) ∧
        endsWith (toLowerCase a.name) ".exe" = true ∧ includes a.name "Patch-from" = false ∧
        (selectAsset assets installedVersion).asset = some a) ∧
    (∀ z, (selectAsset assets installedVersion).asset = some z →
      endsWith (toLowerCase z.name) ".zip" = true →
      ∀ e ∈ assets, ¬ (endsWith (toLowerCase e.name) ".exe" = true ∧
        includes e.name "Patch-from" = false)) := by
  rw [selectAsset_of_no_patch hnopatch]
  have key : ∀ b : Asset, isFullExe b = true ↔
      (endsWith (toLowerCase b.name) ".exe" = true ∧ includes b.name "Patch-from" = false) := by
    intro b; simp [isFullExe]
  constructor
  · rintro ⟨e, he, hexe⟩
    cases hf : assets.find? isFullExe with
    | none =>
      rw [List.find?_eq_none] at hf
      exact absurd ((key e).2 hexe) (hf e he)
    | some a =>
      obtain ⟨hpa, pre, post, hsplit, hpre⟩ := List.find?_eq_some.1 hf
      refine ⟨pre, a, post, hsplit, ?_, ((key a).1 hpa).1, ((key a).1 hpa).2, ?_⟩
      · intro b hb hb2
        have := hpre b hb
        rw [(key b).2 hb2] at this
        exact Bool.noConfusion this
      · simp [findFullAsset, hf]
  · intro z hz hzip e he hexe
    simp only [findFullAsset] at hz
    cases hf : assets.find? isFullExe with
    | none =>
      rw [List.find?_eq_none] at hf
      exact hf e he ((key e).2 hexe)
    | some a =>
      rw [hf] at hz
      simp only [Option.some.injEq] at hz
      subst hz
      have ha := (key a).1 (List.find?_some hf)
      rw [endsWith_exe_not_zip _ ha.1] at hzip
      exact Bool.noConfusion hzip

/-- Witness of C4: a `.zip` listed before the `.exe` does not win. -/
theorem exe_preferred_over_zip_witness :
    (selectAsset [⟨"Game.zip", "z", 1⟩, ⟨"Game-Setup.EXE", "e", 2⟩] none).isPatchUpdate = false ∧
    (selectAsset [⟨"Game.zip", "z", 1⟩, ⟨"Game-Setup.EXE", "e", 2⟩] none).asset
      = some ⟨"Game-Setup.EXE", "e", 2⟩ ∧
    (∀ z, (selectAsset [⟨"Game.zip", "z", 1⟩, ⟨"Game-Setup.EXE", "e", 2⟩] none).asset = some z →
      endsWith (toLowerCase z.name) ".zip" = true →
      ∀ e ∈ [(⟨"Game.zip", "z", 1⟩ : Asset), ⟨"Game-Setup.EXE", "e", 2⟩],
        ¬ (endsWith (toLowerCase e.name) ".exe" = true ∧ includes e.name "Patch-from" = false)) :=
  ⟨by decide, by decide,
    (exe_preferred_over_zip [⟨"Game.zip", "z", 1⟩, ⟨"Game-Setup.EXE", "e", 2⟩] none (by decide)).2⟩

/-! ## The handler after the selection -/

theorem gameDownload_of_no_asset (env : DownloadEnv) (config : Option GameConfig)
    (defaultDir : String) (response : ApiResponse) (assets : List Asset)
    (hok : response.ok = true) (hassets : response.json.assets = some assets)
    (hsel : (selectAsset assets (readInstalledVersion env.versionFile)).asset = none) :
    gameDownload env config defaultDir response =
      noAssetBranch env (getGameRepoOwner config) (getGameRepo config)
        (installDirOf config defaultDir) response.json := by
  simp [gameDownload, hok, hassets, hsel]

/-- C5: when the selection falls through to the full-install tiers (no patch
asset was selected), the name of the selected asset never contains
`Patch-from`; and for a release all of whose asset names contain `Patch-from`,
none of them the patch for the installed version, no asset is selected and
the handler continues with the source-fallback branch. -/
theorem full_install_never_selects_patch (assets : List Asset)
    (installedVersion : Option String)
    (hnopatch : (selectAsset assets installedVersion).isPatchUpdate = false) :
    (∀ a, (selectAsset assets installedVersion).asset = some a →
      includes a.name "Patch-from" = false) ∧
    ((∀ a ∈ assets, includes a.name "Patch-from" = true) →
      (selectAsset assets installedVersion).asset = none ∧
      ∀ (env : DownloadEnv) (config : Option GameConfig) (defaultDir : String)
        (response : ApiResponse),
        response.ok = true → response.json.assets = some assets →
        readInstalledVersion env.versionFile = installedVersion →
        gameDownload env config defaultDir response =
          noAssetBranch env (getGameRepoOwner config) (getGameRepo config)
            (installDirOf config defaultDir) response.json) := by
  have hsel := selectAsset_of_no_patch hnopatch
  have h1 : ∀ a, (selectAsset assets installedVersion).asset = some a →
      includes a.name "Patch-from" = false := by
    intro a ha
    rw [hsel] at ha
    exact findFullAsset_not_patch ha
  refine ⟨h1, ?_⟩
  intro hall
  have hnone : (selectAsset assets installedVersion).asset = none := by
    cases hs : (selectAsset assets installedVersion).asset with
    | none => rfl
    | some a =>
      have hmem : a ∈ assets := by
        rw [hsel] at hs
        simp only [findFullAsset] at hs
        cases hf : assets.find? isFullExe with
        | some e =>
          rw [hf] at hs
          simp only [Option.some.injEq] at hs
          subst hs
          exact List.mem_of_find?_eq_some hf
        | none =>
          rw [hf] at hs
          exact List.mem_of_find?_eq_some hs
      have := h1 a hs
      rw [hall a hmem] at this
      exact Bool.noConfusion this
  refine ⟨hnone, ?_⟩
  intro env config defaultDir response hok hassets hiv
  exact gameDownload_of_no_asset env config defaultDir response assets hok hassets
    (by rw [hiv]; exact hnone)

/-- Witness of C5: installed `1.1.0`, the release only has patches from other
versions. -/
theorem full_install_never_selects_patch_witness :
    (∀ a, (selectAsset [⟨"Patch-from-1.0.0.zip", "p", 1⟩, ⟨"Patch-from-0.9.0.zip", "q", 2⟩]
        (some "1.1.0")).asset = some a → includes a.name "Patch-from" = false) ∧
    (selectAsset [⟨"Patch-from-1.0.0.zip", "p", 1⟩, ⟨"Patch-from-0.9.0.zip", "q", 2⟩]
        (some "1.1.0")).asset = none :=
  have h := full_install_never_selects_patch
    [⟨"Patch-from-1.0.0.zip", "p", 1⟩, ⟨"Patch-from-0.9.0.zip", "q", 2⟩] (some "1.1.0")
    (by decide)
  ⟨h.1, (h.2 (by decide)).1⟩

/-- C6: when no release asset is selected and the release has a source URL
(`zipball_url`, and `tarball_url` when that one is missing or empty), the one
download the handler starts goes to that URL and into the file
`<repo>-<tag>-source.zip` of the install directory, `latest` standing for a
missing or empty tag. -/
theorem fallback_download_target (env : DownloadEnv) (config : Option GameConfig)
    (defaultDir : String) (response : ApiResponse) (assets : List Asset) (url : String)
    (hok : response.ok = true) (hassets : response.json.assets = some assets)
    (hsel : (selectAsset assets (readInstalledVersion env.versionFile)).asset = none)
    (hurl : (if truthy response.json.zipball_url then response.json.zipball_url
              else response.json.tarball_url) = some url)
    (hne : url.data ≠ []) :
    (gameDownload env config defaultDir response).2 =
      [Effect.fallbackDownload url
        { dir := installDirOf config defaultDir
          name := templateText (getGameRepo config) ++ "-" ++
            (match response.json.tag_name with
              | some tag => if tag.data = [] then "latest" else tag
              | none => "latest") ++ "-source.zip" }] := by
  rw [gameDownload_of_no_asset env config defaultDir response assets hok hassets hsel]
  have hf : fallbackUrl response.json = some url := hurl
  have ht : truthy (some url) = true := (truthy_some_iff url).2 hne
  have hname : fallbackName (getGameRepo config) response.json =
      templateText (getGameRepo config) ++ "-" ++
        (match response.json.tag_name with
          | some tag => if tag.data = [] then "latest" else tag
          | none => "latest") ++ "-source.zip" := by
    unfold fallbackName
    cases htag : response.json.tag_name with
    | none => simp [truthy]
    | some tag =>
      by_cases hd : tag.data = []
      · simp [truthy, templateText, hd]
      · simp [truthy, templateText, hd]
  unfold noAssetBranch
  rw [hf]
  simp only [ht, if_true]
  rw [hname]
  cases env.fallback url _ <;> rfl

/-- Witness of C6: a release without assets, tagged `v1.1.0`. -/
theorem fallback_download_target_witness :
    (gameDownload offlineEnv none "C:/Pokemon Illusion"
        { ok := true, status := 200, statusText := "OK", rateLimitReset := none,
          json := sourceOnlyRelease }).2 =
      [Effect.fallbackDownload "https://api.github.com/zipball/v1.1.0"
        { dir := "C:/Pokemon Illusion", name := "Illusion-v1.1.0-source.zip" }] :=
  fallback_download_target offlineEnv none "C:/Pokemon Illusion"
    { ok := true, status := 200, statusText := "OK", rateLimitReset := none,
      json := sourceOnlyRelease } [] "https://api.github.com/zipball/v1.1.0"
    rfl rfl (by decide) (by decide) (by decide)

/-- C7: when no asset is selected and the release has no source URL, the
handler issues no download and resolves with `success = false` and a message
that contains the URL of the release,
`https://github.com/<owner>/<repo>/releases/tag/<tag>`, and the instruction to
upload the game archive as an asset. -/
theorem no_asset_failure_message (env : DownloadEnv) (config : Option GameConfig)
    (defaultDir : String) (response : ApiResponse) (assets : List Asset)
    (hok : response.ok = true) (hassets : response.json.assets = some assets)
    (hsel : (selectAsset assets (readInstalledVersion env.versionFile)).asset = none)
    (hurl : truthy (if truthy response.json.zipball_url then response.json.zipball_url
              else response.json.tarball_url) = false) :
    ∃ r, gameDownload env config defaultDir response = (HandlerResult.resolved r, []) ∧
      r.success = false ∧
      includes r.message "Lade deine Spiel-Zip-Datei als Asset hoch" = true ∧
      includes r.message ("https://github.com/" ++ getGameRepoOwner config ++ "/" ++
        templateText (getGameRepo config) ++ "/releases/tag/" ++
        templateText response.json.tag_name) = true ∧
      (∀ repo tag, getGameRepo config = some repo → response.json.tag_name = some tag →
        includes r.message ("https://github.com/" ++ getGameRepoOwner config ++ "/" ++ repo ++
          "/releases/tag/" ++ tag) = true) := by
  rw [gameDownload_of_no_asset env config defaultDir response assets hok hassets hsel]
  have hf : truthy (fallbackUrl response.json) = false := hurl
  have hbranch : noAssetBranch env (getGameRepoOwner config) (getGameRepo config)
      (installDirOf config defaultDir) response.json =
      (caught (noAssetMessage (getGameRepoOwner config) (getGameRepo config) response.json), []) := by
    unfold noAssetBranch
    cases hfu : fallbackUrl response.json with
    | none => rfl
    | some u =>
      rw [hfu] at hf
      simp [hf]
  rw [hbranch]
  have hurlIn : includes (noAssetMessage (getGameRepoOwner config) (getGameRepo config)
      response.json) ("https://github.com/" ++ getGameRepoOwner config ++ "/" ++
        templateText (getGameRepo config) ++ "/releases/tag/" ++
        templateText response.json.tag_name) = true :=
    includes_of_eq_append
      "Keine Game.exe oder .zip Datei im neuesten Release gefunden.\n\nUm das Spiel herunterzuladen:\n1. Gehe zu: "
      _
      "\n2. Klicke auf \"Edit\" (Bearbeiten)\n3. Lade deine Spiel-Zip-Datei als Asset hoch\n4. Aktualisiere das Release\n\nAlternativ kannst du das Spiel manuell installieren."
      (by
        unfold noAssetMessage
        rw [show ("Keine Game.exe oder .zip Datei im neuesten Release gefunden.\n\nUm das Spiel herunterzuladen:\n1. Gehe zu: https://github.com/" : String)
          = "Keine Game.exe oder .zip Datei im neuesten Release gefunden.\n\nUm das Spiel herunterzuladen:\n1. Gehe zu: " ++ "https://github.com/" from by decide]
        simp only [String.append_assoc])
  refine ⟨_, rfl, rfl, ?_, hurlIn, ?_⟩
  · exact includes_of_eq_append
      ("Keine Game.exe oder .zip Datei im neuesten Release gefunden.\n\nUm das Spiel herunterzuladen:\n1. Gehe zu: https://github.com/" ++
        getGameRepoOwner config ++ "/" ++ templateText (getGameRepo config) ++ "/releases/tag/" ++
        templateText response.json.tag_name ++ "\n2. Klicke auf \"Edit\" (Bearbeiten)\n3. ")
      _
      "\n4. Aktualisiere das Release\n\nAlternativ kannst du das Spiel manuell installieren."
      (by
        show noAssetMessage _ _ _ = _
        unfold noAssetMessage
        rw [show ("\n2. Klicke auf \"Edit\" (Bearbeiten)\n3. Lade deine Spiel-Zip-Datei als Asset hoch\n4. Aktualisiere das Release\n\nAlternativ kannst du das Spiel manuell installieren." : String)
          = "\n2. Klicke auf \"Edit\" (Bearbeiten)\n3. " ++ ("Lade deine Spiel-Zip-Datei als Asset hoch" ++ "\n4. Aktualisiere das Release\n\nAlternativ kannst du das Spiel manuell installieren.") from by decide]
        simp only [String.append_assoc])
  · intro repo tag hrepo htag
    have e1 : templateText (getGameRepo config) = repo := by rw [hrepo]; rfl
    have e2 : templateText response.json.tag_name = tag := by rw [htag]; rfl
    rw [e1, e2] at hurlIn
    exact hurlIn

/-- Witness of C7: a release without assets and without source archives. -/
theorem no_asset_failure_message_witness :
    ∃ r, gameDownload offlineEnv none "C:/Pokemon Illusion"
        { ok := true, status := 200, statusText := "OK", rateLimitReset := none,
          json := emptyRelease } = (HandlerResult.resolved r, []) ∧
      r.success = false ∧
      includes r.message "https://github.com/99Problemsx/Illusion/releases/tag/v1.1.0" = true :=
  have ⟨r, h1, h2, _, _, h5⟩ := no_asset_failure_message offlineEnv none "C:/Pokemon Illusion"
    { ok := true, status := 200, statusText := "OK", rateLimitReset := none,
      json := emptyRelease } [] rfl rfl (by decide) (by decide)
  ⟨r, h1, h2, h5 "Illusion" "v1.1.0" rfl rfl⟩

/-! ## File system lemmas -/

theorem getEntry_setEntry_ne {α : Type} (es : List (String × α)) (a b : String) (v : α)
    (h : a ≠ b) : getEntry (setEntry es a v) b = getEntry es b := by
  induction es with
  | nil => simp [setEntry, getEntry, h]
  | cons e rest ih =>
    obtain ⟨k, w⟩ := e
    by_cases hk : k = a
    · subst hk; simp [setEntry, getEntry, h]
    · by_cases hb : k = b
      · subst hb; simp [setEntry, getEntry, hk]
      · simp [setEntry, getEntry, hk, hb, ih]

theorem getEntry_setEntry_same {α : Type} (es : List (String × α)) (a : String) (v : α) :
    getEntry (setEntry es a v) a = some v := by
  induction es with
  | nil => simp [setEntry, getEntry]
  | cons e rest ih =>
    obtain ⟨k, w⟩ := e
    by_cases hk : k = a
    · simp [setEntry, getEntry, hk]
    · simp [setEntry, getEntry, hk, ih]

theorem Node.get?_dir_cons (es : List (String × Node)) (c : String) (rest : Path) :
    (Node.dir es).get? (c :: rest) =
      match getEntry es c with
      | some k => k.get? rest
      | none => none := by
  simp [Node.get?]

theorem Node.set_dir_cons (es : List (String × Node)) (c : String) (t : Path) (n : Node)
    (ht : t ≠ []) :
    (Node.dir es).set (c :: t) n =
      match getEntry es c with
      | some k =>
        match k.set t n with
        | some k' => some (Node.dir (setEntry es c k'))
        | none => none
      | none => none := by
  cases t with
  | nil => exact absurd rfl ht
  | cons d rest => simp [Node.set]

theorem Node.set_get_same (root : Node) (p : Path) (n root' : Node)
    (h : root.set p n = some root') : root'.get? p = some n := by
  induction p generalizing root root' with
  | nil => simp [Node.set] at h
  | cons c t ih =>
    cases root with
    | file content => simp [Node.set] at h
    | dir es =>
      cases t with
      | nil =>
        simp only [Node.set, Option.some.injEq] at h
        subst h
        simp [Node.get?, getEntry_setEntry_same]
      | cons d rest =>
        rw [Node.set_dir_cons es c (d :: rest) n (by simp)] at h
        cases hk : getEntry es c with
        | none => simp [hk] at h
        | some k =>
          simp only [hk] at h
          cases hs : k.set (d :: rest) n with
          | none => simp [hs] at h
          | some k' =>
            simp only [hs, Option.some.injEq] at h
            subst h
            rw [Node.get?_dir_cons, getEntry_setEntry_same]
            exact ih k k' hs

theorem Node.set_get_diverge (pre : Path) (a b : String) (r1 r2 : Path) (hab : a ≠ b)
    (root : Node) (n root' : Node) (h : root.set (pre ++ a :: r1) n = some root') :
    root'.get? (pre ++ b :: r2) = root.get? (pre ++ b :: r2) := by
  induction pre generalizing root root' with
  | nil =>
    cases root with
    | file content => simp [Node.set] at h
    | dir es =>
      simp only [List.nil_append] at h ⊢
      cases r1 with
      | nil =>
        simp only [Node.set, Option.some.injEq] at h
        subst h
        rw [Node.get?_dir_cons, Node.get?_dir_cons, getEntry_setEntry_ne _ _ _ _ hab]
      | cons d rest =>
        rw [Node.set_dir_cons es a (d :: rest) n (by simp)] at h
        cases hk : getEntry es a with
        | none => simp [hk] at h
        | some k =>
          simp only [hk] at h
          cases hs : k.set (d :: rest) n with
          | none => simp [hs] at h
          | some k' =>
            simp only [hs, Option.some.injEq] at h
            subst h
            rw [Node.get?_dir_cons, Node.get?_dir_cons, getEntry_setEntry_ne _ _ _ _ hab]
  | cons c pre' ih =>
    cases root with
    | file content => simp [Node.set] at h
    | dir es =>
      simp only [List.cons_append] at h ⊢
      rw [Node.set_dir_cons es c (pre' ++ a :: r1) n (by simp)] at h
      cases hk : getEntry es c with
      | none => simp [hk] at h
      | some k =>
        simp only [hk] at h
        cases hs : k.set (pre' ++ a :: r1) n with
        | none => simp [hs] at h
        | some k' =>
          simp only [hs, Option.some.injEq] at h
          subst h
          rw [Node.get?_dir_cons, Node.get?_dir_cons, getEntry_setEntry_same, hk]
          exact ih k k' hs

theorem mkdirRecursive_get_diverge (pre : Path) (a b : String) (r1 r2 : Path) (hab : a ≠ b)
    (root root' : Node) (h : mkdirRecursive root (pre ++ a :: r1) = Except.ok root') :
    root'.get? (pre ++ b :: r2) = root.get? (pre ++ b :: r2) := by
  induction pre generalizing root root' with
  | nil =>
    cases root with
    | file content => simp [mkdirRecursive] at h
    | dir es =>
      simp only [List.nil_append] at h ⊢
      simp only [mkdirRecursive] at h
      cases hk : getEntry es a with
      | none =>
        simp only [hk] at h
        cases hm : mkdirRecursive (Node.dir []) r1 with
        | error e => simp [hm] at h
        | ok k' =>
          simp only [hm, Except.ok.injEq] at h
          subst h
          rw [Node.get?_dir_cons, Node.get?_dir_cons, getEntry_setEntry_ne _ _ _ _ hab]
      | some k =>
        simp only [hk] at h
        cases hm : mkdirRecursive k r1 with
        | error e => simp [hm] at h
        | ok k' =>
          simp only [hm, Except.ok.injEq] at h
          subst h
          rw [Node.get?_dir_cons, Node.get?_dir_cons, getEntry_setEntry_ne _ _ _ _ hab]
  | cons c pre' ih =>
    cases root with
    | file content => simp [mkdirRecursive] at h
    | dir es =>
      simp only [List.cons_append] at h ⊢
      simp only [mkdirRecursive] at h
      cases hk : getEntry es c with
      | none =>
        simp only [hk] at h
        cases hm : mkdirRecursive (Node.dir []) (pre' ++ a :: r1) with
        | error e => simp [hm] at h
        | ok k' =>
          simp only [hm, Except.ok.injEq] at h
          subst h
          rw [Node.get?_dir_cons, Node.get?_dir_cons, getEntry_setEntry_same, hk]
          simp only []
          rw [ih (Node.dir []) k' hm]
          cases pre' <;> simp [Node.get?, getEntry]
      | some k =>
        simp only [hk] at h
        cases hm : mkdirRecursive k (pre' ++ a :: r1) with
        | error e => simp [hm] at h
        | ok k' =>
          simp only [hm, Except.ok.injEq] at h
          subst h
          rw [Node.get?_dir_cons, Node.get?_dir_cons, getEntry_setEntry_same, hk]
          exact ih k k' hm

theorem copyFile_get_diverge (faults : Faults) (pre : Path) (a b : String) (r1 r2 : Path)
    (hab : a ≠ b) (fs fs' : Node) (src : Path)
    (h : copyFile faults fs src (pre ++ a :: r1) = Except.ok fs') :
    fs'.get? (pre ++ b :: r2) = fs.get? (pre ++ b :: r2) := by
  unfold copyFile at h
  split at h
  · simp at h
  · simp at h
  · split at h
    · simp at h
    · split at h
      · simp at h
      · split at h
        · rename_i fs1 hset
          simp only [Except.ok.injEq] at h
          subst h
          exact Node.set_get_diverge pre a b r1 r2 hab fs _ _ hset
        · simp at h

theorem copyEntries_get_diverge (copy : Node → Path → Path → Outcome) (src : Path)
    (pre : Path) (a b : String) (r2 : Path)
    (hcopy : ∀ (fs : Node) (s : Path) (r : Path),
      (copy fs s (pre ++ a :: r)).fs.get? (pre ++ b :: r2) = fs.get? (pre ++ b :: r2))
    (r1 : Path) (entries : List String) (fs : Node) :
    (copyEntries copy src (pre ++ a :: r1) entries fs).fs.get? (pre ++ b :: r2)
      = fs.get? (pre ++ b :: r2) := by
  induction entries generalizing fs with
  | nil => simp [copyEntries]
  | cons e rest ih =>
    have hstep := hcopy fs (src ++ [e]) (r1 ++ [e])
    have hdest : pre ++ a :: r1 ++ [e] = pre ++ a :: (r1 ++ [e]) := by simp
    simp only [copyEntries]
    rw [hdest]
    generalize copy fs (src ++ [e]) (pre ++ a :: (r1 ++ [e])) = out at hstep
    obtain ⟨fs', err⟩ := out
    cases err with
    | none => simp only []; rw [ih fs']; exact hstep
    | some msg => exact hstep

theorem copyRecursive_get_diverge (faults : Faults) (pre : Path) (a b : String) (r2 : Path)
    (hab : a ≠ b) (fuel : Nat) (fs : Node) (src : Path) (r1 : Path) :
    (copyRecursive faults fuel fs src (pre ++ a :: r1)).fs.get? (pre ++ b :: r2)
      = fs.get? (pre ++ b :: r2) := by
  induction fuel generalizing fs src r1 with
  | zero => simp [copyRecursive]
  | succ fuel ih =>
    simp only [copyRecursive]
    cases hstat : fs.get? src with
    | none => simp
    | some stats =>
      simp only []
      by_cases hdir : stats.isDirectory = true
      · simp only [hdir, if_true]
        cases hmk : mkdirRecursive fs (pre ++ a :: r1) with
        | error e => simp
        | ok fs1 =>
          have hfs1 := mkdirRecursive_get_diverge pre a b r1 r2 hab fs fs1 hmk
          simp only []
          cases hrd : readdir fs1 src with
          | error e => simpa using hfs1
          | ok entries =>
            simp only []
            rw [copyEntries_get_diverge (copyRecursive faults fuel) src pre a b r2
              (fun fs s r => ih fs s r) r1 entries fs1]
            exact hfs1
      · simp only [hdir]
        cases hcp : copyFile faults fs src (pre ++ a :: r1) with
        | error e => simp
        | ok fs1 =>
          simpa using copyFile_get_diverge faults pre a b r1 r2 hab fs fs1 src hcp

theorem rename_get_new (fs fs1 : Node) (oldPath newPath : Path)
    (h : rename fs oldPath newPath = Except.ok fs1) :
    fs1.get? newPath = fs.get? oldPath := by
  unfold rename at h
  cases hold : fs.get? oldPath with
  | none => simp [hold] at h
  | some n =>
    simp only [hold] at h
    by_cases heq : oldPath = newPath
    · simp only [heq, if_true, Except.ok.injEq] at h
      subst h
      rw [← heq, hold]
    · simp only [heq, if_false] at h
      split at h
      · simp at h
      · split at h
        · split at h
          · rename_i fs' hset
            simp only [Except.ok.injEq] at h
            subst h
            exact Node.set_get_same _ _ _ _ hset
          · simp at h
        · simp at h

theorem rename_root_fails (fs fs1 : Node) (newPath : Path) (hne : newPath ≠ []) :
    rename fs [] newPath ≠ Except.ok fs1 := by
  intro h
  unfold rename at h
  simp only [Node.get?] at h
  have : ([] : Path) ≠ newPath := fun e => hne e.symm
  simp [this, List.isPrefixOf] at h

theorem backup_name_ne (last : String) (now : Nat) :
    last ≠ last ++ "_backup_" ++ toString now := by
  intro h
  have hl := congrArg String.length h
  simp only [String.length_append] at hl
  have : ("_backup_" : String).length = 8 := by decide
  omega

theorem backupPathOf_eq (targetPath : Path) (now : Nat) (h : targetPath ≠ []) :
    ∃ pre last, targetPath = pre ++ [last] ∧
      backupPathOf targetPath now = pre ++ [last ++ "_backup_" ++ toString now] := by
  refine ⟨targetPath.dropLast, targetPath.getLast h, ?_, ?_⟩
  · exact (List.dropLast_append_getLast h).symm
  · simp [backupPathOf, List.getLast?_eq_getLast _ h]

/-! ## Installing an update -/

/-- C1, as stated, fails: the installed game is renamed to
`Illusion_backup_17`, the copy of the new files stops at a file that cannot be
written, and `installUpdate` throws that error; afterwards the target holds
the part of the new version copied so far, not the old installation, and the
backup directory is still there. -/
theorem install_failure_not_restored :
    existsSync sampleDisk ["games", "Illusion"] = true ∧
    (∃ fs1, rename sampleDisk ["games", "Illusion"] (backupPathOf ["games", "Illusion"] 17)
      = Except.ok fs1) ∧
    (installUpdate failingWrite 5 17 sampleDisk ["tmp", "extracted"] ["games", "Illusion"]).error
      = some "ENOSPC" ∧
    sampleDisk.get? ["games", "Illusion"]
      = some (Node.dir [("Game.exe", Node.file "old"), ("VERSION.txt", Node.file "1.0.0")]) ∧
    (installUpdate failingWrite 5 17 sampleDisk ["tmp", "extracted"] ["games", "Illusion"]).fs.get?
        ["games", "Illusion"]
      = some (Node.dir [("Game.exe", Node.file "new"), ("Data", Node.dir [])]) ∧
    existsSync
      (installUpdate failingWrite 5 17 sampleDisk ["tmp", "extracted"] ["games", "Illusion"]).fs
      ["games", "Illusion_backup_17"] = true := by
  refine ⟨by decide, ⟨_, rfl⟩, by decide, rfl, rfl, by decide⟩

/-- C1, amended: if copying the new files fails after the existing target
directory has been renamed to `<target>_backup_<timestamp>`, then when
`installUpdate` returns with the failure nothing has been moved back: the
backup directory still exists and holds exactly what the target held before
the call. -/
theorem install_failure_keeps_backup (faults : Faults) (fuel now : Nat) (fs fs1 : Node)
    (sourcePath targetPath : Path)
    (hexists : existsSync fs targetPath = true)
    (hrenamed : rename fs targetPath (backupPathOf targetPath now) = Except.ok fs1)
    (hfails : (installUpdate faults fuel now fs sourcePath targetPath).error ≠ none) :
    (installUpdate faults fuel now fs sourcePath targetPath).fs.get?
        (backupPathOf targetPath now) = fs.get? targetPath ∧
    existsSync (installUpdate faults fuel now fs sourcePath targetPath).fs
        (backupPathOf targetPath now) = true := by
  have hne : targetPath ≠ [] := by
    intro h
    subst h
    exact rename_root_fails fs fs1 _ (by simp [backupPathOf]) hrenamed
  obtain ⟨pre, last, htarget, hbackup⟩ := backupPathOf_eq targetPath now hne
  have hframe : (copyRecursive faults fuel fs1 sourcePath targetPath).fs.get?
      (backupPathOf targetPath now) = fs1.get? (backupPathOf targetPath now) := by
    rw [hbackup]
    conv => lhs; arg 1; arg 1; rw [htarget]
    exact copyRecursive_get_diverge faults pre last _ [] (backup_name_ne last now) fuel fs1
      sourcePath []
  have hmoved := rename_get_new fs fs1 _ _ hrenamed
  have hout : (installUpdate faults fuel now fs sourcePath targetPath).fs
      = (copyRecursive faults fuel fs1 sourcePath targetPath).fs := by
    unfold installUpdate at hfails ⊢
    simp only [hexists, if_true, hrenamed] at hfails ⊢
    generalize copyRecursive faults fuel fs1 sourcePath targetPath = out at hfails ⊢
    obtain ⟨fs2, err⟩ := out
    cases err with
    | none => simp at hfails
    | some e => rfl
  have hget : (installUpdate faults fuel now fs sourcePath targetPath).fs.get?
      (backupPathOf targetPath now) = fs.get? targetPath := by
    rw [hout, hframe, hmoved]
  refine ⟨hget, ?_⟩
  unfold existsSync at hexists ⊢
  rw [hget]
  exact hexists

/-- Witness of C1: the installation whose update stops at a file that cannot be written. -/
theorem install_failure_keeps_backup_witness :
    (installUpdate failingWrite 5 17 sampleDisk ["tmp", "extracted"] ["games", "Illusion"]).fs.get?
        (backupPathOf ["games", "Illusion"] 17) = sampleDisk.get? ["games", "Illusion"] ∧
    existsSync
      (installUpdate failingWrite 5 17 sampleDisk ["tmp", "extracted"] ["games", "Illusion"]).fs
      (backupPathOf ["games", "Illusion"] 17) = true :=
  install_failure_keeps_backup failingWrite 5 17 sampleDisk _ ["tmp", "extracted"]
    ["games", "Illusion"] (by decide) rfl (by decide)

/-! ## Parsing and comparing versions -/

theorem splitChars_ne_nil (sep : Char) (cs : List Char) : splitChars sep cs ≠ [] := by
  cases cs with
  | nil => simp [splitChars]
  | cons c rest =>
    simp only [splitChars]
    split
    · simp
    · split <;> simp

theorem splitChars_intercalate (sep : Char) (cs : List Char) :
    List.intercalate [sep] (splitChars sep cs) = cs := by
  induction cs with
  | nil => simp [splitChars, List.intercalate]
  | cons c rest ih =>
    simp only [splitChars]
    by_cases hc : c = sep
    · simp only [hc, if_true]
      cases hs : splitChars sep rest with
      | nil => exact absurd hs (splitChars_ne_nil sep rest)
      | cons p ps =>
        rw [hs] at ih
        simp only [List.intercalate, List.intersperse, List.flatten_cons, List.nil_append,
          List.singleton_append] at ih ⊢
        rw [ih]
    · simp only [hc, if_false]
      cases hs : splitChars sep rest with
      | nil => exact absurd hs (splitChars_ne_nil sep rest)
      | cons p ps =>
        rw [hs] at ih
        simp only []
        cases ps with
        | nil =>
          simp only [List.intercalate, List.intersperse, List.flatten_cons, List.flatten_nil,
            List.append_nil] at ih ⊢
          rw [ih]
        | cons q qs =>
          simp only [List.intercalate, List.intersperse, List.flatten_cons,
            List.cons_append] at ih ⊢
          rw [ih]

theorem splitChars_no_sep (sep : Char) (cs : List Char) :
    ∀ p ∈ splitChars sep cs, sep ∉ p := by
  induction cs with
  | nil => simp [splitChars]
  | cons c rest ih =>
    simp only [splitChars]
    by_cases hc : c = sep
    · simp only [hc, if_true, List.mem_cons]
      rintro p (rfl | hp)
      · simp
      · exact ih p hp
    · simp only [hc, if_false]
      cases hs : splitChars sep rest with
      | nil => exact absurd hs (splitChars_ne_nil sep rest)
      | cons q qs =>
        rw [hs] at ih
        simp only [List.mem_cons]
        rintro p (rfl | hp)
        · simp only [List.mem_cons, not_or]
          exact ⟨fun h => hc h.symm, ih q (by simp)⟩
        · exact ih p (by simp [hp])

theorem orZero_eq_specComponentValue (parts : List String) (i : Nat) :
    JSNum.orZero ((parts.map jsNumber)[i]?) = specComponentValue parts[i]? := by
  rw [List.getElem?_map]
  cases parts[i]? with
  | none => rfl
  | some c =>
    simp only [Option.map_some', specComponentValue]
    rw [JSNum.orZero_eq_self_or]

theorem digitsValue_decimal (ds : List Char) (acc : Nat)
    (h : ∀ c ∈ ds, isDecimalDigit c = true) :
    digitsValue 10 ds acc = some (ds.foldl (fun a c => a * 10 + (c.toNat - 48)) acc) := by
  induction ds generalizing acc with
  | nil => rfl
  | cons c rest ih =>
    have hc := h c (by simp)
    simp only [isDecimalDigit, Bool.and_eq_true, decide_eq_true_eq] at hc
    have hd : digitValue c = some (c.toNat - 48) := by
      simp [digitValue, hc.1, hc.2]
    have hlt : c.toNat - 48 < 10 := by omega
    simp only [digitsValue, hd, hlt, if_true, List.foldl_cons]
    exact ih _ (fun x hx => h x (by simp [hx]))

theorem not_whitespace_of_digit (c : Char) (h : isDecimalDigit c = true) :
    isStrWhiteSpaceChar c = false := by
  simp only [isDecimalDigit, Bool.and_eq_true, decide_eq_true_eq] at h
  simp only [isStrWhiteSpaceChar, Bool.or_eq_false_iff, Bool.and_eq_false_iff, beq_eq_false_iff_ne,
    ne_eq, decide_eq_false_iff_not]
  omega

theorem dropWhile_eq_self_of_head {α : Type} (p : α → Bool) (l : List α)
    (h : ∀ x, l.head? = some x → p x = false) : l.dropWhile p = l := by
  cases l with
  | nil => rfl
  | cons a rest => simp [List.dropWhile, h a rfl]

theorem trimChars_digits (ds : List Char) (h : ∀ c ∈ ds, isDecimalDigit c = true) :
    trimChars ds = ds := by
  have e1 : ds.dropWhile isStrWhiteSpaceChar = ds :=
    dropWhile_eq_self_of_head _ _ (fun x hx =>
      not_whitespace_of_digit x (h x (List.mem_of_mem_head? (Option.mem_def.2 hx))))
  have e2 : ds.reverse.dropWhile isStrWhiteSpaceChar = ds.reverse :=
    dropWhile_eq_self_of_head _ _ (fun x hx =>
      not_whitespace_of_digit x
        (h x (List.mem_reverse.1 (List.mem_of_mem_head? (Option.mem_def.2 hx)))))
  unfold trimChars
  rw [e1, e2, List.reverse_reverse]

theorem span_all {α : Type} (p : α → Bool) (l : List α) (h : ∀ x ∈ l, p x = true) :
    l.span p = (l, []) := by
  rw [List.span_eq_take_drop]
  congr 1
  · exact List.takeWhile_eq_self_iff.2 h
  · exact List.dropWhile_eq_nil_iff.2 h

theorem strUnsignedDecimal_digits (ds : List Char) (hne : ds ≠ [])
    (h : ∀ c ∈ ds, isDecimalDigit c = true) :
    strUnsignedDecimal ds = doubleOf (decimalValue ds) 1 := by
  have hinf : ds ≠ "Infinity".data := by
    intro e
    have := h 'I' (by rw [e]; decide)
    exact absurd this (by decide)
  have h1 : ds.span (fun c => !(c == 'e' || c == 'E')) = (ds, []) := by
    apply span_all
    intro x hx
    have hx' := h x hx
    simp only [isDecimalDigit, Bool.and_eq_true, decide_eq_true_eq] at hx'
    have e1 : x ≠ 'e' := by rintro rfl; revert hx'; decide
    have e2 : x ≠ 'E' := by rintro rfl; revert hx'; decide
    simp [e1, e2]
  have h2 : ds.span (fun c => !(c == '.')) = (ds, []) := by
    apply span_all
    intro x hx
    have hx' := h x hx
    simp only [isDecimalDigit, Bool.and_eq_true, decide_eq_true_eq] at hx'
    have e1 : x ≠ '.' := by rintro rfl; revert hx'; decide
    simp [e1]
  have hemp : ds.isEmpty = false := by
    cases ds with
    | nil => exact absurd rfl hne
    | cons a b => rfl
  unfold strUnsignedDecimal
  simp only [hinf, if_false, h1, h2, hemp, List.isEmpty_nil, List.drop_nil, Bool.false_and,
    Bool.not_true, Bool.or_self, Bool.false_eq_true, digitsValue_decimal ds 0 h, digitsValue,
    parseExponent, List.length_nil, pow_zero, mul_one, add_zero]
  simp [decimalToDouble, decimalValue]

theorem strNumericLiteral_digits (ds : List Char) (h : ∀ c ∈ ds, isDecimalDigit c = true) :
    strNumericLiteral ds = strUnsignedDecimal ds := by
  unfold strNumericLiteral
  split
  all_goals first
    | rfl
    | (exfalso
       have := h _ (List.mem_cons_of_mem _ (List.mem_cons_self _ _))
       revert this
       decide)
    | (exfalso
       have := h _ (List.mem_cons_self _ _)
       revert this
       decide)

theorem jsNumber_digits (c : String) (hne : c.data ≠ [])
    (h : ∀ ch ∈ c.data, isDecimalDigit ch = true) :
    jsNumber c = doubleOf (decimalValue c.data) 1 := by
  unfold jsNumber
  simp only [trimChars_digits c.data h]
  have hemp : c.data.isEmpty = false := by
    cases hd : c.data with
    | nil => exact absurd hd hne
    | cons a b => rfl
  simp only [hemp, Bool.false_eq_true, if_false]
  rw [strNumericLiteral_digits _ h, strUnsignedDecimal_digits _ hne h]

theorem lexGt_fin_iff (a1 a2 a3 b1 b2 b3 : ℚ) (sa sb : String) :
    Version.lexGt ⟨JSNum.fin a1, JSNum.fin a2, JSNum.fin a3, sa⟩
        ⟨JSNum.fin b1, JSNum.fin b2, JSNum.fin b3, sb⟩ ↔
      toLex (b1, toLex (b2, b3)) < toLex (a1, toLex (a2, a3)) := by
  simp only [Version.lexGt, JSNum.gt, JSNum.lt, decide_eq_true_eq, JSNum.fin.injEq,
    Prod.Lex.lt_iff]
  constructor
  · rintro (h | ⟨h1, h | ⟨h2, h3⟩⟩)
    · exact Or.inl h
    · exact Or.inr ⟨h1.symm, Or.inl h⟩
    · exact Or.inr ⟨h1.symm, Or.inr ⟨h2.symm, h3⟩⟩
  · rintro (h | ⟨h1, h | ⟨h2, h3⟩⟩)
    · exact Or.inl h
    · exact Or.inr ⟨h1.symm, Or.inl h⟩
    · exact Or.inr ⟨h1.symm, Or.inr ⟨h2.symm, h3⟩⟩

/-- C8: for versions `A` and `B` with numeric fields, `isNewerVersion(A, B)` is
true exactly when `(A.major, A.minor, A.patch)` is strictly greater than
`(B.major, B.minor, B.patch)` in lexicographic order (for finite fields this is
the lexicographic order of the rational triples); `isNewerVersion(A, A)` is
false; and `1.2.4` is newer than `1.2.3` but not the other way round. -/
theorem isNewerVersion_lexicographic (A B : Version) (hA : A.numeric) (hB : B.numeric) :
    (isNewerVersion A B = true ↔ A.lexGt B) ∧
    (∀ a1 a2 a3 b1 b2 b3 : ℚ,
      A.major = JSNum.fin a1 → A.minor = JSNum.fin a2 → A.patch = JSNum.fin a3 →
      B.major = JSNum.fin b1 → B.minor = JSNum.fin b2 → B.patch = JSNum.fin b3 →
      (isNewerVersion A B = true ↔ toLex (b1, toLex (b2, b3)) < toLex (a1, toLex (a2, a3)))) ∧
    isNewerVersion A A = false ∧
    isNewerVersion (parseVersion "1.2.4") (parseVersion "1.2.3") = true ∧
    isNewerVersion (parseVersion "1.2.3") (parseVersion "1.2.4") = false := by
  refine ⟨isNewerVersion_iff_lexGt A B hA hB, ?_, isNewerVersion_self A, by decide, by decide⟩
  intro a1 a2 a3 b1 b2 b3 h1 h2 h3 h4 h5 h6
  rw [isNewerVersion_iff_lexGt A B hA hB]
  obtain ⟨_, _, _, sa⟩ := A
  obtain ⟨_, _, _, sb⟩ := B
  simp only at h1 h2 h3 h4 h5 h6
  subst h1 h2 h3 h4 h5 h6
  exact lexGt_fin_iff a1 a2 a3 b1 b2 b3 sa sb

/-- Witness of C8: the versions parsed from `1.2.4` and `1.2.3`. -/
theorem isNewerVersion_lexicographic_witness :
    (isNewerVersion (parseVersion "1.2.4") (parseVersion "1.2.3") = true ↔
      (parseVersion "1.2.4").lexGt (parseVersion "1.2.3")) ∧
    isNewerVersion (parseVersion "1.2.4") (parseVersion "1.2.4") = false :=
  have h := isNewerVersion_lexicographic (parseVersion "1.2.4") (parseVersion "1.2.3")
    (parseVersion_numeric "1.2.4") (parseVersion_numeric "1.2.3")
  ⟨h.1, h.2.2.1⟩

set_option exponentiation.threshold 3000 in
set_option maxRecDepth 100000 in
theorem parseVersion_out_of_range :
    parseVersion "1e400.1e-400.7"
      = ⟨JSNum.posInf, JSNum.fin 0, JSNum.fin 7, "1e400.1e-400.7"⟩ := by
  decide

set_option exponentiation.threshold 3000 in
set_option maxRecDepth 100000 in
theorem checkForUpdates_tiny_tag :
    (checkForUpdates
      { currentVersion := "0.2.1", isChecking := false, isDownloading := false,
        downloadProgress := JSNum.fin 0, hasMainWindow := true } true
      (Fetched.value (some tinyTagRelease))).result = none := by
  decide

/-- C9: `parseVersion` is a total function; the `string` field is the input
with one leading `v` removed (and the input itself when it does not start with
`v`); splitting that string on `.` gives components that contain no `.` and
rejoin to it; `major`, `minor` and `patch` are the numeric values of the first
three components, `0` standing for a missing or non-numeric component, and the
value of a component made of decimal digits being the double nearest to the
number they write, which is that number when it is below `2 ^ 53`; so `v1.2`
gives `1, 2, 0`, `1.2.3-beta` gives `1, 2, 0`, `9007199254740993.0x10` gives
`9007199254740992, 16, 0`, and `1e400.1e-400.7` gives `Infinity, 0, 7`. -/
theorem parseVersion_components (s : String) :
    (∀ rest, s.data = 'v' :: rest → (parseVersion s).string = ⟨rest⟩) ∧
    (s.data.head? ≠ some 'v' → (parseVersion s).string = s) ∧
    List.intercalate ['.'] ((split (parseVersion s).string '.').map String.data)
      = (parseVersion s).string.data ∧
    (∀ p ∈ split (parseVersion s).string '.', '.' ∉ p.data) ∧
    (parseVersion s).major = specComponentValue (split (parseVersion s).string '.')[0]? ∧
    (parseVersion s).minor = specComponentValue (split (parseVersion s).string '.')[1]? ∧
    (parseVersion s).patch = specComponentValue (split (parseVersion s).string '.')[2]? ∧
    (∀ c : String, c.data ≠ [] → (∀ ch ∈ c.data, isDecimalDigit ch = true) →
      specComponentValue (some c) = doubleOf (decimalValue c.data) 1 ∧
      (decimalValue c.data < 2 ^ 53 →
        specComponentValue (some c) = JSNum.fin (decimalValue c.data))) ∧
    parseVersion "v1.2" = ⟨JSNum.fin 1, JSNum.fin 2, JSNum.fin 0, "1.2"⟩ ∧
    parseVersion "vv1.2" = ⟨JSNum.fin 0, JSNum.fin 2, JSNum.fin 0, "v1.2"⟩ ∧
    parseVersion "1.2.3-beta" = ⟨JSNum.fin 1, JSNum.fin 2, JSNum.fin 0, "1.2.3-beta"⟩ ∧
    parseVersion "9007199254740993.0x10"
      = ⟨JSNum.fin 9007199254740992, JSNum.fin 16, JSNum.fin 0, "9007199254740993.0x10"⟩ ∧
    parseVersion "1e400.1e-400.7"
      = ⟨JSNum.posInf, JSNum.fin 0, JSNum.fin 7, "1e400.1e-400.7"⟩ := by
  refine ⟨?_, ?_, ?_, ?_, ?_, ?_, ?_, ?_, by decide, by decide, by decide, by decide,
    parseVersion_out_of_range⟩
  · intro rest h
    simp [parseVersion, stripLeadingV, h]
  · intro h
    simp only [parseVersion, stripLeadingV]
    split
    · rename_i rest heq
      rw [heq] at h
      simp at h
    · rfl
  · simp only [split, List.map_map]
    have : (String.data ∘ String.mk) = id := by funext x; rfl
    rw [this, List.map_id]
    exact splitChars_intercalate '.' _
  · intro p hp
    simp only [split, List.mem_map] at hp
    obtain ⟨q, hq, rfl⟩ := hp
    exact splitChars_no_sep '.' _ q hq
  · exact orZero_eq_specComponentValue _ 0
  · exact orZero_eq_specComponentValue _ 1
  · exact orZero_eq_specComponentValue _ 2
  · intro c hne hdig
    have hval : specComponentValue (some c) = doubleOf (decimalValue c.data) 1 := by
      simp only [specComponentValue, jsNumber_digits c hne hdig]
      rcases doubleOf_cases (decimalValue c.data) 1 with h | ⟨q, _, h⟩ <;> simp [h]
    exact ⟨hval, fun hlt => by rw [hval, doubleOf_nat _ hlt]⟩

/-- C10: for a call that starts while no check is running and whose request
returns a release with a tag and an asset list, `checkForUpdates` returns a
result with `available = true` exactly when the version parsed from the tag is
strictly greater than the one parsed from `currentVersion`; and on every path,
whatever the request returns, a result with `available = true` is only
returned when the remote version is strictly greater. The versions are
compared as the doubles that `Number` reads: the tag `9007199254740993.0.0` is
not newer than the current version `9007199254740992.0.0`, nor is the tag
`1e-400.0.0` newer than `0.2.1`. -/
theorem checkForUpdates_available_iff (st : ServiceState) (silent : Bool)
    (latestRelease : Release) (tag : String) (assets : List Asset)
    (hidle : st.isChecking = false) (htag : latestRelease.tag_name = some tag)
    (hassets : latestRelease.assets = some assets) :
    ((∃ info, (checkForUpdates st silent (Fetched.value (some latestRelease))).result
          = some info ∧ info.available = true) ↔
      (parseVersion tag).lexGt (parseVersion st.currentVersion)) ∧
    (∀ (st' : ServiceState) (silent' : Bool) (fetched : Fetched) (info : UpdateInfo),
      (checkForUpdates st' silent' fetched).result = some info →
      info.available = true ∧
      ∃ r t, fetched = Fetched.value (some r) ∧ r.tag_name = some t ∧ info.version = t ∧
        (parseVersion t).lexGt (parseVersion st'.currentVersion)) ∧
    (checkForUpdates
      { currentVersion := "9007199254740992.0.0", isChecking := false, isDownloading := false,
        downloadProgress := JSNum.fin 0, hasMainWindow := true } true
      (Fetched.value (some roundedTagRelease))).result = none ∧
    (checkForUpdates
      { currentVersion := "0.2.1", isChecking := false, isDownloading := false,
        downloadProgress := JSNum.fin 0, hasMainWindow := true } true
      (Fetched.value (some tinyTagRelease))).result = none := by
  refine ⟨?_, ?_, by decide, checkForUpdates_tiny_tag⟩
  · rw [← isNewerVersion_iff_lexGt _ _ (parseVersion_numeric tag)
      (parseVersion_numeric st.currentVersion)]
    unfold checkForUpdates
    simp only [hidle, htag, hassets]
    cases hn : isNewerVersion (parseVersion tag) (parseVersion st.currentVersion)
    · simp
    · simp
  · intro st' silent' fetched info h
    cases hc : st'.isChecking with
    | true => simp [checkForUpdates, hc] at h
    | false =>
      cases fetched with
      | threw msg => simp [checkForUpdates, hc] at h
      | value release =>
        cases release with
        | none => simp [checkForUpdates, hc] at h
        | some r =>
          cases ht : r.tag_name with
          | none => simp [checkForUpdates, hc, ht] at h
          | some t =>
            cases hnew : isNewerVersion (parseVersion t) (parseVersion st'.currentVersion) with
            | false => simp [checkForUpdates, hc, ht, hnew] at h
            | true =>
              cases ha : r.assets with
              | none => simp [checkForUpdates, hc, ht, hnew, ha] at h
              | some l =>
                simp only [checkForUpdates, hc, ht, hnew, ha, Bool.false_eq_true, if_false,
                  if_true, Option.some.injEq] at h
                subst h
                refine ⟨rfl, r, t, rfl, ht, rfl, ?_⟩
                exact (isNewerVersion_iff_lexGt _ _ (parseVersion_numeric t)
                  (parseVersion_numeric st'.currentVersion)).1 hnew

/-- Witness of C10: the service at version `0.2.1`, the latest release `v0.3.0`. -/
theorem checkForUpdates_available_iff_witness :
    (∃ info, (checkForUpdates
        { currentVersion := "0.2.1", isChecking := false, isDownloading := false,
          downloadProgress := JSNum.fin 0, hasMainWindow := true } true
        (Fetched.value (some sourceOnlyRelease))).result = some info ∧ info.available = true) ↔
      (parseVersion "v1.1.0").lexGt (parseVersion "0.2.1") :=
  (checkForUpdates_available_iff
    { currentVersion := "0.2.1", isChecking := false, isDownloading := false,
      downloadProgress := JSNum.fin 0, hasMainWindow := true } true sourceOnlyRelease "v1.1.0" []
    rfl rfl rfl).1

/-! ## Progress of a download -/

theorem JSNum.lt_trans {a b c : JSNum} (h1 : a.lt b = true) (h2 : b.lt c = true) :
    a.lt c = true := by
  cases a <;> cases b <;> cases c <;> simp_all [JSNum.lt]
  exact h1.trans h2

theorem progressValues_append (xs ys : List Message) :
    progressValues (xs ++ ys) = progressValues xs ++ progressValues ys := by
  induction xs with
  | nil => rfl
  | cons m rest ih => cases m <;> simp [progressValues, ih]

theorem progressValues_map (vs : List JSNum) :
    progressValues (vs.map Message.progress) = vs := by
  induction vs with
  | nil => rfl
  | cons v rest ih => simp [progressValues, ih]

theorem onData_of_gt (mainWindow : Bool) (fileSize : Nat) (st : DataState) (n : Nat)
    (h : (floorPercent (st.downloadedBytes + n) fileSize).gt st.lastProgress = true) :
    onData mainWindow fileSize st n =
      ({ downloadedBytes := st.downloadedBytes + n,
         lastProgress := floorPercent (st.downloadedBytes + n) fileSize },
        if mainWindow then [floorPercent (st.downloadedBytes + n) fileSize] else []) := by
  simp [onData, h]

theorem onData_of_not_gt (mainWindow : Bool) (fileSize : Nat) (st : DataState) (n : Nat)
    (h : (floorPercent (st.downloadedBytes + n) fileSize).gt st.lastProgress = false) :
    onData mainWindow fileSize st n =
      ({ downloadedBytes := st.downloadedBytes + n, lastProgress := st.lastProgress }, []) := by
  simp [onData, h]

theorem onData_last (mainWindow : Bool) (fileSize : Nat) (st : DataState) (n : Nat) :
    (onData mainWindow fileSize st n).1.lastProgress = st.lastProgress ∨
      st.lastProgress.lt (onData mainWindow fileSize st n).1.lastProgress = true := by
  cases h : (floorPercent (st.downloadedBytes + n) fileSize).gt st.lastProgress
  · left; rw [onData_of_not_gt _ _ _ _ h]
  · right; rw [onData_of_gt _ _ _ _ h]; exact h

theorem onData_sent (mainWindow : Bool) (fileSize : Nat) (st : DataState) (n : Nat) :
    ∀ v ∈ (onData mainWindow fileSize st n).2,
      v = (onData mainWindow fileSize st n).1.lastProgress ∧ st.lastProgress.lt v = true ∧
        v = floorPercent (st.downloadedBytes + n) fileSize := by
  intro v hv
  cases h : (floorPercent (st.downloadedBytes + n) fileSize).gt st.lastProgress
  · rw [onData_of_not_gt _ _ _ _ h] at hv; simp at hv
  · rw [onData_of_gt _ _ _ _ h] at hv ⊢
    cases mainWindow with
    | false => simp at hv
    | true =>
      simp only [if_true, List.mem_singleton] at hv
      subst hv
      exact ⟨rfl, h, rfl⟩

theorem onData_sent_length (mainWindow : Bool) (fileSize : Nat) (st : DataState) (n : Nat) :
    (onData mainWindow fileSize st n).2.length ≤ 1 := by
  cases h : (floorPercent (st.downloadedBytes + n) fileSize).gt st.lastProgress
  · rw [onData_of_not_gt _ _ _ _ h]; simp
  · rw [onData_of_gt _ _ _ _ h]; cases mainWindow <;> simp

theorem onData_bytes (mainWindow : Bool) (fileSize : Nat) (st : DataState) (n : Nat) :
    (onData mainWindow fileSize st n).1.downloadedBytes = st.downloadedBytes + n := by
  cases h : (floorPercent (st.downloadedBytes + n) fileSize).gt st.lastProgress
  · rw [onData_of_not_gt _ _ _ _ h]
  · rw [onData_of_gt _ _ _ _ h]

theorem dataProgress_above_last (mainWindow : Bool) (fileSize : Nat) (st : DataState)
    (chunks : List Nat) :
    ∀ v ∈ dataProgress mainWindow fileSize st chunks, st.lastProgress.lt v = true := by
  induction chunks generalizing st with
  | nil => simp [dataProgress]
  | cons n rest ih =>
    intro v hv
    simp only [dataProgress, List.mem_append] at hv
    rcases hv with hv | hv
    · exact (onData_sent mainWindow fileSize st n v hv).2.1
    · have h := ih _ v hv
      rcases onData_last mainWindow fileSize st n with hl | hl
      · rw [hl] at h; exact h
      · exact JSNum.lt_trans hl h

theorem dataProgress_increasing (mainWindow : Bool) (fileSize : Nat) (st : DataState)
    (chunks : List Nat) :
    List.Pairwise (fun a b => JSNum.lt a b = true) (dataProgress mainWindow fileSize st chunks) := by
  induction chunks generalizing st with
  | nil => simp [dataProgress]
  | cons n rest ih =>
    simp only [dataProgress]
    rw [List.pairwise_append]
    refine ⟨?_, ih _, ?_⟩
    · have hlen := onData_sent_length mainWindow fileSize st n
      match hl : (onData mainWindow fileSize st n).2 with
      | [] => simp
      | [x] => simp
      | x :: y :: zs => rw [hl] at hlen; simp at hlen
    · intro a ha b hb
      have h1 := (onData_sent mainWindow fileSize st n a ha).1
      have h2 := dataProgress_above_last mainWindow fileSize _ rest b hb
      rw [← h1] at h2
      exact h2

theorem floorPercent_le_hundred (a t : Nat) (ht : 0 < t) (hat : a ≤ t) :
    ∃ k : Nat, floorPercent a t = JSNum.fin k ∧ k ≤ 100 := by
  obtain ⟨y, hy, hv⟩ := percentOf_le_hundred a t ht hat
  refine ⟨y.floor, by simp [floorPercent, Nat.pos_iff_ne_zero.1 ht, hy], ?_⟩
  rw [Dyadic.floor_eq]
  exact Nat.floor_le_of_le (by simpa using hv)

theorem dataProgress_bounded (mainWindow : Bool) (fileSize : Nat) (hpos : 0 < fileSize)
    (st : DataState) (chunks : List Nat)
    (htotal : st.downloadedBytes + chunks.sum ≤ fileSize) :
    ∀ v ∈ dataProgress mainWindow fileSize st chunks, ∃ n : Nat, v = JSNum.fin n ∧ n ≤ 100 := by
  induction chunks generalizing st with
  | nil => simp [dataProgress]
  | cons n rest ih =>
    intro v hv
    simp only [List.sum_cons] at htotal
    simp only [dataProgress, List.mem_append] at hv
    rcases hv with hv | hv
    · have h := (onData_sent mainWindow fileSize st n v hv).2.2
      rw [h]
      exact floorPercent_le_hundred _ _ hpos (by omega)
    · exact ih _ (by rw [onData_bytes]; omega) v hv

/-- C11, as stated, fails. A ZIP of 10 bytes that arrives in two chunks sends
50 and 100 while it streams and 100 once more when extraction begins, so the
values are not strictly increasing; and a body of 20 bytes for a `fileSize`
of 10 sends 200. (The percentage is the one of doubles: 29 bytes of 100 are
reported as 28.) -/
theorem progress_repeats_at_extraction :
    progressValues (handleDownload sampleZip true noFiles
      { statusCode := 200, location := "", contentLength := some 10,
        body := { chunks := ["01234", "56789"], ending := StreamEnd.finish } }
      sampleDest 10 "C:/Pokemon Illusion" true).sent
      = [JSNum.fin 50, JSNum.fin 100, JSNum.fin 100] ∧
    JSNum.lt (JSNum.fin 100) (JSNum.fin 100) = false ∧
    progressValues (handleDownload sampleZip true noFiles
      { statusCode := 200, location := "", contentLength := some 20,
        body := { chunks := ["0123456789", "0123456789"], ending := StreamEnd.finish } }
      sampleDest 10 "C:/Pokemon Illusion" false).sent
      = [JSNum.fin 100, JSNum.fin 200] ∧
    floorPercent 29 100 = JSNum.fin 28 := by
  decide

/-- C11, amended: for every `fileSize` and every sequence of chunks, the values
sent on `download:progress` by the `data` handler are strictly increasing and
greater than 0, and they are whole numbers up to 100 when `fileSize` is
positive and the bytes delivered do not exceed it; all values sent during the
download are these, followed by one more 100 (whether or not 100 was sent
before) when the file is a ZIP, there is a window, and the transfer ends
without an error of the write stream: the stream finishes, or the response
stream fails, whose handler closes the file and so lets the `finish` handler
run (an aborted transfer of 4 bytes of 10 sends 40 and then 100). -/
theorem download_progress_values (zip : ZipTools) (mainWindow : Bool) (files : Files)
    (response : Response) (downloadPath : FilePath) (fileSize : Nat) (installDir : String)
    (isZipFile : Bool) :
    List.Pairwise (fun a b => JSNum.lt a b = true)
      (dataProgress mainWindow fileSize initialData (response.body.chunks.map String.length)) ∧
    (∀ v ∈ dataProgress mainWindow fileSize initialData (response.body.chunks.map String.length),
      JSNum.lt (JSNum.fin 0) v = true) ∧
    (0 < fileSize → (response.body.chunks.map String.length).sum ≤ fileSize →
      ∀ v ∈ dataProgress mainWindow fileSize initialData
          (response.body.chunks.map String.length),
        ∃ n : Nat, v = JSNum.fin n ∧ 1 ≤ n ∧ n ≤ 100) ∧
    progressValues (handleDownload zip mainWindow files response downloadPath fileSize
        installDir isZipFile).sent
      = dataProgress mainWindow fileSize initialData (response.body.chunks.map String.length) ++
          (match response.body.ending with
           | StreamEnd.fileError _ => []
           | _ => if isZipFile = true ∧ mainWindow = true then [JSNum.fin 100] else []) ∧
    progressValues (handleDownload sampleZip true noFiles
      { statusCode := 200, location := "", contentLength := some 10,
        body := { chunks := ["0123"], ending := StreamEnd.responseError "aborted" } }
      sampleDest 10 "C:/Pokemon Illusion" true).sent = [JSNum.fin 40, JSNum.fin 100] := by
  have habove := dataProgress_above_last mainWindow fileSize initialData
    (response.body.chunks.map String.length)
  refine ⟨dataProgress_increasing _ _ _ _, habove, ?_, ?_, by decide⟩
  · intro hpos htotal v hv
    obtain ⟨n, hn, hle⟩ := dataProgress_bounded mainWindow fileSize hpos initialData
      (response.body.chunks.map String.length) (by simpa [initialData] using htotal) v hv
    refine ⟨n, hn, ?_, hle⟩
    have h0 := habove v hv
    rw [hn] at h0
    simp only [initialData, JSNum.lt, decide_eq_true_eq] at h0
    have : (0 : ℚ) < (n : ℚ) := h0
    exact_mod_cast this
  · unfold handleDownload
    cases hend : response.body.ending with
    | fileError e => simp [progressValues_map]
    | responseError e =>
      cases isZipFile <;> cases mainWindow <;>
        simp [progressValues_append, progressValues_map, progressValues]
    | finish =>
      cases isZipFile with
      | false => simp [progressValues_map]
      | true =>
        cases mainWindow with
        | false =>
          simp only [if_true, Bool.false_eq_true, if_false, List.append_nil, and_false,
            and_true]
          split
          · simp [progressValues_map]
          · split <;> simp [progressValues_map]
        | true =>
          simp only [if_true, and_self]
          split
          · simp [progressValues_append, progressValues_map, progressValues]
          · split <;> simp [progressValues_append, progressValues_map, progressValues]

theorem reportedProgress_length (totalSize : Option Nat) (downloadedSize : Nat)
    (lengths : List Nat) :
    (reportedProgress totalSize downloadedSize lengths).length = lengths.length := by
  induction lengths generalizing downloadedSize with
  | nil => rfl
  | cons n rest ih => simp [reportedProgress, ih]

theorem reportedProgress_get (totalSize : Option Nat) (downloadedSize : Nat)
    (lengths : List Nat) (i : Nat) (hi : i < lengths.length) :
    (reportedProgress totalSize downloadedSize lengths)[i]? =
      some (roundPercent (downloadedSize + (lengths.take (i + 1)).sum) totalSize) := by
  induction lengths generalizing downloadedSize i with
  | nil => simp at hi
  | cons n rest ih =>
    cases i with
    | zero => simp [reportedProgress]
    | succ j =>
      simp only [reportedProgress, List.getElem?_cons_succ, List.take_succ_cons, List.sum_cons]
      rw [ih (downloadedSize + n) j (by simpa using hi), Nat.add_assoc]

theorem roundPercent_mono (t a b : Nat) (ht : 0 < t) (hab : a ≤ b) :
    (roundPercent b (some t)).lt (roundPercent a (some t)) = false := by
  have h0 : t ≠ 0 := Nat.pos_iff_ne_zero.1 ht
  have hmono := percentOf_mono a b t ht hab
  simp only [roundPercent, h0, if_false]
  cases hb : percentOf b t with
  | none => cases percentOf a t <;> rfl
  | some y =>
    rw [hb] at hmono
    cases ha : percentOf a t with
    | none => rw [ha] at hmono; exact absurd hmono (by simp [doubleLe])
    | some x =>
      rw [ha] at hmono
      simp only [doubleLe] at hmono
      have := Dyadic.round_mono hmono
      simp only [JSNum.lt, decide_eq_false_iff_not, not_lt, Nat.cast_le]
      exact this

theorem reportedProgress_mem (totalSize : Option Nat) (downloadedSize : Nat)
    (lengths : List Nat) :
    ∀ v ∈ reportedProgress totalSize downloadedSize lengths,
      ∃ a, downloadedSize ≤ a ∧ v = roundPercent a totalSize := by
  induction lengths generalizing downloadedSize with
  | nil => simp [reportedProgress]
  | cons n rest ih =>
    intro v hv
    simp only [reportedProgress, List.mem_cons] at hv
    rcases hv with rfl | hv
    · exact ⟨downloadedSize + n, by omega, rfl⟩
    · obtain ⟨a, ha, hva⟩ := ih (downloadedSize + n) v hv
      exact ⟨a, by omega, hva⟩

theorem reportedProgress_nondecreasing (t : Nat) (ht : 0 < t) (downloadedSize : Nat)
    (lengths : List Nat) :
    (∀ v ∈ reportedProgress (some t) downloadedSize lengths,
      v.lt (roundPercent downloadedSize (some t)) = false) ∧
    List.Pairwise (fun a b => JSNum.lt b a = false)
      (reportedProgress (some t) downloadedSize lengths) := by
  constructor
  · intro v hv
    obtain ⟨a, ha, rfl⟩ := reportedProgress_mem (some t) downloadedSize lengths v hv
    exact roundPercent_mono t _ _ ht ha
  · induction lengths generalizing downloadedSize with
    | nil => simp [reportedProgress]
    | cons n rest ih =>
      simp only [reportedProgress, List.pairwise_cons]
      refine ⟨fun v hv => ?_, ih (downloadedSize + n)⟩
      obtain ⟨a, ha, rfl⟩ := reportedProgress_mem (some t) (downloadedSize + n) rest v hv
      exact roundPercent_mono t _ _ ht ha

/-- C12, as stated, fails. Of a download of 1000 bytes the first three chunks
of one byte each are all reported as 0, so the same percentage is passed to
`onProgress` three times; and the value is rounded, not floored: one byte of
200 is reported as 1. -/
theorem onProgress_repeats_value :
    (downloadFile sampleNet true 1 sampleDisk "https://example.org/slow"
      ["tmp", "update.zip"]).reported = [JSNum.fin 0, JSNum.fin 0, JSNum.fin 0] ∧
    roundPercent 1 (some 200) = JSNum.fin 1 ∧
    floorPercent 1 200 = JSNum.fin 0 := by
  decide

/-- C12, amended: `downloadFile` computes progress as
`Math.round((downloadedSize / totalSize) * 100)`, in doubles (23 bytes of 40 give
57), and calls `onProgress` once for every chunk, without comparing with the
value reported before; for a positive `totalSize` the values never decrease,
and a value is passed again whenever a chunk leaves the rounded percentage
unchanged. -/
theorem downloadFile_reports_every_chunk (net : Network) (fuel : Nat) (fs opened : Node)
    (url : String) (dest : Path) (response : Response)
    (hopen : fs.set dest (Node.file "") = some opened)
    (hnet : net url = Reply.answered response) (hstatus : response.statusCode = 200) :
    (downloadFile net true (fuel + 1) fs url dest).reported.length
      = response.body.chunks.length ∧
    (∀ i, i < response.body.chunks.length →
      (downloadFile net true (fuel + 1) fs url dest).reported[i]? =
        some (roundPercent (((response.body.chunks.map String.length).take (i + 1)).sum)
          response.contentLength)) ∧
    (∀ t, 0 < t → response.contentLength = some t →
      List.Pairwise (fun a b => JSNum.lt b a = false)
        (downloadFile net true (fuel + 1) fs url dest).reported) ∧
    roundPercent 23 (some 40) = JSNum.fin 57 := by
  have hrep : (downloadFile net true (fuel + 1) fs url dest).reported =
      reportedProgress response.contentLength 0 (response.body.chunks.map String.length) := by
    simp only [downloadFile, hopen, hnet, hstatus, isRedirect]
    cases response.body.ending <;> simp
  rw [hrep]
  refine ⟨by simp [reportedProgress_length], ?_, ?_, by decide⟩
  · intro i hi
    rw [reportedProgress_get _ _ _ i (by simpa using hi), Nat.zero_add]
  · intro t ht hcl
    rw [hcl]
    exact (reportedProgress_nondecreasing t ht 0 _).2

/-- Witness of C12: the archive of the sample server, which arrives in two chunks. -/
theorem downloadFile_reports_every_chunk_witness :
    (downloadFile sampleNet true 1 sampleDisk "https://example.org/Game.zip"
        ["tmp", "update.zip"]).reported.length = 2 ∧
    (downloadFile sampleNet true 1 sampleDisk "https://example.org/Game.zip"
        ["tmp", "update.zip"]).reported[1]? = some (JSNum.fin 100) :=
  have h := downloadFile_reports_every_chunk sampleNet 0 sampleDisk _
    "https://example.org/Game.zip" ["tmp", "update.zip"]
    { statusCode := 200, location := "", contentLength := some 10,
      body := { chunks := ["01234", "56789"], ending := StreamEnd.finish } }
    rfl (by decide) rfl
  ⟨h.1, (h.2.1 1 (by decide)).trans (by decide)⟩

/-! ## Stream errors, redirects and the entry file -/

/-- C13: evaluation at the failing inputs. `handleDownload` does what the claim
says: for every error of the response stream or of the write stream the
promise rejects and the destination file is gone. The fallback block does
not: when its write stream fails after four bytes the block throws `ENOSPC`
and the four bytes stay in the destination file, and when the response stream
fails nothing listens, the promise never settles and the file stays. In
`downloadFile` an error of the write stream removes the file, an error of the
response stream leaves the promise unsettled and the file in place. -/
theorem stream_error_cleanup :
    (∀ (zip : ZipTools) (mainWindow : Bool) (files : Files) (response : Response)
        (downloadPath : FilePath) (fileSize : Nat) (installDir : String) (isZipFile : Bool)
        (message : String),
        (response.body.ending = StreamEnd.fileError message ∨
          response.body.ending = StreamEnd.responseError message) →
        (handleDownload zip mainWindow files response downloadPath fileSize installDir
            isZipFile).result = HandlerResult.rejected message ∧
        (handleDownload zip mainWindow files response downloadPath fileSize installDir
            isZipFile).files downloadPath = none) ∧
    (fallbackDownload sampleNet sampleZip noFiles "https://example.org/disk-full"
        sampleFallbackDest "C:/Pokemon Illusion").outcome
      = some (FallbackOutcome.threw "ENOSPC") ∧
    (fallbackDownload sampleNet sampleZip noFiles "https://example.org/disk-full"
        sampleFallbackDest "C:/Pokemon Illusion").files sampleFallbackDest = some "0123" ∧
    (fallbackDownload sampleNet sampleZip noFiles "https://example.org/aborted"
        sampleFallbackDest "C:/Pokemon Illusion").outcome = none ∧
    (fallbackDownload sampleNet sampleZip noFiles "https://example.org/aborted"
        sampleFallbackDest "C:/Pokemon Illusion").files sampleFallbackDest = some "0123" ∧
    (downloadFile sampleNet true 1 sampleDisk "https://example.org/disk-full"
        ["tmp", "update.zip"]).outcome = some (Except.error "ENOSPC") ∧
    (downloadFile sampleNet true 1 sampleDisk "https://example.org/disk-full"
        ["tmp", "update.zip"]).fs.get? ["tmp", "update.zip"] = none ∧
    (downloadFile sampleNet true 1 sampleDisk "https://example.org/aborted"
        ["tmp", "update.zip"]).outcome = none ∧
    (downloadFile sampleNet true 1 sampleDisk "https://example.org/aborted"
        ["tmp", "update.zip"]).fs.get? ["tmp", "update.zip"] = some (Node.file "0123") := by
  refine ⟨?_, by decide, by decide, by decide, by decide, rfl, rfl, rfl, rfl⟩
  intro zip mainWindow files response downloadPath fileSize installDir isZipFile message h
  unfold handleDownload
  rcases h with h | h <;> simp [h, Files.unlink]

/-- C14, as stated, fails. The sample server answers `hop1` with a 302 to
`hop2` and `hop2` with another 302 (body `moved`) to the archive. The asset
request writes the body of that second 302 to the destination and resolves
with `success = true`; the fallback request writes it as well and only fails
when the text is read as an archive; `downloadFile` follows the second
redirect too and stores the archive. -/
theorem second_redirect_not_refused :
    (assetDownload sampleNet sampleZip true noFiles "https://example.org/hop1" sampleDest 10
        "C:/Pokemon Illusion" false).result
      = HandlerResult.resolved
          { success := true, message := "Download erfolgreich abgeschlossen!"
            path := some sampleDest, extracted := some false } ∧
    (assetDownload sampleNet sampleZip true noFiles "https://example.org/hop1" sampleDest 10
        "C:/Pokemon Illusion" false).files sampleDest = some "moved" ∧
    (fallbackDownload sampleNet sampleZip noFiles "https://example.org/hop1"
        sampleFallbackDest "C:/Pokemon Illusion").files sampleFallbackDest = some "moved" ∧
    (fallbackDownload sampleNet sampleZip noFiles "https://example.org/hop1"
        sampleFallbackDest "C:/Pokemon Illusion").outcome
      = some (FallbackOutcome.threw "Invalid or unsupported zip format. No END header found") ∧
    (downloadFile sampleNet true 3 sampleDisk "https://example.org/hop1"
        ["tmp", "update.zip"]).outcome = some (Except.ok ()) ∧
    (downloadFile sampleNet true 3 sampleDisk "https://example.org/hop1"
        ["tmp", "update.zip"]).fs.get? ["tmp", "update.zip"]
      = some (Node.file "0123456789") := by
  refine ⟨by decide, by decide, by decide, by decide, rfl, rfl⟩

/-- C14, amended: the asset request and the fallback request of `game:download`
follow exactly one redirect: the response to the redirected request is
streamed to the destination whatever its status, also when it is a 301 or 302
itself, and this is no failure of its own; `downloadFile` follows every 301
or 302 it receives, a second one in a row like the first. -/
theorem redirect_following (net : Network) (zip : ZipTools) (mainWindow hasOnProgress : Bool)
    (files : Files) (fs opened : Node) (url : String) (downloadPath : FilePath) (dest : Path)
    (fileSize : Nat) (installDir : String) (isZipFile : Bool) (fuel : Nat)
    (first second : Response)
    (hfirst : net url = Reply.answered first) (hredirect : isRedirect first.statusCode = true)
    (hsecond : net first.location = Reply.answered second)
    (hopen : fs.set dest (Node.file "") = some opened) :
    assetDownload net zip mainWindow files url downloadPath fileSize installDir isZipFile
      = handleDownload zip mainWindow files second downloadPath fileSize installDir isZipFile ∧
    fallbackDownload net zip files url downloadPath installDir
      = fallbackSave zip files downloadPath installDir second.body ∧
    downloadFile net hasOnProgress (fuel + 1) fs url dest
      = downloadFile net hasOnProgress fuel (opened.remove dest) first.location dest ∧
    (isRedirect second.statusCode = true →
      ∀ reopened, (opened.remove dest).set dest (Node.file "") = some reopened →
        downloadFile net hasOnProgress (fuel + 2) fs url dest
          = downloadFile net hasOnProgress fuel (reopened.remove dest) second.location dest) := by
  refine ⟨?_, ?_, ?_, ?_⟩
  · simp [assetDownload, hfirst, hredirect, hsecond]
  · simp [fallbackDownload, hfirst, hredirect, hsecond]
  · simp [downloadFile, hfirst, hredirect, hopen]
  · intro hagain reopened hreopen
    have step1 : downloadFile net hasOnProgress (fuel + 2) fs url dest
        = downloadFile net hasOnProgress (fuel + 1) (opened.remove dest) first.location dest := by
      simp [downloadFile, hfirst, hredirect, hopen]
    rw [step1]
    simp [downloadFile, hsecond, hagain, hreopen]

/-- Witness of C14: the two redirects of the sample server. -/
theorem redirect_following_witness :
    assetDownload sampleNet sampleZip true noFiles "https://example.org/hop1" sampleDest 10
        "C:/Pokemon Illusion" false
      = handleDownload sampleZip true noFiles
          { statusCode := 302, location := "https://example.org/Game.zip",
            contentLength := some 5, body := { chunks := ["moved"], ending := StreamEnd.finish } }
          sampleDest 10 "C:/Pokemon Illusion" false :=
  (redirect_following sampleNet sampleZip true true noFiles sampleDisk _
    "https://example.org/hop1" sampleDest ["tmp", "update.zip"] 10 "C:/Pokemon Illusion" false 1
    { statusCode := 302, location := "https://example.org/hop2", contentLength := none,
      body := { chunks := [], ending := StreamEnd.finish } }
    { statusCode := 302, location := "https://example.org/Game.zip", contentLength := some 5,
      body := { chunks := ["moved"], ending := StreamEnd.finish } }
    (by decide) (by decide) (by decide) rfl).1

/-- C15, as stated, fails. The archive of the sample server holds
`Illusion-1.1.0/Game.exe` and nothing named `Game.exe`: after the extraction
there is no `Game.exe` in the install directory, yet `handleDownload` resolves
with `success = true`; the fallback block finds no `Game.exe` either and the
handler still answers `success = true`. -/
theorem missing_entry_file_reported_as_success :
    (handleDownload sampleZip true noFiles
        { statusCode := 200, location := "", contentLength := some 10,
          body := { chunks := ["01234", "56789"], ending := StreamEnd.finish } }
        sampleDest 10 "C:/Pokemon Illusion" true).result
      = HandlerResult.resolved
          { success := true, message := "Download und Extraktion erfolgreich abgeschlossen!"
            path := some { dir := "C:/Pokemon Illusion", name := "Game.exe" }
            extracted := some true } ∧
    (handleDownload sampleZip true noFiles
        { statusCode := 200, location := "", contentLength := some 10,
          body := { chunks := ["01234", "56789"], ending := StreamEnd.finish } }
        sampleDest 10 "C:/Pokemon Illusion" true).files
        { dir := "C:/Pokemon Illusion", name := "Game.exe" } = none ∧
    (fallbackDownload sampleNet sampleZip noFiles "https://example.org/Game.zip"
        sampleFallbackDest "C:/Pokemon Illusion").outcome
      = some (sampleEnv.fallback "https://example.org/Game.zip" sampleFallbackDest) ∧
    sampleEnv.fallback "https://example.org/Game.zip" sampleFallbackDest
      = FallbackOutcome.completed false ∧
    (gameDownload sampleEnv none "C:/Pokemon Illusion"
        { ok := true, status := 200, statusText := "OK", rateLimitReset := none,
          json := { zipRelease with assets := some [] } })
      = (HandlerResult.resolved
          { success := true, message := "Fallback zip downloaded and extracted"
            path := some { dir := "C:/Pokemon Illusion", name := "Game.exe" }
            extracted := some true },
         [Effect.fallbackDownload "https://example.org/Game.zip" sampleFallbackDest]) := by
  refine ⟨by decide, by decide, by decide, rfl, by decide⟩

/-- C15, amended: after the extraction of an archive in `game:download` the
existence of `Game.exe` is looked up (and logged) but does not enter the
result: `handleDownload` resolves with `success = true` and the path of
`Game.exe` whenever the archive could be read, and so does the fallback
branch, whether the look-up finds the file or not. -/
theorem entry_file_only_logged (zip : ZipTools) (mainWindow : Bool) (files : Files)
    (response : Response) (downloadPath : FilePath) (fileSize : Nat) (installDir : String)
    (zipEntries : List (String × String))
    (hfinish : response.body.ending = StreamEnd.finish) (havailable : zip.available = true)
    (hentries : zip.entries (String.join response.body.chunks) = Except.ok zipEntries) :
    (handleDownload zip mainWindow files response downloadPath fileSize installDir true).result
      = HandlerResult.resolved
          { success := true, message := "Download und Extraktion erfolgreich abgeschlossen!"
            path := some { dir := installDir, name := "Game.exe" }
            extracted := some true } ∧
    (∃ gameExists,
      (fallbackSave zip files downloadPath installDir response.body).outcome
        = some (FallbackOutcome.completed gameExists) ∧
      gameExists = ((fallbackSave zip files downloadPath installDir response.body).files
        { dir := installDir, name := "Game.exe" }).isSome) ∧
    (∀ (env : DownloadEnv) (owner : String) (repo : Option String) (release : Release)
        (url : String) (gameExists : Bool),
        fallbackUrl release = some url → truthy (some url) = true →
        env.fallback url { dir := installDir, name := fallbackName repo release }
          = FallbackOutcome.completed gameExists →
        (noAssetBranch env owner repo installDir release).1
          = HandlerResult.resolved
              { success := true, message := "Fallback zip downloaded and extracted"
                path := some { dir := installDir, name := "Game.exe" }
                extracted := some true }) := by
  refine ⟨?_, ?_, ?_⟩
  · simp [handleDownload, hfinish, havailable, hentries]
  · refine ⟨_, ?_, rfl⟩
    simp [fallbackSave, fallbackExtract, hfinish, havailable, hentries]
  · intro env owner repo release url gameExists hurl htruthy hfallback
    simp [noAssetBranch, hurl, htruthy, hfallback]

/-- Witness of C15: the archive of the sample server. -/
theorem entry_file_only_logged_witness :
    (handleDownload sampleZip true noFiles
        { statusCode := 200, location := "", contentLength := some 10,
          body := { chunks := ["01234", "56789"], ending := StreamEnd.finish } }
        sampleDest 10 "C:/Pokemon Illusion" true).result
      = HandlerResult.resolved
          { success := true, message := "Download und Extraktion erfolgreich abgeschlossen!"
            path := some { dir := "C:/Pokemon Illusion", name := "Game.exe" }
            extracted := some true } :=
  (entry_file_only_logged sampleZip true noFiles
    { statusCode := 200, location := "", contentLength := some 10,
      body := { chunks := ["01234", "56789"], ending := StreamEnd.finish } }
    sampleDest 10 "C:/Pokemon Illusion" [("Illusion-1.1.0/Game.exe", "new")] rfl rfl
    rfl).1

/-! ## The version marker -/

theorem extractAllTo_other (files : Files) (dir : String) (es : List (String × String))
    (p : FilePath) (h : ∀ e ∈ es, ({ dir := dir, name := e.1 } : FilePath) ≠ p) :
    extractAllTo files dir es p = files p := by
  induction es generalizing files with
  | nil => rfl
  | cons e rest ih =>
    obtain ⟨name, data⟩ := e
    simp only [extractAllTo]
    rw [ih _ (fun e he => h e (List.mem_cons_of_mem _ he))]
    have hne : p ≠ { dir := dir, name := name } := fun hp => h (name, data) (by simp) hp.symm
    simp [Files.write, Function.update_noteq hne]

theorem extractAllTo_last (files : Files) (dir : String) (before after : List (String × String))
    (name data : String) (h : ∀ e ∈ after, e.1 ≠ name) :
    extractAllTo files dir (before ++ (name, data) :: after) { dir := dir, name := name }
      = some data := by
  induction before generalizing files with
  | nil =>
    simp only [List.nil_append, extractAllTo]
    rw [extractAllTo_other]
    · simp [Files.write]
    · intro e he hp
      exact h e he (by simpa using hp)
  | cons e rest ih =>
    obtain ⟨n, d⟩ := e
    simp only [List.cons_append, extractAllTo]
    exact ih _

/-- C16, as stated, fails. For the release tagged `v1.1.0` the handler
`game:download` resolves with `success = true` and `downloadUpdate` returns,
and afterwards the install directory has no `VERSION.txt` at all: the archive
holds only `Illusion-1.1.0/Game.exe` and nothing else writes the marker. -/
theorem marker_not_written :
    zipRelease.tag_name = some "v1.1.0" ∧
    (gameDownload sampleEnv none "C:/Pokemon Illusion"
        { ok := true, status := 200, statusText := "OK", rateLimitReset := none,
          json := zipRelease }).1
      = HandlerResult.resolved
          { success := true, message := "Download und Extraktion erfolgreich abgeschlossen!"
            path := some { dir := "C:/Pokemon Illusion", name := "Game.exe" }
            extracted := some true } ∧
    (assetDownload sampleNet sampleZip true noFiles "https://example.org/Game.zip" sampleDest 10
        "C:/Pokemon Illusion" true).files
        { dir := "C:/Pokemon Illusion", name := "VERSION.txt" } = none ∧
    sampleUpdate.version = "v1.1.0" ∧
    (downloadUpdate sampleNet sampleZip (fun _ => none) 5 17 ["tmp"] idleService sampleDisk
        sampleUpdate ["games", "Illusion"]).outcome = some (Except.ok ()) ∧
    (downloadUpdate sampleNet sampleZip (fun _ => none) 5 17 ["tmp"] idleService sampleDisk
        sampleUpdate ["games", "Illusion"]).fs.get? ["games", "Illusion", "VERSION.txt"]
      = none := by
  refine ⟨rfl, by decide, by decide, rfl, rfl, rfl⟩

/-- C16, amended: the launcher never writes `VERSION.txt` from the release tag.
In `game:download` the marker keeps what it held before when the asset is no
ZIP, when the stream does not finish, or when the archive has no entry of
that name; when an archive with such entries is extracted it holds the data of
the last one; this is so for `handleDownload` and for the fallback block. In
`downloadUpdate` the outcome and the file system afterwards are the same
whatever tag the update carries. -/
theorem marker_comes_from_archive (zip : ZipTools) (mainWindow : Bool) (files : Files)
    (response : Response) (downloadPath : FilePath) (fileSize : Nat) (installDir : String)
    (isZipFile : Bool)
    (hdest : downloadPath ≠ { dir := installDir, name := "VERSION.txt" }) :
    ((∀ es, zip.entries (String.join response.body.chunks) = Except.ok es →
        ∀ e ∈ es, e.1 ≠ "VERSION.txt") →
      (handleDownload zip mainWindow files response downloadPath fileSize installDir
          isZipFile).files { dir := installDir, name := "VERSION.txt" }
        = files { dir := installDir, name := "VERSION.txt" } ∧
      (fallbackSave zip files downloadPath installDir response.body).files
          { dir := installDir, name := "VERSION.txt" }
        = files { dir := installDir, name := "VERSION.txt" }) ∧
    (isZipFile = false ∨ response.body.ending ≠ StreamEnd.finish →
      (handleDownload zip mainWindow files response downloadPath fileSize installDir
          isZipFile).files { dir := installDir, name := "VERSION.txt" }
        = files { dir := installDir, name := "VERSION.txt" }) ∧
    (∀ before after data, response.body.ending = StreamEnd.finish → zip.available = true →
      zip.entries (String.join response.body.chunks)
        = Except.ok (before ++ ("VERSION.txt", data) :: after) →
      (∀ e ∈ after, e.1 ≠ "VERSION.txt") →
      (handleDownload zip mainWindow files response downloadPath fileSize installDir
          true).files { dir := installDir, name := "VERSION.txt" } = some data ∧
      (fallbackSave zip files downloadPath installDir response.body).files
          { dir := installDir, name := "VERSION.txt" } = some data) ∧
    (∀ (net : Network) (faults : Faults) (fuel now : Nat) (tempRoot : Path) (st : ServiceState)
        (fs : Node) (updateInfo : UpdateInfo) (installPath : Path) (tag : String),
      (downloadUpdate net zip faults fuel now tempRoot st fs
          { updateInfo with version := tag } installPath).fs
        = (downloadUpdate net zip faults fuel now tempRoot st fs updateInfo installPath).fs ∧
      (downloadUpdate net zip faults fuel now tempRoot st fs
          { updateInfo with version := tag } installPath).outcome
        = (downloadUpdate net zip faults fuel now tempRoot st fs updateInfo
            installPath).outcome) := by
  have hne : ({ dir := installDir, name := "VERSION.txt" } : FilePath) ≠ downloadPath :=
    fun h => hdest h.symm
  have hkeep : ∀ es : List (String × String), (∀ e ∈ es, e.1 ≠ "VERSION.txt") →
      ∀ base : Files, extractAllTo base installDir es { dir := installDir, name := "VERSION.txt" }
        = base { dir := installDir, name := "VERSION.txt" } := by
    intro es hes base
    apply extractAllTo_other
    intro e he hp
    exact hes e he (by simpa using hp)
  refine ⟨?_, ?_, ?_, ?_⟩
  · intro hnone
    constructor
    · unfold handleDownload
      cases response.body.ending with
      | fileError e => simp [Files.unlink, Files.write, Function.update_noteq hne]
      | responseError e => simp [Files.unlink, Files.write, Function.update_noteq hne]
      | finish =>
        cases isZipFile with
        | false => simp [Files.write, Function.update_noteq hne]
        | true =>
          simp only [if_true]
          cases zip.available with
          | false => simp [Files.write, Function.update_noteq hne]
          | true =>
            simp only [Bool.not_true, Bool.false_eq_true, if_false]
            cases hz : zip.entries (String.join response.body.chunks) with
            | error e => simp [Files.write, Function.update_noteq hne]
            | ok es =>
              simp only [Files.unlink, Function.update_noteq hne]
              rw [hkeep es (hnone es hz)]
              simp [Files.write, Function.update_noteq hne]
    · unfold fallbackSave
      cases response.body.ending with
      | fileError e => simp [Files.write, Function.update_noteq hne]
      | responseError e => simp [Files.write, Function.update_noteq hne]
      | finish =>
        simp only [fallbackExtract]
        cases zip.available with
        | false => simp [Files.write, Function.update_noteq hne]
        | true =>
          simp only [Bool.not_true, Bool.false_eq_true, if_false]
          cases hz : zip.entries (String.join response.body.chunks) with
          | error e => simp [Files.write, Function.update_noteq hne]
          | ok es =>
            simp only [Files.unlink, Function.update_noteq hne]
            rw [hkeep es (hnone es hz)]
            simp [Files.write, Function.update_noteq hne]
  · intro hcase
    unfold handleDownload
    rcases hcase with hzip | hend
    · subst hzip
      cases response.body.ending <;>
        simp [Files.unlink, Files.write, Function.update_noteq hne]
    · cases hending : response.body.ending with
      | finish => exact absurd hending hend
      | fileError e => simp [Files.unlink, Files.write, Function.update_noteq hne]
      | responseError e => simp [Files.unlink, Files.write, Function.update_noteq hne]
  · intro before after data hfinish havailable hentries hafter
    constructor
    · simp only [handleDownload, hfinish, havailable, hentries, if_true, Bool.not_true,
        Bool.false_eq_true, if_false, Files.unlink, Function.update_noteq hne]
      exact extractAllTo_last _ installDir before after "VERSION.txt" data hafter
    · simp only [fallbackSave, fallbackExtract, hfinish, havailable, hentries, Bool.not_true,
        Bool.false_eq_true, if_false, Files.unlink, Function.update_noteq hne]
      exact extractAllTo_last _ installDir before after "VERSION.txt" data hafter
  · intro net faults fuel now tempRoot st fs updateInfo installPath tag
    unfold downloadUpdate
    simp only []
    split
    · exact ⟨rfl, rfl⟩
    · split
      · exact ⟨rfl, rfl⟩
      · split
        · exact ⟨rfl, rfl⟩
        · split
          · exact ⟨rfl, rfl⟩
          · exact ⟨rfl, rfl⟩
          · split
            · exact ⟨rfl, rfl⟩
            · split
              · exact ⟨rfl, rfl⟩
              · split
                · exact ⟨rfl, rfl⟩
                · split
                  · exact ⟨rfl, rfl⟩
                  · exact ⟨rfl, rfl⟩

/-- Witness of C16: an archive that ships `VERSION.txt` with the text `1.1.0`. -/
theorem marker_comes_from_archive_witness :
    (handleDownload markedZip true noFiles
        { statusCode := 200, location := "", contentLength := some 10,
          body := { chunks := ["01234", "56789"], ending := StreamEnd.finish } }
        sampleDest 10 "C:/Pokemon Illusion" true).files
        { dir := "C:/Pokemon Illusion", name := "VERSION.txt" } = some "1.1.0" :=
  ((marker_comes_from_archive markedZip true noFiles
    { statusCode := 200, location := "", contentLength := some 10,
      body := { chunks := ["01234", "56789"], ending := StreamEnd.finish } }
    sampleDest 10 "C:/Pokemon Illusion" true (by decide)).2.2.1
    [("Game.exe", "new")] [] "1.1.0" rfl rfl rfl (by simp)).1

/-! ## A successful installation -/

theorem getEntry_eraseEntry_same {α : Type} (es : List (String × α)) (a : String) :
    getEntry (eraseEntry es a) a = none := by
  induction es with
  | nil => rfl
  | cons e rest ih =>
    obtain ⟨k, w⟩ := e
    by_cases hk : k = a
    · simp [eraseEntry, hk, ih]
    · simp [eraseEntry, getEntry, hk, ih]

theorem getEntry_eraseEntry_ne {α : Type} (es : List (String × α)) (a b : String)
    (h : a ≠ b) : getEntry (eraseEntry es a) b = getEntry es b := by
  induction es with
  | nil => rfl
  | cons e rest ih =>
    obtain ⟨k, w⟩ := e
    by_cases hk : k = a
    · subst hk
      simp [eraseEntry, getEntry, h, ih]
    · by_cases hb : k = b
      · subst hb; simp [eraseEntry, getEntry, hk]
      · simp [eraseEntry, getEntry, hk, hb, ih]

theorem Node.remove_dir_cons (es : List (String × Node)) (c : String) (t : Path)
    (ht : t ≠ []) :
    (Node.dir es).remove (c :: t) =
      match getEntry es c with
      | some k => Node.dir (setEntry es c (k.remove t))
      | none => Node.dir es := by
  cases t with
  | nil => exact absurd rfl ht
  | cons d rest => simp [Node.remove]

theorem Node.remove_get_same (root : Node) (p : Path) (hp : p ≠ []) :
    (root.remove p).get? p = none := by
  induction p generalizing root with
  | nil => exact absurd rfl hp
  | cons c t ih =>
    cases root with
    | file content => simp [Node.remove, Node.get?]
    | dir es =>
      cases t with
      | nil => simp [Node.remove, Node.get?, getEntry_eraseEntry_same]
      | cons d rest =>
        rw [Node.remove_dir_cons es c (d :: rest) (by simp)]
        cases hk : getEntry es c with
        | none => simp [Node.get?, hk]
        | some k =>
          simp only []
          rw [Node.get?_dir_cons, getEntry_setEntry_same]
          exact ih k (by simp)

theorem Node.remove_get_diverge (pre : Path) (a b : String) (r1 r2 : Path) (hab : a ≠ b)
    (root : Node) :
    (root.remove (pre ++ a :: r1)).get? (pre ++ b :: r2) = root.get? (pre ++ b :: r2) := by
  induction pre generalizing root with
  | nil =>
    cases root with
    | file content => simp [Node.remove]
    | dir es =>
      simp only [List.nil_append]
      cases r1 with
      | nil =>
        simp only [Node.remove]
        rw [Node.get?_dir_cons, Node.get?_dir_cons, getEntry_eraseEntry_ne _ _ _ hab]
      | cons d rest =>
        rw [Node.remove_dir_cons es a (d :: rest) (by simp)]
        cases hk : getEntry es a with
        | none => rfl
        | some k =>
          simp only []
          rw [Node.get?_dir_cons, Node.get?_dir_cons, getEntry_setEntry_ne _ _ _ _ hab]
  | cons c pre' ih =>
    cases root with
    | file content => simp [Node.remove]
    | dir es =>
      simp only [List.cons_append]
      rw [Node.remove_dir_cons es c (pre' ++ a :: r1) (by simp)]
      cases hk : getEntry es c with
      | none => rfl
      | some k =>
        simp only []
        rw [Node.get?_dir_cons, Node.get?_dir_cons, getEntry_setEntry_same, hk]
        exact ih k

theorem mkdirRecursive_get_self (root root' : Node) (p : Path)
    (h : mkdirRecursive root p = Except.ok root') :
    ∃ es, root'.get? p = some (Node.dir es) := by
  induction p generalizing root root' with
  | nil =>
    cases root with
    | file content => simp [mkdirRecursive] at h
    | dir es =>
      simp only [mkdirRecursive, Except.ok.injEq] at h
      subst h
      exact ⟨es, rfl⟩
  | cons c t ih =>
    cases root with
    | file content => simp [mkdirRecursive] at h
    | dir es =>
      simp only [mkdirRecursive] at h
      cases hk : getEntry es c with
      | none =>
        simp only [hk] at h
        cases hm : mkdirRecursive (Node.dir []) t with
        | error e => simp [hm] at h
        | ok k' =>
          simp only [hm, Except.ok.injEq] at h
          subst h
          rw [Node.get?_dir_cons, getEntry_setEntry_same]
          exact ih _ _ hm
      | some k =>
        simp only [hk] at h
        cases hm : mkdirRecursive k t with
        | error e => simp [hm] at h
        | ok k' =>
          simp only [hm, Except.ok.injEq] at h
          subst h
          rw [Node.get?_dir_cons, getEntry_setEntry_same]
          exact ih _ _ hm

theorem Node.get?_parent_dir (root : Node) (p : Path) (c : String) (q : Path) (n : Node)
    (h : root.get? (p ++ c :: q) = some n) : ∃ es, root.get? p = some (Node.dir es) := by
  induction p generalizing root with
  | nil =>
    cases root with
    | file content => simp [Node.get?] at h
    | dir es => exact ⟨es, rfl⟩
  | cons d t ih =>
    cases root with
    | file content => simp [Node.get?] at h
    | dir es =>
      simp only [List.cons_append] at h
      rw [Node.get?_dir_cons] at h ⊢
      cases hk : getEntry es d with
      | none => simp [hk] at h
      | some k =>
        simp only [hk] at h ⊢
        exact ih k h

theorem copyEntries_dest_dir (copy : Node → Path → Path → Outcome) (src dest : Path)
    (hcopy : ∀ (fs : Node) (s d : Path), (copy fs s d).error = none →
      ((copy fs s d).fs.get? d).isSome = true)
    (entries : List String) (fs : Node) (hdir : ∃ es, fs.get? dest = some (Node.dir es))
    (hok : (copyEntries copy src dest entries fs).error = none) :
    ∃ es, (copyEntries copy src dest entries fs).fs.get? dest = some (Node.dir es) := by
  induction entries generalizing fs with
  | nil => simpa [copyEntries] using hdir
  | cons e rest ih =>
    simp only [copyEntries] at hok ⊢
    have hstep := hcopy fs (src ++ [e]) (dest ++ [e])
    generalize copy fs (src ++ [e]) (dest ++ [e]) = out at hstep hok ⊢
    obtain ⟨fs', err⟩ := out
    cases err with
    | some msg => simp at hok
    | none =>
      simp only [] at hok ⊢
      apply ih fs' _ hok
      have hsome := hstep rfl
      obtain ⟨n, hn⟩ := Option.isSome_iff_exists.1 hsome
      exact Node.get?_parent_dir fs' dest e [] n hn

theorem copyRecursive_dest (faults : Faults) (fuel : Nat) (fs : Node) (src dest : Path)
    (hok : (copyRecursive faults fuel fs src dest).error = none) :
    ((copyRecursive faults fuel fs src dest).fs.get? dest).isSome = true ∧
    ((∃ es, fs.get? src = some (Node.dir es)) →
      ∃ es, (copyRecursive faults fuel fs src dest).fs.get? dest = some (Node.dir es)) := by
  induction fuel generalizing fs src dest with
  | zero => simp [copyRecursive] at hok
  | succ fuel ih =>
    simp only [copyRecursive] at hok ⊢
    cases hstat : fs.get? src with
    | none => simp [hstat] at hok
    | some stats =>
      simp only [hstat] at hok ⊢
      cases stats with
      | file content =>
        simp only [Node.isDirectory, Bool.false_eq_true, if_false] at hok ⊢
        cases hcp : copyFile faults fs src dest with
        | error e => simp [hcp] at hok
        | ok fs1 =>
          simp only []
          constructor
          · unfold copyFile at hcp
            simp only [hstat] at hcp
            split at hcp
            · simp at hcp
            · split at hcp
              · simp at hcp
              · split at hcp
                · rename_i fs2 hset
                  simp only [Except.ok.injEq] at hcp
                  subst hcp
                  rw [Node.set_get_same _ _ _ _ hset]
                  rfl
                · simp at hcp
          · rintro ⟨es, hes⟩
            simp at hes
      | dir es0 =>
        simp only [Node.isDirectory, if_true] at hok ⊢
        cases hmk : mkdirRecursive fs dest with
        | error e => simp [hmk] at hok
        | ok fs1 =>
          simp only [hmk] at hok ⊢
          cases hrd : readdir fs1 src with
          | error e => simp [hrd] at hok
          | ok entries =>
            simp only [hrd] at hok ⊢
            have hdir := copyEntries_dest_dir (copyRecursive faults fuel) src dest
              (fun fs s d h => (ih fs s d h).1) entries fs1
              (mkdirRecursive_get_self fs fs1 dest hmk) hok
            obtain ⟨es, hes⟩ := hdir
            exact ⟨by rw [hes]; rfl, fun _ => ⟨es, hes⟩⟩

/-- C17: when `installUpdate(source, target)` returns successfully, the path
`<target>_backup_<timestamp>` does not exist any more and the target exists;
the target is a directory whenever the source is one when the copy starts. -/
theorem install_success_removes_backup (faults : Faults) (fuel now : Nat) (fs : Node)
    (sourcePath targetPath : Path)
    (hok : (installUpdate faults fuel now fs sourcePath targetPath).error = none) :
    existsSync (installUpdate faults fuel now fs sourcePath targetPath).fs
        (backupPathOf targetPath now) = false ∧
    existsSync (installUpdate faults fuel now fs sourcePath targetPath).fs targetPath = true ∧
    (∀ fs1,
      (if existsSync fs targetPath then rename fs targetPath (backupPathOf targetPath now)
        else Except.ok fs) = Except.ok fs1 →
      (∃ es, fs1.get? sourcePath = some (Node.dir es)) →
      ∃ es, (installUpdate faults fuel now fs sourcePath targetPath).fs.get? targetPath
        = some (Node.dir es)) := by
  unfold installUpdate at hok ⊢
  simp only [] at hok ⊢
  cases hren : (if existsSync fs targetPath then
      rename fs targetPath (backupPathOf targetPath now) else Except.ok fs) with
  | error e => rw [hren] at hok; simp at hok
  | ok fs1 =>
    rw [hren] at hok
    simp only [] at hok ⊢
    have hne : targetPath ≠ [] := by
      intro h
      subst h
      have hex : existsSync fs [] = true := by cases fs <;> rfl
      rw [hex] at hren
      simp only [if_true] at hren
      exact rename_root_fails fs fs1 _ (by simp [backupPathOf]) hren
    obtain ⟨pre, last, htarget, hbackup⟩ := backupPathOf_eq targetPath now hne
    have hcopy := copyRecursive_dest faults fuel fs1 sourcePath targetPath
    generalize copyRecursive faults fuel fs1 sourcePath targetPath = out at hok hcopy ⊢
    obtain ⟨fs2, err⟩ := out
    cases err with
    | some msg => simp at hok
    | none =>
      simp only [] at hcopy ⊢
      have hsame : (if existsSync fs2 (backupPathOf targetPath now) = true then
          rmRecursive fs2 (backupPathOf targetPath now) else fs2).get? targetPath
          = fs2.get? targetPath := by
        split
        · rw [hbackup]
          conv => lhs; arg 2; rw [htarget]
          conv => rhs; arg 2; rw [htarget]
          exact Node.remove_get_diverge pre _ last [] [] (fun h => backup_name_ne last now h.symm)
            fs2
        · rfl
      refine ⟨?_, ?_, ?_⟩
      · by_cases hb : existsSync fs2 (backupPathOf targetPath now) = true
        · rw [if_pos hb]
          unfold existsSync rmRecursive
          rw [Node.remove_get_same _ _ (by rw [hbackup]; simp)]
          rfl
        · simp only [hb, if_false]
          simpa using hb
      · show (Option.isSome (Node.get? _ targetPath)) = true
        rw [hsame]
        exact (hcopy trivial).1
      · intro fs1' h1 hdir
        simp only [Except.ok.injEq] at h1
        subst h1
        rw [hsame]
        exact (hcopy trivial).2 hdir

/-- Witness of C17: the update of the sample installation, without faults. -/
theorem install_success_removes_backup_witness :
    existsSync (installUpdate (fun _ => none) 5 17 sampleDisk ["tmp", "extracted"]
        ["games", "Illusion"]).fs (backupPathOf ["games", "Illusion"] 17) = false ∧
    existsSync (installUpdate (fun _ => none) 5 17 sampleDisk ["tmp", "extracted"]
        ["games", "Illusion"]).fs ["games", "Illusion"] = true :=
  have h := install_success_removes_backup (fun _ => none) 5 17 sampleDisk ["tmp", "extracted"]
    ["games", "Illusion"] (by decide)
  ⟨h.1, h.2.1⟩

/-! ## Rollback -/

theorem sortNames_by_code_units :
    sortNames [String.mk [Char.ofNat 0xE000], String.mk [Char.ofNat 0x10000], "b", "a"]
      = ["a", "b", String.mk [Char.ofNat 0x10000], String.mk [Char.ofNat 0xE000]] := by
  decide

/-- C18: evaluation at the failing input. Next to the installation lie the
backups with the timestamps 999999999999 and 1000000000000. The names are
sorted as strings, so the first one comes last and is taken for the newest:
`rollback` renames `Illusion_backup_999999999999` to the install path and
leaves the backup with the greater timestamp where it is. A sibling that only
shares the prefix, `Illusion_backup_old`, is preferred to a timestamped backup
in the same way. -/
theorem rollback_takes_last_name :
    (999999999999 : Nat) < 1000000000000 ∧
    (rollback backupsDisk ["games", "Illusion"]).error = none ∧
    (rollback backupsDisk ["games", "Illusion"]).fs.get? ["games", "Illusion"]
      = some (Node.dir [("Game.exe", Node.file "older")]) ∧
    (rollback backupsDisk ["games", "Illusion"]).fs.get?
        ["games", "Illusion_backup_1000000000000"]
      = some (Node.dir [("Game.exe", Node.file "newer")]) ∧
    (rollback backupsDisk ["games", "Illusion"]).fs.get?
        ["games", "Illusion_backup_999999999999"] = none ∧
    (rollback namedBackupDisk ["games", "Illusion"]).fs.get? ["games", "Illusion"]
      = some (Node.dir [("notes.txt", Node.file "keep")]) ∧
    (rollback namedBackupDisk ["games", "Illusion"]).fs.get?
        ["games", "Illusion_backup_1700000000000"]
      = some (Node.dir [("Game.exe", Node.file "backup")]) := by
  refine ⟨by decide, by decide, rfl, rfl, rfl, rfl, rfl⟩

/-- C19: when the parent directory of `installPath` has no entry whose name
starts with `<basename>_backup_`, `rollback` fails with `No backup found` and
the file system is what it was; the handler `updates:rollback` then returns
`success = false` with that message. -/
theorem rollback_without_backup (fs : Node) (installPath : Path) (files : List String)
    (hread : readdir fs (dirname installPath) = Except.ok files)
    (hnone : ∀ f ∈ files, startsWith f (basename installPath ++ "_backup_") = false) :
    (rollback fs installPath).error = some "No backup found" ∧
    (rollback fs installPath).fs = fs ∧
    updatesRollback fs installPath
      = ({ success := false, error := some "No backup found" }, fs) := by
  have hfilter : files.filter (fun f => startsWith f (basename installPath ++ "_backup_")) = [] := by
    rw [List.filter_eq_nil_iff]
    intro f hf
    simp [hnone f hf]
  have hroll : rollback fs installPath = { fs := fs, error := some "No backup found" } := by
    unfold rollback
    simp only [hread, hfilter, sortNames, List.reverse_nil]
  refine ⟨by rw [hroll], by rw [hroll], ?_⟩
  unfold updatesRollback
  rw [hroll]

/-- Witness of C19: the sample installation, which has no backup. -/
theorem rollback_without_backup_witness :
    (rollback sampleDisk ["games", "Illusion"]).error = some "No backup found" ∧
    (rollback sampleDisk ["games", "Illusion"]).fs = sampleDisk ∧
    updatesRollback sampleDisk ["games", "Illusion"]
      = ({ success := false, error := some "No backup found" }, sampleDisk) :=
  rollback_without_backup sampleDisk ["games", "Illusion"] ["Illusion"] rfl (by decide)

/-! ## The result of the handler -/

/-- C20: evaluation at the failing input. The release has the asset `Game.zip`
and the server answers its download with status 404: the promise returned by
the handler `game:download` rejects with `Download failed with status 404`
instead of resolving with `success = false`. In general, once an asset is
selected and the install directory is created, the handler settles exactly as
the download promise does, rejections included. -/
theorem handler_rejects_on_download_failure :
    (gameDownload sampleEnv none "C:/Pokemon Illusion"
        { ok := true, status := 200, statusText := "OK", rateLimitReset := none,
          json := brokenRelease }).1
      = HandlerResult.rejected "Download failed with status 404" ∧
    (∀ (env : DownloadEnv) (config : Option GameConfig) (defaultDir : String)
        (response : ApiResponse) (assets : List Asset) (asset : Asset),
      response.ok = true → response.json.assets = some assets →
      (selectAsset assets (readInstalledVersion env.versionFile)).asset = some asset →
      env.mkdirError = none →
      (gameDownload env config defaultDir response).1
        = env.download asset.browser_download_url
            { dir := installDirOf config defaultDir, name := asset.name } asset.size
            (endsWith (toLowerCase asset.name) ".zip")) ∧
    (∀ (zip : ZipTools) (mainWindow : Bool) (files : Files) (response : Response)
        (downloadPath : FilePath) (fileSize : Nat) (installDir : String) (message : String),
      response.body.ending = StreamEnd.finish → zip.available = true →
      zip.entries (String.join response.body.chunks) = Except.error message →
      (handleDownload zip mainWindow files response downloadPath fileSize installDir
          true).result
        = HandlerResult.rejected ("ZIP-Extraktion fehlgeschlagen: " ++ message)) := by
  refine ⟨by decide, ?_, ?_⟩
  · intro env config defaultDir response assets asset hok hassets hsel hmk
    simp [gameDownload, hok, hassets, hsel, hmk]
  · intro zip mainWindow files response downloadPath fileSize installDir message hf ha he
    simp [handleDownload, hf, ha, he]

/-! ## The guards of the update service -/

/-- C21: a call of `downloadUpdate` while `isDownloading` is set throws
`Download already in progress`, whatever the network, the archive reader and
the disk would do: the file system and the service (with `isDownloading` and
`downloadProgress`) are as before and nothing is sent to the window. A call of
`checkForUpdates` while `isChecking` is set returns `null` whatever the release
index would answer, and leaves the service as it was. -/
theorem busy_guards_refuse :
    (∀ (net : Network) (zip : ZipTools) (faults : Faults) (fuel now : Nat) (tempRoot : Path)
        (st : ServiceState) (fs : Node) (updateInfo : UpdateInfo) (installPath : Path),
      st.isDownloading = true →
      downloadUpdate net zip faults fuel now tempRoot st fs updateInfo installPath =
        { outcome := some (Except.error "Download already in progress"), state := st, fs := fs,
          sent := [] }) ∧
    (∀ (st : ServiceState) (silent : Bool) (fetched : Fetched),
      st.isChecking = true →
      checkForUpdates st silent fetched = { result := none, state := st, sent := [] }) := by
  constructor
  · intro net zip faults fuel now tempRoot st fs updateInfo installPath h
    simp [downloadUpdate, h]
  · intro st silent fetched h
    simp [checkForUpdates, h]

/-- Witness of C21: the busy service is asked for the sample update and for a check. -/
theorem busy_guards_refuse_witness :
    downloadUpdate sampleNet sampleZip (fun _ => none) 5 17 ["tmp"] busyService sampleDisk
        sampleUpdate ["games", "Illusion"] =
      { outcome := some (Except.error "Download already in progress"), state := busyService,
        fs := sampleDisk, sent := [] } ∧
    checkForUpdates busyService false (Fetched.value (some zipRelease)) =
      { result := none, state := busyService, sent := [] } :=
  ⟨busy_guards_refuse.1 sampleNet sampleZip (fun _ => none) 5 17 ["tmp"] busyService sampleDisk
      sampleUpdate ["games", "Illusion"] rfl,
    busy_guards_refuse.2 busyService false (Fetched.value (some zipRelease)) rfl⟩

/-- C27: a call of `checkForUpdates` that starts with `isChecking` unset ends
with `isChecking` unset, whatever the release index answers. A call of
`downloadUpdate` that starts with `isDownloading` unset and settles (returns or
throws) ends with `isDownloading` unset; `downloadProgress` is `0` then, given
that it was `0` at the start (as it is in a new service and, by this very
statement, after every call that settled) or that the update has a download
URL, so that the call got past the two checks in front of the `try`. -/
theorem guard_flags_released (st : ServiceState) :
    (st.isChecking = false →
      ∀ (silent : Bool) (fetched : Fetched),
        (checkForUpdates st silent fetched).state.isChecking = false) ∧
    (st.isDownloading = false →
      ∀ (net : Network) (zip : ZipTools) (faults : Faults) (fuel now : Nat) (tempRoot : Path)
        (fs : Node) (updateInfo : UpdateInfo) (installPath : Path),
        (downloadUpdate net zip faults fuel now tempRoot st fs updateInfo installPath).outcome
          ≠ none →
        (downloadUpdate net zip faults fuel now tempRoot st fs updateInfo
          installPath).state.isDownloading = false ∧
        ((st.downloadProgress = JSNum.fin 0 ∨ truthy updateInfo.downloadUrl = true) →
          (downloadUpdate net zip faults fuel now tempRoot st fs updateInfo
            installPath).state.downloadProgress = JSNum.fin 0)) := by
  constructor
  · intro h silent fetched
    unfold checkForUpdates
    simp only [h, Bool.false_eq_true, if_false]
    cases fetched with
    | threw message => rfl
    | value release =>
      cases release with
      | none => rfl
      | some latestRelease =>
        simp only []
        cases latestRelease.tag_name with
        | none => rfl
        | some tag =>
          simp only []
          split
          · cases latestRelease.assets <;> rfl
          · rfl
  · intro h net zip faults fuel now tempRoot fs updateInfo installPath
    unfold downloadUpdate
    simp only [h, Bool.false_eq_true, if_false]
    by_cases hurl : truthy updateInfo.downloadUrl = true
    · simp only [hurl, Bool.not_true, Bool.false_eq_true, if_false]
      cases mkdirRecursive fs (tempRoot ++ ["mirrorbytes-update"]) with
      | error e => intro _; exact ⟨rfl, fun _ => rfl⟩
      | ok fs1 =>
        simp only []
        cases (downloadFile net true fuel fs1 (templateText updateInfo.downloadUrl)
            (tempRoot ++ ["mirrorbytes-update"] ++ ["update.zip"])).outcome with
        | none => intro hne; exact absurd rfl hne
        | some settled =>
          cases settled with
          | error e => intro _; exact ⟨rfl, fun _ => rfl⟩
          | ok u =>
            simp only []
            cases mkdirRecursive _ (tempRoot ++ ["mirrorbytes-update"] ++ ["extracted"]) with
            | error e => intro _; exact ⟨rfl, fun _ => rfl⟩
            | ok fs2 =>
              simp only []
              split
              · intro _; exact ⟨rfl, fun _ => rfl⟩
              · split
                · intro _; exact ⟨rfl, fun _ => rfl⟩
                · split
                  · intro _; exact ⟨rfl, fun _ => rfl⟩
                  · intro _; exact ⟨rfl, fun _ => rfl⟩
    · simp only [hurl, Bool.not_false, if_true]
      intro _
      refine ⟨h, fun hp => ?_⟩
      rcases hp with hp | hp
      · exact hp
      · exact absurd hp (by decide)

/-- Witness of C27: the service at rest checks for an update whose release
cannot be fetched and downloads the sample update. -/
theorem guard_flags_released_witness :
    (checkForUpdates idleService false (Fetched.threw "ENOTFOUND")).state.isChecking = false ∧
    (downloadUpdate sampleNet sampleZip (fun _ => none) 5 17 ["tmp"] idleService sampleDisk
      sampleUpdate ["games", "Illusion"]).state.isDownloading = false ∧
    (downloadUpdate sampleNet sampleZip (fun _ => none) 5 17 ["tmp"] idleService sampleDisk
      sampleUpdate ["games", "Illusion"]).state.downloadProgress = JSNum.fin 0 :=
  have hrun : (downloadUpdate sampleNet sampleZip (fun _ => none) 5 17 ["tmp"] idleService
      sampleDisk sampleUpdate ["games", "Illusion"]).outcome = some (Except.ok ()) := rfl
  have h := (guard_flags_released idleService).2 rfl sampleNet sampleZip (fun _ => none) 5 17
    ["tmp"] sampleDisk sampleUpdate ["games", "Illusion"]
    (fun hnone => absurd (hrun.symm.trans hnone) (by simp))
  ⟨(guard_flags_released idleService).1 rfl false (Fetched.threw "ENOTFOUND"), h.1,
    h.2 (Or.inl rfl)⟩

/-! ## An install directory without version marker -/

/-- C23: when `VERSION.txt` cannot be read, the handler goes on: the installed
version is `null`, step one finds no patch asset and `isPatchUpdate` stays
false whatever the release holds, the asset is the one of the full-install
tiers, and the handler continues with it (its name does not contain
`Patch-from`) or, if there is none, with the branch for a release without
a usable asset. -/
theorem unreadable_marker_selects_full (env : DownloadEnv) (config : Option GameConfig)
    (defaultDir : String) (response : ApiResponse) (assets : List Asset)
    (hfile : env.versionFile = none) (hok : response.ok = true)
    (hassets : response.json.assets = some assets) :
    readInstalledVersion env.versionFile = none ∧
    findPatchAsset assets (readInstalledVersion env.versionFile) = none ∧
    selectAsset assets (readInstalledVersion env.versionFile)
      = { asset := findFullAsset assets, isPatchUpdate := false } ∧
    (∀ a, findFullAsset assets = some a → includes a.name "Patch-from" = false) ∧
    gameDownload env config defaultDir response =
      (match findFullAsset assets with
       | none =>
         noAssetBranch env (getGameRepoOwner config) (getGameRepo config)
           (installDirOf config defaultDir) response.json
       | some asset =>
         match env.mkdirError with
         | some message => (caught message, [Effect.mkdir (installDirOf config defaultDir)])
         | none =>
           (env.download asset.browser_download_url
              { dir := installDirOf config defaultDir, name := asset.name } asset.size
              (endsWith (toLowerCase asset.name) ".zip"),
            [Effect.mkdir (installDirOf config defaultDir),
             Effect.assetDownload asset.browser_download_url
               { dir := installDirOf config defaultDir, name := asset.name }])) := by
  have hv : readInstalledVersion env.versionFile = none := by rw [hfile]; rfl
  have hp : findPatchAsset assets none = none := by simp [findPatchAsset, truthy]
  have hs : selectAsset assets none = { asset := findFullAsset assets, isPatchUpdate := false } := by
    simp [selectAsset, hp]
  refine ⟨hv, by rw [hv]; exact hp, by rw [hv]; exact hs, fun a ha => findFullAsset_not_patch ha, ?_⟩
  unfold gameDownload
  simp only [hok, hassets, hv, hs, Bool.not_true, Bool.false_eq_true, if_false]

/-- Witness of C23: a release with a patch for 1.0.0 and a full archive, on a
machine whose install directory has no `VERSION.txt`. -/
theorem unreadable_marker_selects_full_witness :
    selectAsset [⟨"Patch-from-1.0.0.zip", "https://example.org/patch", 3⟩,
        ⟨"Game.zip", "https://example.org/Game.zip", 10⟩]
      (readInstalledVersion offlineEnv.versionFile)
      = { asset := findFullAsset [⟨"Patch-from-1.0.0.zip", "https://example.org/patch", 3⟩,
            ⟨"Game.zip", "https://example.org/Game.zip", 10⟩],
          isPatchUpdate := false } ∧
    findFullAsset [⟨"Patch-from-1.0.0.zip", "https://example.org/patch", 3⟩,
        ⟨"Game.zip", "https://example.org/Game.zip", 10⟩]
      = some ⟨"Game.zip", "https://example.org/Game.zip", 10⟩ :=
  ⟨(unreadable_marker_selects_full offlineEnv none "C:/Pokemon Illusion"
      { ok := true, status := 200, statusText := "OK", rateLimitReset := none,
        json := patchRelease }
      [⟨"Patch-from-1.0.0.zip", "https://example.org/patch", 3⟩,
        ⟨"Game.zip", "https://example.org/Game.zip", 10⟩] rfl rfl rfl).2.2.1,
    by decide⟩

/-! ## The Windows asset of a release -/

/-- C30: `findWindowsAsset(release)` is `null` exactly when `release.assets` is
missing, is empty, or holds no asset whose name contains `Windows`, contains
`win`, ends with `.zip` or contains `Setup`; it returns an object exactly when
the list is `pre ++ a :: post` where no asset of `pre` passes one of the four
tests and `a` passes one, and the object then has the name, the
`browser_download_url` and the size of `a`. -/
theorem findWindowsAsset_first_match (release : Release) :
    (findWindowsAsset release = none ↔
      release.assets = none ∨ release.assets = some [] ∨
      ∃ assets, release.assets = some assets ∧
        ∀ a ∈ assets, ¬ (includes a.name "Windows" = true ∨ includes a.name "win" = true ∨
          endsWith a.name ".zip" = true ∨ includes a.name "Setup" = true)) ∧
    (∀ w, findWindowsAsset release = some w ↔
      ∃ pre a post, release.assets = some (pre ++ a :: post) ∧
        (∀ x ∈ pre, ¬ (includes x.name "Windows" = true ∨ includes x.name "win" = true ∨
          endsWith x.name ".zip" = true ∨ includes x.name "Setup" = true)) ∧
        (includes a.name "Windows" = true ∨ includes a.name "win" = true ∨
          endsWith a.name ".zip" = true ∨ includes a.name "Setup" = true) ∧
        w = { name := a.name, downloadUrl := a.browser_download_url, size := a.size }) := by
  have htest : ∀ a : Asset, isWindowsAsset a = true ↔
      (includes a.name "Windows" = true ∨ includes a.name "win" = true ∨
        endsWith a.name ".zip" = true ∨ includes a.name "Setup" = true) := by
    intro a
    simp [isWindowsAsset, or_assoc]
  unfold findWindowsAsset
  cases hassets : release.assets with
  | none => simp
  | some assets =>
    simp only []
    cases assets with
    | nil => simp
    | cons first rest =>
      simp only [List.isEmpty_cons, Bool.false_eq_true, if_false]
      cases hfind : (first :: rest).find? isWindowsAsset with
      | none =>
        have hall := List.find?_eq_none.1 hfind
        constructor
        · constructor
          · intro _
            refine Or.inr (Or.inr ⟨first :: rest, rfl, fun a ha hp => ?_⟩)
            exact hall a ha ((htest a).2 hp)
          · intro _; rfl
        · intro w
          constructor
          · intro h; cases h
          · rintro ⟨pre, a, post, hlist, _, ha, _⟩
            simp only [Option.some.injEq] at hlist
            exact absurd ((htest a).2 ha) (hall a (by rw [hlist]; simp))
      | some a =>
        obtain ⟨ha, pre, post, hlist, hpre⟩ := List.find?_eq_some.1 hfind
        constructor
        · constructor
          · intro h; cases h
          · rintro (h | h | ⟨assets, hlist2, hnone⟩)
            · cases h
            · cases h
            · simp only [Option.some.injEq] at hlist2
              exact absurd ((htest a).1 ha) (hnone a (by rw [← hlist2, hlist]; simp))
        · intro w
          constructor
          · intro h
            simp only [Option.some.injEq] at h
            refine ⟨pre, a, post, by rw [hlist], fun x hx hp => ?_, (htest a).1 ha, h.symm⟩
            have := hpre x hx
            rw [(htest x).2 hp] at this
            simp at this
          · rintro ⟨pre2, a2, post2, hlist2, hpre2, ha2, hw⟩
            simp only [Option.some.injEq] at hlist2
            have h2 : (first :: rest).find? isWindowsAsset = some a2 := by
              rw [hlist2]
              exact List.find?_eq_some.2 ⟨(htest a2).2 ha2, pre2, post2, rfl,
                fun x hx => by
                  have := hpre2 x hx
                  rw [← htest x] at this
                  simpa using this⟩
            rw [hfind] at h2
            simp only [Option.some.injEq] at h2
            subst h2
            rw [hw]

/-! ## The handler `updates:download` -/

/-- C26: for every update, every state of the update service, every network
and disk, the handler `updates:download` resolves with `success: false` and
does not call `downloadUpdate`: without a service it throws
`Update service not initialized`, with one the reference to `gameId` in line
1068 throws, since neither a parameter of the handler nor a declaration of the
module has that name. The service and the file system are therefore not
touched. -/
theorem updatesDownload_never_downloads (net : Network) (zip : ZipTools) (faults : Faults)
    (fuel now : Nat) (tempRoot : Path) (service : Option ServiceState) (fs : Node)
    (installPath : Path) (updateInfo : UpdateInfo) :
    (updatesDownload net zip faults fuel now tempRoot service fs installPath updateInfo).call
      = none ∧
    (updatesDownload net zip faults fuel now tempRoot service fs installPath updateInfo).result
      = some { success := false,
               error := some (if service.isSome then "gameId is not defined"
                              else "Update service not initialized") } ∧
    resolveIdentifier updatesDownloadScope "gameId" = Except.error "gameId is not defined" := by
  have hres : resolveIdentifier updatesDownloadScope "gameId"
      = Except.error "gameId is not defined" := rfl
  cases service with
  | none => exact ⟨rfl, rfl, hres⟩
  | some st =>
    refine ⟨?_, ?_, hres⟩
    · unfold updatesDownload
      simp only [hres]
    · unfold updatesDownload
      simp only [hres]
      rfl

/-! ## A release query that fails -/

theorem parseInt10_digits (r : String) (hne : r.data ≠ [])
    (h : ∀ c ∈ r.data, isDecimalDigit c = true) :
    parseInt10 r = JSNum.fin ((decimalValue r.data : Nat) : ℚ) := by
  have hdrop : r.data.dropWhile isStrWhiteSpaceChar = r.data :=
    dropWhile_eq_self_of_head _ _ (fun x hx => by
      cases hd : r.data with
      | nil => rw [hd] at hx; simp at hx
      | cons a rest =>
        rw [hd] at hx
        simp only [List.head?_cons, Option.some.injEq] at hx
        subst hx
        exact not_whitespace_of_digit a (h a (by rw [hd]; simp)))
  unfold parseInt10
  simp only [hdrop]
  cases hd : r.data with
  | nil => exact absurd hd hne
  | cons a rest =>
    have hdig : ∀ c ∈ a :: rest, isDecimalDigit c = true := by rw [← hd]; exact h
    have ha := hdig a (by simp)
    have hminus : a ≠ '-' := by
      intro e; rw [e] at ha; revert ha; decide
    have hplus : a ≠ '+' := by
      intro e; rw [e] at ha; revert ha; decide
    have hsigned : (match a :: rest with
        | '-' :: r => (true, r)
        | '+' :: r => (false, r)
        | r => (false, r)) = (false, a :: rest) := by
      split
      · rename_i r heq
        simp only [List.cons.injEq] at heq
        exact absurd heq.1 hminus
      · rename_i r heq
        simp only [List.cons.injEq] at heq
        exact absurd heq.1 hplus
      · rfl
    rw [hsigned]
    have htake : (a :: rest).takeWhile isDecimalDigit = a :: rest :=
      List.takeWhile_eq_self_iff.2 hdig
    simp only [htake]
    simp

/-- C22: when the releases API answers with a status `s` outside 200–299 (so
that `response.ok` is false), the handler requests nothing else and resolves
with `success: false` and a message that contains the decimal digits of `s`.
For `s = 403` the message contains `rate limit`, and when the header
`x-ratelimit-reset` has a non-empty value `r`, the message contains the text
of the date whose time value is `parseInt(r, 10) * 1000`; for an `r` made of
decimal digits that time value is the number `r` writes, times 1000. -/
theorem api_failure_reported (env : DownloadEnv) (config : Option GameConfig)
    (defaultDir : String) (response : ApiResponse)
    (hok : response.ok = decide (200 ≤ response.status ∧ response.status ≤ 299))
    (hs : ¬ (200 ≤ response.status ∧ response.status ≤ 299)) :
    ∃ message,
      gameDownload env config defaultDir response =
        (HandlerResult.resolved
          { success := false, message := message, path := none, extracted := none }, []) ∧
      includes message (toString response.status) = true ∧
      (response.status = 403 →
        includes message "rate limit" = true ∧
        ∀ (r : String) (toLocaleString : JSNum → String),
          response.rateLimitReset = some r → r.data ≠ [] →
          env.resetText = resetTextOf toLocaleString →
          includes message (toLocaleString ((parseInt10 r).mul (JSNum.fin 1000))) = true ∧
          ((∀ c ∈ r.data, isDecimalDigit c = true) →
            (parseInt10 r).mul (JSNum.fin 1000)
              = JSNum.fin (((decimalValue r.data * 1000 : Nat) : ℚ)))) := by
  have hnot : response.ok = false := by rw [hok]; simp only [hs, decide_False]
  refine ⟨apiFailureMessage env response, ?_, ?_, ?_⟩
  · unfold gameDownload caught
    simp only [hnot, Bool.not_false, if_true]
  · unfold apiFailureMessage
    by_cases h403 : response.status = 403
    · simp only [h403, if_true]
      apply includes_of_eq_append "GitHub API returned " (toString 403)
        (": rate limit exceeded." ++
          (if truthy response.rateLimitReset = true then
            " Rate limit resets at " ++ env.resetText (templateText response.rateLimitReset) ++ "."
          else "") ++
          " Consider setting GITHUB_TOKEN environment variable with a personal access token to increase rate limits.")
      rw [show ("GitHub API returned 403: rate limit exceeded." : String)
        = "GitHub API returned " ++ toString 403 ++ ": rate limit exceeded." from by decide]
      simp only [String.append_assoc]
    · simp only [h403, if_false]
      exact includes_of_eq_append "GitHub API returned " (toString response.status)
        (": " ++ response.statusText) (by simp only [String.append_assoc])
  · intro h403
    unfold apiFailureMessage
    simp only [h403, if_true]
    constructor
    · apply includes_of_eq_append "GitHub API returned 403: " "rate limit"
        (" exceeded." ++
          (if truthy response.rateLimitReset = true then
            " Rate limit resets at " ++ env.resetText (templateText response.rateLimitReset) ++ "."
          else "") ++
          " Consider setting GITHUB_TOKEN environment variable with a personal access token to increase rate limits.")
      rw [show ("GitHub API returned 403: rate limit exceeded." : String)
        = "GitHub API returned 403: " ++ "rate limit" ++ " exceeded." from by decide]
      simp only [String.append_assoc]
    · intro r toLocaleString hr hne henv
      constructor
      · have htruthy : truthy (some r) = true := (truthy_some_iff r).2 hne
        simp only [hr, htruthy, if_true, templateText, henv, resetTextOf]
        exact includes_of_eq_append
          ("GitHub API returned 403: rate limit exceeded." ++ " Rate limit resets at ")
          (toLocaleString ((parseInt10 r).mul (JSNum.fin 1000)))
          ("." ++ " Consider setting GITHUB_TOKEN environment variable with a personal access token to increase rate limits.")
          (by simp only [String.append_assoc])
      · intro hdig
        rw [parseInt10_digits r hne hdig]
        simp [JSNum.mul]

/-- Witness of C22: the API answers 403 with the reset time 1700000000. -/
theorem api_failure_reported_witness :
    ∃ message,
      gameDownload offlineEnv none "C:/Pokemon Illusion"
          { ok := false, status := 403, statusText := "Forbidden",
            rateLimitReset := some "1700000000", json := emptyRelease } =
        (HandlerResult.resolved
          { success := false, message := message, path := none, extracted := none }, []) ∧
      includes message "403" = true :=
  (api_failure_reported offlineEnv none "C:/Pokemon Illusion"
      { ok := false, status := 403, statusText := "Forbidden",
        rateLimitReset := some "1700000000", json := emptyRelease }
      (by decide) (by decide)).imp (fun _ h => ⟨h.1, h.2.1⟩)

/-! ## The selection and the order of the assets -/

theorem find?_isSome_perm {α : Type} (p : α → Bool) {l1 l2 : List α} (h : l1.Perm l2) :
    (l1.find? p).isSome = (l2.find? p).isSome := by
  rw [Bool.eq_iff_iff, List.find?_isSome, List.find?_isSome]
  constructor
  · rintro ⟨x, hx, hp⟩; exact ⟨x, h.mem_iff.1 hx, hp⟩
  · rintro ⟨x, hx, hp⟩; exact ⟨x, h.mem_iff.2 hx, hp⟩

theorem find?_eq_none_perm {α : Type} (p : α → Bool) {l1 l2 : List α} (h : l1.Perm l2)
    (hnone : l1.find? p = none) : l2.find? p = none := by
  have := find?_isSome_perm p h
  rw [hnone] at this
  cases h2 : l2.find? p with
  | none => rfl
  | some x => rw [h2] at this; simp at this

theorem find?_perm_unique {α : Type} (p : α → Bool) {l1 l2 : List α} (h : l1.Perm l2)
    (huniq : ∀ a ∈ l1, ∀ b ∈ l1, p a = true → p b = true → a = b) :
    l1.find? p = l2.find? p := by
  cases h1 : l1.find? p with
  | none => exact (find?_eq_none_perm p h h1).symm
  | some a =>
    cases h2 : l2.find? p with
    | none => rw [find?_eq_none_perm p h.symm h2] at h1; cases h1
    | some b =>
      have ha := List.find?_some h1
      have hb := List.find?_some h2
      have hma := List.mem_of_find?_eq_some h1
      have hmb := h.mem_iff.2 (List.mem_of_find?_eq_some h2)
      rw [huniq a hma b hmb ha hb]

/-- C24, evaluation at the counterexample: a release with the two installers
`Game.exe` and `Setup.exe`. Both pass the test of the `.exe` tier; the handler
takes the one that comes first, so the two orders of the list end in
different assets. -/
theorem selection_depends_on_order :
    [installerA, installerB].Perm [installerB, installerA] ∧
    (selectAsset [installerA, installerB] none).asset = some installerA ∧
    (selectAsset [installerB, installerA] none).asset = some installerB ∧
    installerA ≠ installerB :=
  ⟨List.Perm.swap installerB installerA [], by decide, by decide, by decide⟩

theorem findPatchAsset_isSome_perm {assets1 assets2 : List Asset} (iv : Option String)
    (h : assets1.Perm assets2) :
    (findPatchAsset assets1 iv).isSome = (findPatchAsset assets2 iv).isSome := by
  unfold findPatchAsset
  split
  · exact find?_isSome_perm _ h
  · rfl

theorem findPatchAsset_is_patch {assets : List Asset} {iv : Option String} {a : Asset}
    (h : findPatchAsset assets iv = some a) :
    a ∈ assets ∧ includes a.name (patchAssetName iv) = true ∧
      isFullExe a = false ∧ isFullZip a = false := by
  unfold findPatchAsset at h
  split at h
  · have hp := List.find?_some h
    have hm := List.mem_of_find?_eq_some h
    have hmark : includes a.name "Patch-from" = true :=
      includes_trans hp (includes_patchAssetName_marker iv)
    exact ⟨hm, hp, by simp [isFullExe, hmark], by simp [isFullZip, hmark]⟩
  · cases h

theorem findFullAsset_tier {assets : List Asset} {a : Asset}
    (h : findFullAsset assets = some a) :
    a ∈ assets ∧
    ((assets.find? isFullExe = some a ∧ isFullExe a = true ∧ isFullZip a = false) ∨
      (assets.find? isFullExe = none ∧ assets.find? isFullZip = some a ∧
        isFullExe a = false ∧ isFullZip a = true)) := by
  unfold findFullAsset at h
  cases hexe : assets.find? isFullExe with
  | some e =>
    rw [hexe] at h
    simp only [Option.some.injEq] at h
    subst h
    have hp := List.find?_some hexe
    refine ⟨List.mem_of_find?_eq_some hexe, Or.inl ⟨rfl, hp, ?_⟩⟩
    have hp2 := hp
    simp only [isFullExe, Bool.and_eq_true] at hp2
    simp [isFullZip, endsWith_exe_not_zip _ hp2.1]
  | none =>
    rw [hexe] at h
    simp only [] at h
    have hm := List.mem_of_find?_eq_some h
    have hne := List.find?_eq_none.1 hexe a hm
    exact ⟨hm, Or.inr ⟨rfl, h, by simpa using hne, List.find?_some h⟩⟩

/-- C24, amended: for two orders of the same asset list the selection is in
the same tier (`isPatchUpdate` agrees, an asset is found in both or in
neither, and the two assets found pass the same tests of the full-install
tiers), but the asset itself is the first match in list order. The two orders
give the same asset as soon as each of the three tests is passed by at most
one asset of the list. -/
theorem selection_under_permutation (assets1 assets2 : List Asset)
    (installedVersion : Option String) (hperm : assets1.Perm assets2) :
    (selectAsset assets1 installedVersion).isPatchUpdate
      = (selectAsset assets2 installedVersion).isPatchUpdate ∧
    (selectAsset assets1 installedVersion).asset.isSome
      = (selectAsset assets2 installedVersion).asset.isSome ∧
    (∀ a1 a2, (selectAsset assets1 installedVersion).asset = some a1 →
      (selectAsset assets2 installedVersion).asset = some a2 →
      isFullExe a1 = isFullExe a2 ∧ isFullZip a1 = isFullZip a2) ∧
    ((∀ a ∈ assets1, ∀ b ∈ assets1,
        includes a.name (patchAssetName installedVersion) = true →
        includes b.name (patchAssetName installedVersion) = true → a = b) →
      (∀ a ∈ assets1, ∀ b ∈ assets1, isFullExe a = true → isFullExe b = true → a = b) →
      (∀ a ∈ assets1, ∀ b ∈ assets1, isFullZip a = true → isFullZip b = true → a = b) →
      selectAsset assets1 installedVersion = selectAsset assets2 installedVersion) := by
  have hP := findPatchAsset_isSome_perm installedVersion hperm
  have hE := find?_isSome_perm isFullExe hperm
  have hZ := find?_isSome_perm isFullZip hperm
  refine ⟨?_, ?_, ?_, ?_⟩
  · unfold selectAsset
    cases hp1 : findPatchAsset assets1 installedVersion <;>
      cases hp2 : findPatchAsset assets2 installedVersion <;> simp_all
  · unfold selectAsset findFullAsset
    cases hp1 : findPatchAsset assets1 installedVersion <;>
      cases hp2 : findPatchAsset assets2 installedVersion <;>
      cases he1 : assets1.find? isFullExe <;>
      cases he2 : assets2.find? isFullExe <;> simp_all
  · intro a1 a2 h1 h2
    unfold selectAsset at h1 h2
    cases hp1 : findPatchAsset assets1 installedVersion with
    | some p1 =>
      cases hp2 : findPatchAsset assets2 installedVersion with
      | none => rw [hp1, hp2] at hP; simp at hP
      | some p2 =>
        rw [hp1] at h1
        rw [hp2] at h2
        simp only [Option.some.injEq] at h1 h2
        subst h1
        subst h2
        have t1 := findPatchAsset_is_patch hp1
        have t2 := findPatchAsset_is_patch hp2
        exact ⟨by rw [t1.2.2.1, t2.2.2.1], by rw [t1.2.2.2, t2.2.2.2]⟩
    | none =>
      cases hp2 : findPatchAsset assets2 installedVersion with
      | some p2 => rw [hp1, hp2] at hP; simp at hP
      | none =>
        rw [hp1] at h1
        rw [hp2] at h2
        simp only [] at h1 h2
        rcases (findFullAsset_tier h1).2 with ⟨e1, x1, z1⟩ | ⟨e1, _, x1, z1⟩ <;>
          rcases (findFullAsset_tier h2).2 with ⟨e2, x2, z2⟩ | ⟨e2, _, x2, z2⟩
        · exact ⟨by rw [x1, x2], by rw [z1, z2]⟩
        · rw [e1, e2] at hE; simp at hE
        · rw [e1, e2] at hE; simp at hE
        · exact ⟨by rw [x1, x2], by rw [z1, z2]⟩
  · intro hup hue huz
    have hpatch : findPatchAsset assets1 installedVersion
        = findPatchAsset assets2 installedVersion := by
      unfold findPatchAsset
      split
      · exact find?_perm_unique _ hperm hup
      · rfl
    have hfull : findFullAsset assets1 = findFullAsset assets2 := by
      unfold findFullAsset
      rw [find?_perm_unique isFullExe hperm hue, find?_perm_unique isFullZip hperm huz]
    unfold selectAsset
    rw [hpatch, hfull]

/-- Witness of C24 (amended): the sample release with its two assets swapped. -/
theorem selection_under_permutation_witness :
    (selectAsset [⟨"Patch-from-1.0.0.zip", "https://example.org/patch", 3⟩,
        ⟨"Game.zip", "https://example.org/Game.zip", 10⟩] (some "1.0.0")).isPatchUpdate
      = (selectAsset [⟨"Game.zip", "https://example.org/Game.zip", 10⟩,
        ⟨"Patch-from-1.0.0.zip", "https://example.org/patch", 3⟩] (some "1.0.0")).isPatchUpdate :=
  (selection_under_permutation
    [⟨"Patch-from-1.0.0.zip", "https://example.org/patch", 3⟩,
      ⟨"Game.zip", "https://example.org/Game.zip", 10⟩]
    [⟨"Game.zip", "https://example.org/Game.zip", 10⟩,
      ⟨"Patch-from-1.0.0.zip", "https://example.org/patch", 3⟩] (some "1.0.0")
    (List.Perm.swap _ _ [])).1

/-! ## `compareVersions` -/

theorem compareLoop_neg (parts1 parts2 : List JSNum) (n i : Nat) :
    compareLoop parts1 parts2 i n = - compareLoop parts2 parts1 i n := by
  induction n generalizing i with
  | zero => simp [compareLoop]
  | succ n ih =>
    simp only [compareLoop, JSNum.gt]
    by_cases h1 : (JSNum.orZero parts2[i]?).lt (JSNum.orZero parts1[i]?) = true
    · simp [h1, JSNum.lt_asymm h1]
    · by_cases h2 : (JSNum.orZero parts1[i]?).lt (JSNum.orZero parts2[i]?) = true
      · simp [h1, h2]
      · simpa [h1, h2] using ih (i + 1)

theorem compareLoop_self (parts : List JSNum) (n i : Nat) :
    compareLoop parts parts i n = 0 := by
  induction n generalizing i with
  | zero => simp [compareLoop]
  | succ n ih => simp [compareLoop, JSNum.gt, JSNum.lt_irrefl, ih]

theorem lex_cons_same (x : JSNum) (l1 l2 : List JSNum) :
    List.Lex JSNum.Less (x :: l1) (x :: l2) ↔ List.Lex JSNum.Less l1 l2 := by
  constructor
  · intro h
    cases h with
    | cons h => exact h
    | rel h => simp [JSNum.Less, JSNum.lt_irrefl] at h
  · exact List.Lex.cons

theorem lex_cons_not {x y : JSNum} (l1 l2 : List JSNum) (h : x.lt y = false) (hne : x ≠ y) :
    ¬ List.Lex JSNum.Less (x :: l1) (y :: l2) := by
  intro hl
  cases hl with
  | cons h => exact hne rfl
  | rel hr => simp [JSNum.Less, h] at hr

theorem compareLoop_lex (parts1 parts2 : List JSNum) (n i : Nat) :
    (compareLoop parts1 parts2 i n = 1 ↔
      List.Lex JSNum.Less ((List.range' i n).map (fun j => JSNum.orZero parts2[j]?))
        ((List.range' i n).map (fun j => JSNum.orZero parts1[j]?))) ∧
    (compareLoop parts1 parts2 i n = -1 ↔
      List.Lex JSNum.Less ((List.range' i n).map (fun j => JSNum.orZero parts1[j]?))
        ((List.range' i n).map (fun j => JSNum.orZero parts2[j]?))) ∧
    (compareLoop parts1 parts2 i n = 0 ↔
      (List.range' i n).map (fun j => JSNum.orZero parts1[j]?)
        = (List.range' i n).map (fun j => JSNum.orZero parts2[j]?)) := by
  induction n generalizing i with
  | zero =>
    simp only [compareLoop, List.range'_zero, List.map_nil]
    refine ⟨⟨fun h => by simp at h, fun h => by cases h⟩,
      ⟨fun h => by simp at h, fun h => by cases h⟩, by simp⟩
  | succ n ih =>
    simp only [compareLoop, JSNum.gt, List.range'_succ, List.map_cons]
    by_cases h1 : (JSNum.orZero parts2[i]?).lt (JSNum.orZero parts1[i]?) = true
    · have h2 := JSNum.lt_asymm h1
      have hne : JSNum.orZero parts1[i]? ≠ JSNum.orZero parts2[i]? := by
        intro e; rw [e, JSNum.lt_irrefl] at h1; cases h1
      simp only [h1, if_true]
      refine ⟨⟨fun _ => List.Lex.rel h1, fun _ => trivial⟩,
        ⟨fun h => by simp at h, fun h => absurd h (lex_cons_not _ _ h2 hne)⟩,
        ⟨fun h => by simp at h, fun h => ?_⟩⟩
      simp only [List.cons.injEq] at h
      exact absurd h.1 hne
    · have h1f : (JSNum.orZero parts2[i]?).lt (JSNum.orZero parts1[i]?) = false := by
        simpa using h1
      by_cases h2 : (JSNum.orZero parts1[i]?).lt (JSNum.orZero parts2[i]?) = true
      · have hne : JSNum.orZero parts2[i]? ≠ JSNum.orZero parts1[i]? := by
          intro e; rw [e, JSNum.lt_irrefl] at h2; cases h2
        simp only [h1f, h2, Bool.false_eq_true, if_false, if_true]
        refine ⟨⟨fun h => by simp at h, fun h => absurd h (lex_cons_not _ _ h1f hne)⟩,
          ⟨fun _ => List.Lex.rel h2, fun _ => trivial⟩,
          ⟨fun h => by simp at h, fun h => ?_⟩⟩
        simp only [List.cons.injEq] at h
        exact absurd h.1.symm hne
      · have h2f : (JSNum.orZero parts1[i]?).lt (JSNum.orZero parts2[i]?) = false := by
          simpa using h2
        have heq : JSNum.orZero parts1[i]? = JSNum.orZero parts2[i]? :=
          JSNum.eq_of_not_lt (JSNum.orZero_ne_nan _) (JSNum.orZero_ne_nan _) h2f h1f
        simp only [h1f, h2f, Bool.false_eq_true, if_false]
        rw [heq, lex_cons_same, lex_cons_same]
        have := ih (i + 1)
        refine ⟨this.1, this.2.1, ?_⟩
        rw [this.2.2]
        simp

theorem compareLoop_values (parts1 parts2 : List JSNum) (n i : Nat) :
    compareLoop parts1 parts2 i n = 1 ∨ compareLoop parts1 parts2 i n = -1 ∨
      compareLoop parts1 parts2 i n = 0 := by
  induction n generalizing i with
  | zero => simp [compareLoop]
  | succ n ih =>
    simp only [compareLoop]
    split
    · exact Or.inl rfl
    · split
      · exact Or.inr (Or.inl rfl)
      · exact ih (i + 1)

theorem padded_eq_range (v : String) (n : Nat) (hn : (split v '.').length ≤ n) :
    (List.range' 0 n).map (fun j => JSNum.orZero ((split v '.').map jsNumber)[j]?)
      = padZeros n (numericComponents v) := by
  apply List.ext_getElem?
  intro i
  unfold padZeros numericComponents
  by_cases hi : i < n
  · rw [List.getElem?_map, List.getElem?_range' 0 1 hi]
    simp only [Option.map_some', zero_add, one_mul]
    rw [orZero_eq_specComponentValue]
    by_cases hlen : i < (split v '.').length
    · rw [List.getElem?_append_left (by simpa using hlen), List.getElem?_map]
      rw [List.getElem?_eq_getElem hlen]
      rfl
    · have hle : (split v '.').length ≤ i := Nat.le_of_not_lt hlen
      rw [List.getElem?_append_right (by simpa using hle), List.getElem?_replicate]
      rw [List.getElem?_eq_none hle]
      simp only [List.length_map]
      rw [if_pos (by omega)]
      rfl
  · have hle : n ≤ i := Nat.le_of_not_lt hi
    rw [List.getElem?_eq_none (by simpa using hle), List.getElem?_eq_none]
    simp only [List.length_append, List.length_map, List.length_replicate]
    omega

theorem paddedComponents_eq (a b : String) :
    paddedComponents a b =
      (List.range' 0 (max ((split a '.').map jsNumber).length
          ((split b '.').map jsNumber).length)).map
        (fun j => JSNum.orZero ((split a '.').map jsNumber)[j]?) ∧
    paddedComponents b a =
      (List.range' 0 (max ((split a '.').map jsNumber).length
          ((split b '.').map jsNumber).length)).map
        (fun j => JSNum.orZero ((split b '.').map jsNumber)[j]?) := by
  simp only [List.length_map]
  constructor
  · rw [padded_eq_range a _ (le_max_left _ _)]
    simp [paddedComponents, numericComponents]
  · rw [padded_eq_range b _ (le_max_right _ _)]
    simp [paddedComponents, numericComponents, max_comm]

/-- C25: `compareVersions(a, b)` is `1`, `-1` or `0`. It is `1` exactly when the
components of `a` are above those of `b` in the lexicographic order, `-1`
exactly when they are below, and `0` exactly when they are equal, the
components being the numbers between the dots (a component that is not a
number counts as `0`) and the shorter list being padded with zeros. Hence
`compareVersions(a, b) = -compareVersions(b, a)` and `compareVersions(a, a) = 0`
for all strings. The numbers are the doubles that `Number` reads, so
`9007199254740993` equals `9007199254740992`; and `1.0.0-beta` equals `1.0.0`,
its last component not being a number. -/
theorem compareVersions_lexicographic (a b : String) :
    (compareVersions a b = 1 ∨ compareVersions a b = -1 ∨ compareVersions a b = 0) ∧
    (compareVersions a b = 1 ↔
      List.Lex JSNum.Less (paddedComponents b a) (paddedComponents a b)) ∧
    (compareVersions a b = -1 ↔
      List.Lex JSNum.Less (paddedComponents a b) (paddedComponents b a)) ∧
    (compareVersions a b = 0 ↔ paddedComponents a b = paddedComponents b a) ∧
    compareVersions a b = - compareVersions b a ∧
    compareVersions a a = 0 ∧
    compareVersions "9007199254740993" "9007199254740992" = 0 ∧
    compareVersions "1.0.0-beta" "1.0.0" = 0 ∧
    compareVersions "1.10" "1.9" = 1 := by
  have hpad := paddedComponents_eq a b
  have hlex := compareLoop_lex ((split a '.').map jsNumber) ((split b '.').map jsNumber)
    (max ((split a '.').map jsNumber).length ((split b '.').map jsNumber).length) 0
  rw [← hpad.1, ← hpad.2] at hlex
  refine ⟨compareLoop_values _ _ _ _, hlex.1, hlex.2.1, hlex.2.2, ?_, compareLoop_self _ _ _,
    by decide, by decide, by decide⟩
  unfold compareVersions
  simp only []
  rw [compareLoop_neg, max_comm]

/-! ## The three version comparers -/

theorem compareLoop_beyond (parts1 parts2 : List JSNum) (n i : Nat)
    (h1 : parts1.length ≤ i) (h2 : parts2.length ≤ i) :
    compareLoop parts1 parts2 i n = 0 := by
  induction n generalizing i with
  | zero => rfl
  | succ n ih =>
    simp only [compareLoop]
    rw [List.getElem?_eq_none h1, List.getElem?_eq_none h2]
    simp only [JSNum.gt, JSNum.lt_irrefl, Bool.false_eq_true, if_false]
    exact ih (i + 1) (by omega) (by omega)

theorem compareLoop_extend (parts1 parts2 : List JSNum) (n k i : Nat)
    (h1 : parts1.length ≤ i + n) (h2 : parts2.length ≤ i + n) :
    compareLoop parts1 parts2 i (n + k) = compareLoop parts1 parts2 i n := by
  induction n generalizing i with
  | zero =>
    rw [compareLoop_beyond _ _ _ _ (by omega) (by omega)]
    rfl
  | succ n ih =>
    rw [show n + 1 + k = (n + k) + 1 from by omega]
    simp only [compareLoop]
    rw [ih (i + 1) (by omega) (by omega)]

theorem compareLoop_three_iff (parts1 parts2 : List JSNum) :
    0 < compareLoop parts1 parts2 0 3 ↔
      isNewerVersion
        { major := JSNum.orZero parts1[0]?, minor := JSNum.orZero parts1[1]?,
          patch := JSNum.orZero parts1[2]?, string := "" }
        { major := JSNum.orZero parts2[0]?, minor := JSNum.orZero parts2[1]?,
          patch := JSNum.orZero parts2[2]?, string := "" } = true := by
  simp only [compareLoop, isNewerVersion]
  split_ifs <;> simp_all

theorem compareVersions_iff_isNewerVersion (a b : String)
    (ha : (split a '.').length ≤ 3) (hb : (split b '.').length ≤ 3)
    (hva : stripLeadingV a = a) (hvb : stripLeadingV b = b) :
    0 < compareVersions a b ↔ isNewerVersion (parseVersion a) (parseVersion b) = true := by
  have hext := compareLoop_extend ((split a '.').map jsNumber) ((split b '.').map jsNumber)
    (max ((split a '.').map jsNumber).length ((split b '.').map jsNumber).length)
    (3 - max ((split a '.').map jsNumber).length ((split b '.').map jsNumber).length) 0
    (by simp) (by simp)
  have hmax : max ((split a '.').map jsNumber).length ((split b '.').map jsNumber).length
      + (3 - max ((split a '.').map jsNumber).length ((split b '.').map jsNumber).length) = 3 := by
    simp only [List.length_map]
    have := max_le ha hb
    omega
  rw [hmax] at hext
  unfold compareVersions
  simp only []
  rw [← hext, compareLoop_three_iff]
  unfold parseVersion
  simp only [hva, hvb]
  rfl

theorem JSNum.orZero_of_ne_nan (x : JSNum) (h : x ≠ JSNum.nan) : JSNum.orZero (some x) = x := by
  rw [JSNum.orZero_eq_self_or, if_neg h]

theorem isNewerLoop_beyond (latestParts currentParts : List JSNum) (n i : Nat)
    (h : latestParts.length ≤ i) :
    LauncherUpdateService.isNewerLoop latestParts currentParts i n = false := by
  induction n generalizing i with
  | zero => rfl
  | succ n ih =>
    have e1 : latestParts[i]? = none := List.getElem?_eq_none h
    have hnan : ∀ y : JSNum, y.lt JSNum.nan = false := by intro y; cases y <;> rfl
    have hnan2 : ∀ y : JSNum, JSNum.nan.lt y = false := by intro y; cases y <;> rfl
    simp only [LauncherUpdateService.isNewerLoop, elementAt, e1, Option.getD_none, JSNum.gt,
      hnan, hnan2, Bool.false_eq_true, if_false]
    exact ih (i + 1) (by omega)

theorem isNewerLoop_iff_compareLoop (latestParts currentParts : List JSNum)
    (hlen : latestParts.length ≤ currentParts.length)
    (h1 : ∀ x ∈ latestParts, x ≠ JSNum.nan)
    (h2 : ∀ x ∈ currentParts, x ≠ JSNum.nan ∧ x.lt (JSNum.fin 0) = false) (n i : Nat) :
    LauncherUpdateService.isNewerLoop latestParts currentParts i n = true ↔
      0 < compareLoop latestParts currentParts i n := by
  induction n generalizing i with
  | zero => simp [LauncherUpdateService.isNewerLoop, compareLoop]
  | succ n ih =>
    by_cases hi : i < latestParts.length
    · have hi2 : i < currentParts.length := by omega
      have hx := h1 _ (List.getElem_mem hi)
      have hy := (h2 _ (List.getElem_mem hi2)).1
      have e1 : latestParts[i]? = some latestParts[i] := List.getElem?_eq_getElem hi
      have e2 : currentParts[i]? = some currentParts[i] := List.getElem?_eq_getElem hi2
      simp only [LauncherUpdateService.isNewerLoop, compareLoop, elementAt, e1, e2,
        Option.getD_some, JSNum.orZero_of_ne_nan _ hx, JSNum.orZero_of_ne_nan _ hy]
      have := ih (i + 1)
      split_ifs <;> simp_all
    · have hle : latestParts.length ≤ i := Nat.le_of_not_lt hi
      have hfalse := isNewerLoop_beyond latestParts currentParts (n + 1) i hle
      rw [hfalse]
      have hnext := isNewerLoop_beyond latestParts currentParts n (i + 1) (by omega)
      have hrest : ¬ 0 < compareLoop latestParts currentParts (i + 1) n := by
        rw [← ih (i + 1), hnext]; simp
      have e1 : latestParts[i]? = none := List.getElem?_eq_none hle
      have hnum2 : (JSNum.orZero currentParts[i]?).lt (JSNum.fin 0) = false := by
        by_cases hi2 : i < currentParts.length
        · have hy := h2 _ (List.getElem_mem hi2)
          rw [List.getElem?_eq_getElem hi2, JSNum.orZero_of_ne_nan _ hy.1]
          exact hy.2
        · rw [List.getElem?_eq_none (Nat.le_of_not_lt hi2)]
          rfl
      have hzero : JSNum.orZero (none : Option JSNum) = JSNum.fin 0 := rfl
      simp only [compareLoop, e1, hzero, JSNum.gt, hnum2, Bool.false_eq_true, if_false]
      constructor
      · intro h; cases h
      · intro h
        exfalso
        split_ifs at h
        · exact absurd h (by decide)
        · exact hrest h

theorem decimalVersion_parts (v : String) (h : isDecimalVersion v = true) :
    (split v '.').length ≤ 3 ∧
    (∀ x ∈ (split v '.').map jsNumber, x ≠ JSNum.nan ∧ x.lt (JSNum.fin 0) = false) ∧
    stripLeadingV v = v := by
  simp only [isDecimalVersion, Bool.and_eq_true, decide_eq_true_eq, List.all_eq_true,
    Bool.not_eq_true'] at h
  obtain ⟨hlen, hparts⟩ := h
  refine ⟨by simpa [split] using hlen, ?_, ?_⟩
  · intro x hx
    simp only [split, List.map_map, List.mem_map, Function.comp] at hx
    obtain ⟨p, hp, rfl⟩ := hx
    have hpp := hparts p hp
    have hne : (String.mk p).data ≠ [] := by
      intro e
      have hempty := hpp.1
      rw [show p = [] from e] at hempty
      simp at hempty
    rw [jsNumber_digits (String.mk p) hne hpp.2]
    rcases doubleOf_cases (decimalValue (String.mk p).data) 1 with hd | ⟨q, hq, hd⟩
    · rw [hd]; exact ⟨by simp, rfl⟩
    · rw [hd]
      exact ⟨by simp, by simp [JSNum.lt, hq]⟩
  · unfold stripLeadingV
    split
    · rename_i rest hd
      exfalso
      rw [hd] at hparts
      have hv : ('v' : Char) ≠ '.' := by decide
      simp only [splitChars, hv, if_false] at hparts
      cases hs : splitChars '.' rest with
      | nil =>
        rw [hs] at hparts
        have := (hparts ['v'] (by simp)).2 'v' (by simp)
        revert this; decide
      | cons p ps =>
        rw [hs] at hparts
        have := (hparts ('v' :: p) (by simp)).2 'v' (by simp)
        revert this; decide
    · rfl

/-- C29, evaluation at the counterexample: `a = '1.2.1'` and `b = '1.2'`, both
made of decimal natural numbers. `compareVersions(a, b)` is `1` and
`GitHubApiService.isNewerVersion` of the parsed versions is true, but
`LauncherUpdateService.isNewerVersion(a, b)` is false: it reads the missing third
component of `b` as `undefined`, and `1 > undefined` is false. -/
theorem launcher_comparer_disagrees :
    isDecimalVersion "1.2.1" = true ∧ isDecimalVersion "1.2" = true ∧
    compareVersions "1.2.1" "1.2" = 1 ∧
    isNewerVersion (parseVersion "1.2.1") (parseVersion "1.2") = true ∧
    LauncherUpdateService.isNewerVersion "1.2.1" "1.2" = false := by
  decide

/-- C29, amended: for all strings `a` and `b` of one to three dot-separated
decimal natural numbers, `compareVersions(a, b) > 0` holds exactly when
`GitHubApiService.isNewerVersion(parseVersion(a), parseVersion(b))` does; and
`LauncherUpdateService.isNewerVersion(a, b)` agrees with both whenever `b` has at least
as many components as `a`, in particular whenever `b` has three, as the
launcher's own version `'1.0.0'` has. -/
theorem version_comparers_agree (a b : String) (ha : isDecimalVersion a = true)
    (hb : isDecimalVersion b = true) :
    (0 < compareVersions a b ↔ isNewerVersion (parseVersion a) (parseVersion b) = true) ∧
    ((split a '.').length ≤ (split b '.').length →
      (LauncherUpdateService.isNewerVersion a b = true ↔ 0 < compareVersions a b)) ∧
    ((split b '.').length = 3 →
      (LauncherUpdateService.isNewerVersion a b = true ↔ 0 < compareVersions a b)) := by
  have pa := decimalVersion_parts a ha
  have pb := decimalVersion_parts b hb
  have key : (split a '.').length ≤ (split b '.').length →
      (LauncherUpdateService.isNewerVersion a b = true ↔ 0 < compareVersions a b) := by
    intro hlen
    have hext := compareLoop_extend ((split a '.').map jsNumber) ((split b '.').map jsNumber)
      (max ((split a '.').map jsNumber).length ((split b '.').map jsNumber).length)
      (3 - max ((split a '.').map jsNumber).length ((split b '.').map jsNumber).length) 0
      (by simp) (by simp)
    have hmax : max ((split a '.').map jsNumber).length ((split b '.').map jsNumber).length
        + (3 - max ((split a '.').map jsNumber).length ((split b '.').map jsNumber).length)
        = 3 := by
      simp only [List.length_map]
      have := max_le pa.1 pb.1
      omega
    rw [hmax] at hext
    unfold LauncherUpdateService.isNewerVersion compareVersions
    simp only []
    rw [← hext]
    exact isNewerLoop_iff_compareLoop _ _ (by simpa using hlen) (fun x hx => (pa.2.1 x hx).1)
      pb.2.1 3 0
  refine ⟨compareVersions_iff_isNewerVersion a b pa.1 pb.1 pa.2.2 pb.2.2, key, fun h3 => ?_⟩
  exact key (by rw [h3]; exact pa.1)

/-- Witness of C29 (amended): the launcher at `1.0.0` is offered the tag `1.3`. -/
theorem version_comparers_agree_witness :
    (0 < compareVersions "1.3" "1.0.0" ↔
      isNewerVersion (parseVersion "1.3") (parseVersion "1.0.0") = true) ∧
    (LauncherUpdateService.isNewerVersion "1.3" "1.0.0" = true ↔
      0 < compareVersions "1.3" "1.0.0") :=
  have h := version_comparers_agree "1.3" "1.0.0" (by decide) (by decide)
  ⟨h.1, h.2.2 (by decide)⟩

/-! ## The installed tree -/

theorem Node.get?_append (root : Node) (p q : Path) :
    root.get? (p ++ q) = (root.get? p).bind (fun n => n.get? q) := by
  induction p generalizing root with
  | nil => simp [Node.get?]
  | cons c t ih =>
    cases root with
    | file content => simp [Node.get?]
    | dir es =>
      simp only [List.cons_append]
      rw [Node.get?_dir_cons, Node.get?_dir_cons]
      cases getEntry es c with
      | none => rfl
      | some k => exact ih k

theorem Node.get?_append_none (root : Node) (p q : Path) (h : root.get? p = none) :
    root.get? (p ++ q) = none := by
  rw [Node.get?_append, h]; rfl

theorem sameAt_refl (x : Option Node) : sameAt x x = true := by
  cases x with
  | none => rfl
  | some n => cases n <;> simp [sameAt]

theorem sameAt_none_right (x : Option Node) (h : sameAt x none = true) : x = none := by
  cases x with
  | none => rfl
  | some n => cases n <;> simp [sameAt] at h

theorem getEntry_none_of_not_mem {α : Type} (es : List (String × α)) (e : String)
    (h : e ∉ es.map Prod.fst) : getEntry es e = none := by
  induction es with
  | nil => rfl
  | cons x rest ih =>
    obtain ⟨k, v⟩ := x
    simp only [List.map_cons, List.mem_cons, not_or] at h
    have hk : k ≠ e := fun heq => h.1 heq.symm
    simp only [getEntry, hk, if_false]
    exact ih h.2

theorem mkdirRecursive_get_below (root root' : Node) (p : Path)
    (h : mkdirRecursive root p = Except.ok root') (x : String) (r : Path) :
    root'.get? (p ++ x :: r) = root.get? (p ++ x :: r) := by
  induction p generalizing root root' with
  | nil =>
    cases root with
    | file content => simp [mkdirRecursive] at h
    | dir es =>
      simp only [mkdirRecursive, Except.ok.injEq] at h
      subst h
      rfl
  | cons c t ih =>
    cases root with
    | file content => simp [mkdirRecursive] at h
    | dir es =>
      simp only [mkdirRecursive] at h
      simp only [List.cons_append]
      cases hk : getEntry es c with
      | none =>
        simp only [hk] at h
        cases hm : mkdirRecursive (Node.dir []) t with
        | error e => simp [hm] at h
        | ok k' =>
          simp only [hm, Except.ok.injEq] at h
          subst h
          rw [Node.get?_dir_cons, Node.get?_dir_cons, getEntry_setEntry_same, hk]
          simp only []
          rw [ih _ _ hm]
          cases t <;> simp [Node.get?, getEntry]
      | some k =>
        simp only [hk] at h
        cases hm : mkdirRecursive k t with
        | error e => simp [hm] at h
        | ok k' =>
          simp only [hm, Except.ok.injEq] at h
          subst h
          rw [Node.get?_dir_cons, Node.get?_dir_cons, getEntry_setEntry_same, hk]
          exact ih _ _ hm

theorem copyEntries_copies (faults : Faults) (pre : Path) (a b : String) (hab : a ≠ b)
    (fuel : Nat)
    (ih : ∀ (fs : Node) (r1 r2 : Path),
      (∀ rel, fs.get? (pre ++ b :: (r2 ++ rel)) = none ∨
        sameAt (fs.get? (pre ++ b :: (r2 ++ rel))) (fs.get? (pre ++ a :: (r1 ++ rel))) = true) →
      (copyRecursive faults fuel fs (pre ++ a :: r1) (pre ++ b :: r2)).error = none →
      ∀ rel, sameAt
        ((copyRecursive faults fuel fs (pre ++ a :: r1) (pre ++ b :: r2)).fs.get?
          (pre ++ b :: (r2 ++ rel)))
        (fs.get? (pre ++ a :: (r1 ++ rel))) = true)
    (fs0 : Node) (r1 r2 : Path) (entries : List String) (fs : Node)
    (hsrc : ∀ rel, fs.get? (pre ++ a :: (r1 ++ rel)) = fs0.get? (pre ++ a :: (r1 ++ rel)))
    (hsub : ∀ e rel, fs.get? (pre ++ b :: (r2 ++ e :: rel)) = none ∨
      sameAt (fs.get? (pre ++ b :: (r2 ++ e :: rel)))
        (fs0.get? (pre ++ a :: (r1 ++ e :: rel))) = true)
    (hok : (copyEntries (copyRecursive faults fuel) (pre ++ a :: r1) (pre ++ b :: r2)
      entries fs).error = none) :
    (∀ e rel,
      (copyEntries (copyRecursive faults fuel) (pre ++ a :: r1) (pre ++ b :: r2)
          entries fs).fs.get? (pre ++ b :: (r2 ++ e :: rel)) = none ∨
      sameAt ((copyEntries (copyRecursive faults fuel) (pre ++ a :: r1) (pre ++ b :: r2)
          entries fs).fs.get? (pre ++ b :: (r2 ++ e :: rel)))
        (fs0.get? (pre ++ a :: (r1 ++ e :: rel))) = true) ∧
    (∀ e,
      ((∀ rel, sameAt (fs.get? (pre ++ b :: (r2 ++ e :: rel)))
          (fs0.get? (pre ++ a :: (r1 ++ e :: rel))) = true) ∨ e ∈ entries) →
      ∀ rel, sameAt ((copyEntries (copyRecursive faults fuel) (pre ++ a :: r1) (pre ++ b :: r2)
          entries fs).fs.get? (pre ++ b :: (r2 ++ e :: rel)))
        (fs0.get? (pre ++ a :: (r1 ++ e :: rel))) = true) := by
  induction entries generalizing fs with
  | nil =>
    simp only [copyEntries]
    refine ⟨hsub, fun e h => ?_⟩
    rcases h with h | h
    · exact h
    · simp at h
  | cons x rest ihl =>
    have hs : pre ++ a :: r1 ++ [x] = pre ++ a :: (r1 ++ [x]) := by simp
    have hd : pre ++ b :: r2 ++ [x] = pre ++ b :: (r2 ++ [x]) := by simp
    have e1 : ∀ (r rel : Path), r ++ [x] ++ rel = r ++ x :: rel := by intro r rel; simp
    simp only [copyEntries] at hok ⊢
    rw [hs, hd] at hok ⊢
    have hstep := ih fs (r1 ++ [x]) (r2 ++ [x]) (by
      intro rel
      rw [e1, e1, hsrc (x :: rel)]
      exact hsub x rel)
    have fr_src : ∀ rel,
        (copyRecursive faults fuel fs (pre ++ a :: (r1 ++ [x])) (pre ++ b :: (r2 ++ [x]))).fs.get?
          (pre ++ a :: (r1 ++ rel)) = fs.get? (pre ++ a :: (r1 ++ rel)) := fun rel =>
      copyRecursive_get_diverge faults pre b a (r1 ++ rel) hab.symm fuel fs
        (pre ++ a :: (r1 ++ [x])) (r2 ++ [x])
    have fr_other : ∀ e, x ≠ e → ∀ rel,
        (copyRecursive faults fuel fs (pre ++ a :: (r1 ++ [x])) (pre ++ b :: (r2 ++ [x]))).fs.get?
          (pre ++ b :: (r2 ++ e :: rel)) = fs.get? (pre ++ b :: (r2 ++ e :: rel)) := by
      intro e hne rel
      have := copyRecursive_get_diverge faults (pre ++ b :: r2) x e rel hne fuel fs
        (pre ++ a :: (r1 ++ [x])) []
      simpa using this
    generalize copyRecursive faults fuel fs (pre ++ a :: (r1 ++ [x]))
      (pre ++ b :: (r2 ++ [x])) = out at hok hstep fr_src fr_other ⊢
    obtain ⟨fs', err⟩ := out
    cases err with
    | some msg => simp at hok
    | none =>
      simp only [] at hok hstep fr_src fr_other ⊢
      have hfull : ∀ rel, sameAt (fs'.get? (pre ++ b :: (r2 ++ x :: rel)))
          (fs0.get? (pre ++ a :: (r1 ++ x :: rel))) = true := by
        intro rel
        have := hstep trivial rel
        rw [e1, e1, hsrc (x :: rel)] at this
        exact this
      have hsrc' : ∀ rel, fs'.get? (pre ++ a :: (r1 ++ rel))
          = fs0.get? (pre ++ a :: (r1 ++ rel)) := fun rel => by rw [fr_src rel, hsrc rel]
      have hsub' : ∀ e rel, fs'.get? (pre ++ b :: (r2 ++ e :: rel)) = none ∨
          sameAt (fs'.get? (pre ++ b :: (r2 ++ e :: rel)))
            (fs0.get? (pre ++ a :: (r1 ++ e :: rel))) = true := by
        intro e rel
        by_cases hx : x = e
        · subst hx; exact Or.inr (hfull rel)
        · rw [fr_other e hx rel]; exact hsub e rel
      have hrest := ihl fs' hsrc' hsub' hok
      refine ⟨hrest.1, fun e h => hrest.2 e ?_⟩
      rcases h with h | h
      · left
        intro rel
        by_cases hx : x = e
        · subst hx; exact hfull rel
        · rw [fr_other e hx rel]; exact h rel
      · rcases List.mem_cons.1 h with h | h
        · left; subst h; exact hfull
        · right; exact h

theorem copyRecursive_copies (faults : Faults) (pre : Path) (a b : String) (hab : a ≠ b)
    (fuel : Nat) (fs : Node) (r1 r2 : Path)
    (hsub : ∀ rel, fs.get? (pre ++ b :: (r2 ++ rel)) = none ∨
      sameAt (fs.get? (pre ++ b :: (r2 ++ rel))) (fs.get? (pre ++ a :: (r1 ++ rel))) = true)
    (hok : (copyRecursive faults fuel fs (pre ++ a :: r1) (pre ++ b :: r2)).error = none) :
    ∀ rel, sameAt
      ((copyRecursive faults fuel fs (pre ++ a :: r1) (pre ++ b :: r2)).fs.get?
        (pre ++ b :: (r2 ++ rel)))
      (fs.get? (pre ++ a :: (r1 ++ rel))) = true := by
  induction fuel generalizing fs r1 r2 with
  | zero => simp [copyRecursive] at hok
  | succ fuel ih =>
    intro rel
    have hdir := copyRecursive_dest faults (fuel + 1) fs (pre ++ a :: r1) (pre ++ b :: r2) hok
    have pa : ∀ t : Path, pre ++ a :: (r1 ++ t) = (pre ++ a :: r1) ++ t := by intro t; simp
    have pb : ∀ t : Path, pre ++ b :: (r2 ++ t) = (pre ++ b :: r2) ++ t := by intro t; simp
    cases hstat : fs.get? (pre ++ a :: r1) with
    | none => simp [copyRecursive, hstat] at hok
    | some stats =>
      cases stats with
      | file content =>
        cases hcp : copyFile faults fs (pre ++ a :: r1) (pre ++ b :: r2) with
        | error e => simp [copyRecursive, hstat, Node.isDirectory, hcp] at hok
        | ok fs1 =>
          have hrun : copyRecursive faults (fuel + 1) fs (pre ++ a :: r1) (pre ++ b :: r2)
              = { fs := fs1, error := none } := by
            simp [copyRecursive, hstat, Node.isDirectory, hcp]
          rw [hrun]
          simp only []
          have hdest : fs1.get? (pre ++ b :: r2) = some (Node.file content) := by
            unfold copyFile at hcp
            simp only [hstat] at hcp
            split at hcp
            · simp at hcp
            · split at hcp
              · simp at hcp
              · split at hcp
                · rename_i fs2 hset
                  simp only [Except.ok.injEq] at hcp
                  subst hcp
                  exact Node.set_get_same _ _ _ _ hset
                · simp at hcp
          rw [pa, pb, Node.get?_append fs1 (pre ++ b :: r2) rel,
            Node.get?_append fs (pre ++ a :: r1) rel, hdest, hstat]
          exact sameAt_refl _
      | dir es0 =>
        cases hmk : mkdirRecursive fs (pre ++ b :: r2) with
        | error e => simp [copyRecursive, hstat, Node.isDirectory, hmk] at hok
        | ok fs1 =>
          have hfs1 : ∀ t, fs1.get? (pre ++ a :: (r1 ++ t)) = fs.get? (pre ++ a :: (r1 ++ t)) :=
            fun t => mkdirRecursive_get_diverge pre b a r2 (r1 ++ t) hab.symm fs fs1 hmk
          have hsrc1 : fs1.get? (pre ++ a :: r1) = some (Node.dir es0) := by
            have := hfs1 []
            simp only [List.append_nil] at this
            rw [this, hstat]
          have hrd : readdir fs1 (pre ++ a :: r1) = Except.ok (es0.map Prod.fst) := by
            simp [readdir, hsrc1]
          have hrun : copyRecursive faults (fuel + 1) fs (pre ++ a :: r1) (pre ++ b :: r2)
              = copyEntries (copyRecursive faults fuel) (pre ++ a :: r1) (pre ++ b :: r2)
                  (es0.map Prod.fst) fs1 := by
            simp [copyRecursive, hstat, Node.isDirectory, hmk, hrd]
          rw [hrun] at hok hdir ⊢
          have hsub1 : ∀ e t, fs1.get? (pre ++ b :: (r2 ++ e :: t)) = none ∨
              sameAt (fs1.get? (pre ++ b :: (r2 ++ e :: t)))
                (fs.get? (pre ++ a :: (r1 ++ e :: t))) = true := by
            intro e t
            have hbelow := mkdirRecursive_get_below fs fs1 (pre ++ b :: r2) hmk e t
            rw [← pb] at hbelow
            rw [hbelow]
            exact hsub (e :: t)
          have loop := copyEntries_copies faults pre a b hab fuel
            (fun fs r1 r2 h1 h2 => ih fs r1 r2 h1 h2) fs r1 r2 (es0.map Prod.fst) fs1
            hfs1 hsub1 hok
          cases rel with
          | nil =>
            obtain ⟨es, hes⟩ := hdir.2 ⟨es0, hstat⟩
            simp only [List.append_nil]
            rw [hes, hstat]
            rfl
          | cons e t =>
            by_cases hmem : e ∈ es0.map Prod.fst
            · exact loop.2 e (Or.inr hmem) t
            · have hnone : fs.get? (pre ++ a :: (r1 ++ e :: t)) = none := by
                rw [pa, Node.get?_append fs (pre ++ a :: r1) (e :: t), hstat]
                simp only [Option.some_bind]
                rw [Node.get?_dir_cons, getEntry_none_of_not_mem es0 e hmem]
              rcases loop.1 e t with h | h
              · rw [h, hnone]; rfl
              · exact h

theorem backupPathOf_concat (p : Path) (l : String) (now : Nat) :
    backupPathOf (p ++ [l]) now = p ++ [l ++ "_backup_" ++ toString now] := by
  obtain ⟨tp, last, ht, hb⟩ := backupPathOf_eq (p ++ [l]) now (by simp)
  obtain ⟨h1, h2⟩ := List.append_inj' ht rfl
  simp only [List.cons.injEq, and_true] at h2
  rw [hb, ← h1, ← h2]

theorem backupPathOf_diverge (pre : Path) (a b : String) (r1 r2 : Path) (now : Nat)
    (hab : a ≠ b)
    (hbk : ¬ backupPathOf (pre ++ b :: r2) now <+: pre ++ a :: r1) :
    ∃ b' r2', backupPathOf (pre ++ b :: r2) now = pre ++ b' :: r2' ∧ b' ≠ a := by
  rcases List.eq_nil_or_concat r2 with h | ⟨L, l, h⟩
  · subst h
    have hb := backupPathOf_concat pre b now
    refine ⟨b ++ "_backup_" ++ toString now, [], hb, fun e => hbk ?_⟩
    rw [hb, e]
    exact ⟨r1, by simp⟩
  · rw [List.concat_eq_append] at h
    subst h
    have hb : backupPathOf (pre ++ b :: (L ++ [l])) now
        = pre ++ b :: (L ++ [l ++ "_backup_" ++ toString now]) := by
      have e : pre ++ b :: (L ++ [l]) = (pre ++ b :: L) ++ [l] := by simp
      rw [e, backupPathOf_concat]
      simp
    exact ⟨b, _, hb, fun e => hab e.symm⟩

/-- C28: when `installUpdate(source, target)` returns successfully, every path
below the target holds what the same path below the source held when the call
started: a file with the same content where the source has a file, a
directory where it has a directory, and nothing where it has nothing, so that
no file of the previous installation is left. The two paths lie side by side
(they part at some component: `a ≠ b`) and the source is not at or below the
backup path `<target>_backup_<timestamp>`. -/
theorem install_success_target_equals_source (faults : Faults) (fuel now : Nat) (fs : Node)
    (sourcePath targetPath pre : Path) (a b : String) (r1 r2 : Path)
    (hs : sourcePath = pre ++ a :: r1) (ht : targetPath = pre ++ b :: r2) (hab : a ≠ b)
    (hbk : ¬ backupPathOf targetPath now <+: sourcePath)
    (hok : (installUpdate faults fuel now fs sourcePath targetPath).error = none) :
    ∀ rel, sameAt ((installUpdate faults fuel now fs sourcePath targetPath).fs.get?
        (targetPath ++ rel)) (fs.get? (sourcePath ++ rel)) = true := by
  subst hs
  subst ht
  have pa : ∀ t : Path, (pre ++ a :: r1) ++ t = pre ++ a :: (r1 ++ t) := by intro t; simp
  have pb : ∀ t : Path, (pre ++ b :: r2) ++ t = pre ++ b :: (r2 ++ t) := by intro t; simp
  obtain ⟨b', r2', hbackup, hb'⟩ := backupPathOf_diverge pre a b r1 r2 now hab hbk
  obtain ⟨tp, last, htarget, hbackup2⟩ := backupPathOf_eq (pre ++ b :: r2) now (by simp)
  have hlast : last ++ "_backup_" ++ toString now ≠ last :=
    fun h => backup_name_ne last now h.symm
  unfold installUpdate at hok ⊢
  simp only [] at hok ⊢
  cases hren : (if existsSync fs (pre ++ b :: r2) then
      rename fs (pre ++ b :: r2) (backupPathOf (pre ++ b :: r2) now) else Except.ok fs) with
  | error e => rw [hren] at hok; simp at hok
  | ok fs1 =>
    rw [hren] at hok
    simp only [] at hok ⊢
    have hfacts : fs1.get? (pre ++ b :: r2) = none ∧
        ∀ t, fs1.get? (pre ++ a :: (r1 ++ t)) = fs.get? (pre ++ a :: (r1 ++ t)) := by
      by_cases hex : existsSync fs (pre ++ b :: r2) = true
      · rw [if_pos hex] at hren
        unfold rename at hren
        cases hold : fs.get? (pre ++ b :: r2) with
        | none => simp [hold] at hren
        | some n =>
          simp only [hold] at hren
          have hne : pre ++ b :: r2 ≠ backupPathOf (pre ++ b :: r2) now := by
            rw [hbackup2]
            intro h
            rw [htarget] at h
            have := List.append_cancel_left h
            simp only [List.cons.injEq, and_true] at this
            exact hlast this.symm
          simp only [hne, if_false] at hren
          split at hren
          · simp at hren
          · split at hren
            · split at hren
              · rename_i fs' hset
                simp only [Except.ok.injEq] at hren
                subst hren
                constructor
                · have hset2 := hset
                  rw [hbackup2] at hset2
                  have h1 := Node.set_get_diverge tp (last ++ "_backup_" ++ toString now) last
                    [] [] hlast _ n fs' hset2
                  rw [← htarget] at h1
                  rw [h1]
                  exact Node.remove_get_same fs (pre ++ b :: r2) (by simp)
                · intro t
                  have hset2 := hset
                  rw [hbackup] at hset2
                  rw [Node.set_get_diverge pre b' a r2' (r1 ++ t) hb' _ n fs' hset2]
                  exact Node.remove_get_diverge pre b a r2 (r1 ++ t) hab.symm fs
              · simp at hren
            · simp at hren
      · have hex' : existsSync fs (pre ++ b :: r2) = false := by simpa using hex
        rw [hex'] at hren
        simp only [Bool.false_eq_true, if_false, Except.ok.injEq] at hren
        subst hren
        refine ⟨?_, fun t => rfl⟩
        unfold existsSync at hex'
        cases hg : fs.get? (pre ++ b :: r2) with
        | none => rfl
        | some n => rw [hg] at hex'; simp at hex'
    have hcopy := copyRecursive_copies faults pre a b hab fuel fs1 r1 r2
      (fun rel => Or.inl (by
        rw [← pb]
        exact Node.get?_append_none fs1 (pre ++ b :: r2) rel hfacts.1))
    generalize copyRecursive faults fuel fs1 (pre ++ a :: r1) (pre ++ b :: r2) = out
      at hok hcopy ⊢
    obtain ⟨fs2, err⟩ := out
    cases err with
    | some msg => simp at hok
    | none =>
      simp only [] at hcopy ⊢
      intro rel
      have hsame : (if existsSync fs2 (backupPathOf (pre ++ b :: r2) now) = true then
          rmRecursive fs2 (backupPathOf (pre ++ b :: r2) now) else fs2).get?
            ((pre ++ b :: r2) ++ rel) = fs2.get? ((pre ++ b :: r2) ++ rel) := by
        split
        · rw [hbackup2]
          have e : (pre ++ b :: r2) ++ rel = tp ++ last :: rel := by rw [htarget]; simp
          rw [e]
          exact Node.remove_get_diverge tp _ last [] rel hlast fs2
        · rfl
      rw [hsame, pa, pb, ← hfacts.2 rel]
      exact hcopy trivial rel

/-- Witness of C28: the update of the sample installation. The old
`VERSION.txt`, which the new version does not ship, is gone from the target. -/
theorem install_success_target_equals_source_witness :
    sameAt ((installUpdate (fun _ => none) 5 17 sampleDisk ["tmp", "extracted"]
        ["games", "Illusion"]).fs.get? (["games", "Illusion"] ++ ["VERSION.txt"]))
      (sampleDisk.get? (["tmp", "extracted"] ++ ["VERSION.txt"])) = true :=
  install_success_target_equals_source (fun _ => none) 5 17 sampleDisk ["tmp", "extracted"]
    ["games", "Illusion"] [] "tmp" "games" ["extracted"] ["Illusion"] rfl rfl (by decide)
    (by decide) (by decide) ["VERSION.txt"]

end Launcher
